import Mathlib

/-!
# Must-gather resource index: a shallow embedding

Embedding of `pkg/mustgather/index.go`, `pkg/mustgather/provider.go` and the
record-producing part of `pkg/mustgather/loader.go`, together with the
accessors of `k8s.io/apimachinery` they call (`unstructured.Unstructured`,
`runtime.DeepCopyJSONValue`, `schema.GroupVersionKind`).

Conventions of the embedding.

* A Go `map[K]V` is an association list with pairwise distinct keys, kept in
  insertion order.  Go leaves the iteration order of a map unspecified, so
  every statement about the content of a listing is made up to permutation.
* A Go call may return a value, return a non-nil `error`, or panic; the three
  outcomes are the constructors of `Result`.
* Records are held by the index through pointers that are never written after
  `Add`; they are embedded by value.  The one place where aliasing is
  observable, the namespace roster, has a memory-level model of its own
  (`SliceHeap`).
* The archive on disk is a tree of `FsNode`s, in which a file may be
  unreadable and a directory may refuse to be listed; `filepath.Walk` is
  embedded over that tree.  The YAML decoder and the RFC 3339 parser are
  parameters of the loader.
-/

namespace MustGather

/-! ## Go maps -/

/-- A Go map as an association list in insertion order. -/
abbrev GoMap (κ ν : Type) := List (κ × ν)

namespace GoMap

variable {κ ν : Type}

/-- Lookup `m[k]` together with its `found` flag. -/
def get? [DecidableEq κ] : GoMap κ ν → κ → Option ν
  | [], _ => none
  | (k', v) :: m, k => if k' = k then some v else get? m k

/-- Assignment `m[k] = v`: overwrite the entry of `k` or add a new one. -/
def set [DecidableEq κ] : GoMap κ ν → κ → ν → GoMap κ ν
  | [], k, v => [(k, v)]
  | (k', v') :: m, k, v => if k' = k then (k, v) :: m else (k', v') :: set m k v

/-- The keys of the map. -/
def keys (m : GoMap κ ν) : List κ := m.map Prod.fst

/-- The values a `range` loop visits. -/
def values (m : GoMap κ ν) : List ν := m.map Prod.snd

end GoMap

/-! ## Decoded documents -/

/-- A value of type `interface{}` inside a decoded document.  `int` is the
platform integer that `yaml.v3` produces for integer scalars; `int64` and
`float64` are the numeric types of JSON-decoded trees; `other` stands for a
value of any further dynamic type (`uint64`, `time.Time`, ...), named by its
Go type. -/
inductive Value where
  | null
  | bool (b : Bool)
  | str (s : String)
  | int (i : Int)
  | int64 (i : Int)
  | float64 (bits : Nat)
  | other (goType : String)
  | slice (xs : List Value)
  | map (kvs : List (String × Value))

/-- The struct `unstructured.Unstructured`: a record is its decoded body. -/
structure Unstructured where
  Object : GoMap String Value

/-- The struct `schema.GroupVersionKind`. -/
structure GroupVersionKind where
  Group : String
  Version : String
  Kind : String
deriving DecidableEq

/-- Go's `string` type, under a name that stays free inside namespaces defining
a `String` method. -/
abbrev GoString := String

/-- Go's slice type `[]T` read as a value, under a name that stays free inside
namespaces defining a `List` method. -/
abbrev GoSlice (α : Type) := List α

/-- Outcome of a Go call returning `(value, error)`. -/
inductive Result (α : Type) where
  | ok (v : α)
  | err (msg : String)
  | panic

mutual
/-- Embedding of `runtime.DeepCopyJSONValue`: maps and slices are cloned
recursively, `string`, `int64`, `bool`, `float64` and `nil` are returned as
they are, every other dynamic type hits `panic("cannot deep copy %T")`,
rendered as `none`. -/
def DeepCopyJSONValue : Value → Option Value
  | .map kvs => (deepCopyFields kvs).map Value.map
  | .slice xs => (deepCopyItems xs).map Value.slice
  | .int _ => none
  | .other _ => none
  | .null => some .null
  | .bool b => some (.bool b)
  | .str s => some (.str s)
  | .int64 i => some (.int64 i)
  | .float64 f => some (.float64 f)
/-- The loop `for k, v := range x` of `DeepCopyJSONValue` over a map. -/
def deepCopyFields : List (String × Value) → Option (List (String × Value))
  | [] => some []
  | (k, v) :: rest =>
    match DeepCopyJSONValue v, deepCopyFields rest with
    | some v', some rest' => some ((k, v') :: rest')
    | _, _ => none
/-- The loop `for i, v := range x` of `DeepCopyJSONValue` over a slice. -/
def deepCopyItems : List Value → Option (List Value)
  | [] => some []
  | v :: rest =>
    match DeepCopyJSONValue v, deepCopyItems rest with
    | some v', some rest' => some (v' :: rest')
    | _, _ => none
end

/-! ## Go string helpers -/

/-- The separator scan of `strings.Split` for a one-character separator, over
the characters of the string; an input without separator yields one piece. -/
def splitChars (sep : Char) : List Char → List (List Char)
  | [] => [[]]
  | c :: cs =>
    if c = sep then [] :: splitChars sep cs
    else match splitChars sep cs with
      | [] => [[c]]
      | piece :: pieces => (c :: piece) :: pieces

/-- Embedding of `strings.Split(s, sep)` for a one-character separator. -/
def stringsSplit (s : String) (sep : Char) : List String :=
  (splitChars sep s.data).map String.mk

/-- Splitting at the first separator only, over the characters. -/
def cutChars (sep : Char) : List Char → Option (List Char × List Char)
  | [] => none
  | c :: cs =>
    if c = sep then some ([], cs)
    else match cutChars sep cs with
      | none => none
      | some (before, after) => some (c :: before, after)

/-- Embedding of `strings.SplitN(s, sep, 2)` for a one-character separator. -/
def stringsSplitN2 (s : String) (sep : Char) : List String :=
  match cutChars sep s.data with
  | none => [s]
  | some (before, after) => [String.mk before, String.mk after]

/-- Embedding of `unicode.IsSpace`. -/
def isSpace (c : Char) : Bool :=
  let n := c.toNat
  (9 ≤ n && n ≤ 13) || n = 0x20 || n = 0x85 || n = 0xA0 || n = 0x1680 ||
  (0x2000 ≤ n && n ≤ 0x200A) || n = 0x2028 || n = 0x2029 || n = 0x202F ||
  n = 0x205F || n = 0x3000

/-- Embedding of `strings.TrimSpace`. -/
def stringsTrimSpace (s : String) : String :=
  String.mk ((s.data.dropWhile isSpace).reverse.dropWhile isSpace).reverse

/-! ## Accessors of `unstructured.Unstructured` -/

/-- Embedding of `unstructured.NestedFieldNoCopy`: `ok none` is "not found",
`err` the accessor error raised when the path runs into a non-map. -/
def NestedFieldNoCopy : Value → List String → Result (Option Value)
  | val, [] => .ok (some val)
  | .null, _ :: _ => .ok none
  | .map m, field :: fields =>
    match GoMap.get? m field with
    | none => .ok none
    | some val => NestedFieldNoCopy val fields
  | _, _ :: _ => .err "accessor error: expected map[string]interface{}"

/-- Embedding of `unstructured.NestedString`: value, `found` flag, error. -/
def NestedString (obj : GoMap String Value) (fields : List String) :
    String × Bool × Bool :=
  match NestedFieldNoCopy (.map obj) fields with
  | .ok (some (.str s)) => (s, true, false)
  | .ok (some _) => ("", false, true)
  | .ok none => ("", false, false)
  | _ => ("", false, true)

/-- Embedding of the unexported `getNestedString`. -/
def getNestedString (obj : GoMap String Value) (fields : List String) : String :=
  match NestedString obj fields with
  | (val, true, false) => val
  | _ => ""

/-- The loop of `unstructured.NestedStringMap` that copies a map whose values
must all be strings; `none` is its error return. -/
def toStringMap : GoMap String Value → GoMap String String → Option (GoMap String String)
  | [], acc => some acc
  | (k, .str s) :: rest, acc => toStringMap rest (GoMap.set acc k s)
  | _ :: _, _ => none

/-- Embedding of `schema.ParseGroupVersion`; `none` is its error return. -/
def ParseGroupVersion (gv : String) : Option (String × String) :=
  if gv = "" ∨ gv = "/" then some ("", "")
  else match splitChars '/' gv.data with
    | [version] => some ("", String.mk version)
    | [group, version] => some (String.mk group, String.mk version)
    | _ => none

namespace Unstructured

/-- Embedding of `(*Unstructured).GetAPIVersion`. -/
def GetAPIVersion (u : Unstructured) : String := getNestedString u.Object ["apiVersion"]

/-- Embedding of `(*Unstructured).GetKind`. -/
def GetKind (u : Unstructured) : String := getNestedString u.Object ["kind"]

/-- Embedding of `(*Unstructured).GetNamespace`. -/
def GetNamespace (u : Unstructured) : String :=
  getNestedString u.Object ["metadata", "namespace"]

/-- Embedding of `(*Unstructured).GetName`. -/
def GetName (u : Unstructured) : String := getNestedString u.Object ["metadata", "name"]

/-- Embedding of `(*Unstructured).GroupVersionKind`: an unparsable apiVersion
gives the zero value. -/
def GroupVersionKind (u : Unstructured) : MustGather.GroupVersionKind :=
  match ParseGroupVersion u.GetAPIVersion with
  | none => ⟨"", "", ""⟩
  | some (g, v) => ⟨g, v, u.GetKind⟩

/-- Embedding of `(*Unstructured).GetLabels`: the string map at
`metadata.labels`, or the nil map when it is absent or not a string map. -/
def GetLabels (u : Unstructured) : GoMap String String :=
  match NestedFieldNoCopy (.map u.Object) ["metadata", "labels"] with
  | .ok (some (.map m)) => (toStringMap m []).getD []
  | _ => []

/-- Embedding of `(*Unstructured).DeepCopy`; `none` is the panic of
`runtime.DeepCopyJSON`. -/
def DeepCopy (u : Unstructured) : Option Unstructured :=
  (deepCopyFields u.Object).map Unstructured.mk

end Unstructured

/-- Embedding of `schema.GroupVersionKind.String`. -/
def GroupVersionKind.String (gvk : GroupVersionKind) : GoString :=
  gvk.Group ++ "/" ++ gvk.Version ++ ", Kind=" ++ gvk.Kind

/-- Embedding of `schema.GroupVersion.String` applied to `gvk.GroupVersion()`. -/
def GroupVersionKind.GroupVersionString (gvk : GroupVersionKind) : GoString :=
  if gvk.Group.length > 0 then gvk.Group ++ "/" ++ gvk.Version else gvk.Version

/-! ## The resource index (`index.go`) -/

/-- The struct `ResourceIndex`. -/
structure ResourceIndex where
  byGVK : GoMap GroupVersionKind (GoMap String Unstructured)
  byNamespace : GoMap String (GoMap GroupVersionKind (GoMap String Unstructured))
  byLabel : GoMap String (GoMap String Unstructured)
  namespaces : List String

/-- Embedding of `NewResourceIndex`. -/
def NewResourceIndex : ResourceIndex := ⟨[], [], [], []⟩

/-- The key under which `Add` and `Get` address a record inside its kind
bucket: `key := name; if namespace != "" { key = namespace + "/" + name }`. -/
def identityKey (namespace_ name : String) : String :=
  if namespace_ ≠ "" then namespace_ ++ "/" ++ name else name

/-- One round of the loop `for key, value := range labels` of `Add`. -/
def addLabel (namespace_ name : String) (resource : Unstructured)
    (byLabel : GoMap String (GoMap String Unstructured)) (kv : String × String) :
    GoMap String (GoMap String Unstructured) :=
  let labelKey := kv.1 ++ "=" ++ kv.2
  byLabel.set labelKey
    (((byLabel.get? labelKey).getD []).set (namespace_ ++ "/" ++ name) resource)

namespace ResourceIndex

/-- Embedding of `(*ResourceIndex).Add`. -/
def Add (idx : ResourceIndex) (resource : Unstructured) : ResourceIndex :=
  let gvk := resource.GroupVersionKind
  let name := resource.GetName
  let namespace_ := resource.GetNamespace
  let key := identityKey namespace_ name
  let byGVK := idx.byGVK.set gvk (((idx.byGVK.get? gvk).getD []).set key resource)
  let byNamespace :=
    if namespace_ ≠ "" then
      let nsMap := (idx.byNamespace.get? namespace_).getD []
      idx.byNamespace.set namespace_
        (nsMap.set gvk (((nsMap.get? gvk).getD []).set name resource))
    else idx.byNamespace
  let byLabel := resource.GetLabels.foldl (addLabel namespace_ name resource) idx.byLabel
  { byGVK := byGVK, byNamespace := byNamespace, byLabel := byLabel,
    namespaces := idx.namespaces }

end ResourceIndex

/-- Embedding of `BuildIndex`. -/
def BuildIndex (resources : List Unstructured) (namespaces : List String) : ResourceIndex :=
  resources.foldl ResourceIndex.Add { NewResourceIndex with namespaces := namespaces }

/-- The loop `for _, resource := range m { append(resources, resource.DeepCopy()) }`
shared by `List` and `FindByLabel`; `none` when a `DeepCopy` panics. -/
def copyAll : List Unstructured → Option (List Unstructured)
  | [] => some []
  | r :: rest =>
    match r.DeepCopy, copyAll rest with
    | some r', some rest' => some (r' :: rest')
    | _, _ => none

/-- The outcome of a copying loop that is followed by `return resources, nil`. -/
def returnCopies (rs : List Unstructured) : Result (List Unstructured) :=
  match copyAll rs with
  | some copies => .ok copies
  | none => .panic

/-- The loop `for i := 1; i < len(selectors); i++` of `FindByLabel`: `none` is
the early `return make(...), nil` taken when a term has no bucket. -/
def intersectSelectors (byLabel : GoMap String (GoMap String Unstructured)) :
    GoMap String Unstructured → List String → Option (GoMap String Unstructured)
  | candidates, [] => some candidates
  | candidates, selector :: rest =>
    match byLabel.get? (stringsTrimSpace selector) with
    | none => none
    | some selectorMap =>
      intersectSelectors byLabel
        (candidates.filter (fun entry => (selectorMap.get? entry.1).isSome)) rest

namespace ResourceIndex

/-- Embedding of `(*ResourceIndex).Get`. -/
def Get (idx : ResourceIndex) (gvk : GroupVersionKind) (namespace_ name : String) :
    Result Unstructured :=
  match idx.byGVK.get? gvk with
  | none => .err ("no resources found for GVK: " ++ gvk.String)
  | some gvkMap =>
    match gvkMap.get? (identityKey namespace_ name) with
    | none =>
      .err ("resource not found: " ++ namespace_ ++ "/" ++ name ++
        " (GVK: " ++ gvk.String ++ ")")
    | some resource =>
      match resource.DeepCopy with
      | some copy => .ok copy
      | none => .panic

/-- Embedding of `(*ResourceIndex).List`. -/
def List (idx : ResourceIndex) (gvk : GroupVersionKind) (namespace_ : String) :
    Result (GoSlice Unstructured) :=
  if namespace_ ≠ "" then
    match idx.byNamespace.get? namespace_ with
    | none => .ok []
    | some nsMap =>
      match nsMap.get? gvk with
      | none => .ok []
      | some gvkMap => returnCopies gvkMap.values
  else
    match idx.byGVK.get? gvk with
    | none => .ok []
    | some gvkMap => returnCopies gvkMap.values

/-- Embedding of `(*ResourceIndex).FindByLabel`. -/
def FindByLabel (idx : ResourceIndex) (labelSelector : String) :
    Result (GoSlice Unstructured) :=
  if labelSelector = "" then .ok []
  else
    match stringsSplit labelSelector ',' with
    | [] => .ok []
    | first :: rest =>
      match idx.byLabel.get? (stringsTrimSpace first) with
      | none => .ok []
      | some candidates =>
        match intersectSelectors idx.byLabel candidates rest with
        | none => .ok []
        | some remaining => returnCopies remaining.values

/-- Embedding of `(*ResourceIndex).ListNamespaces`. -/
def ListNamespaces (idx : ResourceIndex) : GoSlice String := idx.namespaces

end ResourceIndex

/-! ## The query facade (`provider.go`) -/

/-- The struct `api.ListOptions`. -/
structure ListOptions where
  LabelSelector : String
  FieldSelector : String
  Limit : Int

/-- The struct `unstructured.UnstructuredList`. -/
structure UnstructuredList where
  Object : GoMap String Value
  Items : List Unstructured

/-- The struct `Provider`, reduced to the fields the queries read. -/
structure Provider where
  path : String
  index : ResourceIndex

/-- The test `resource.GroupVersionKind() != gvk` / `namespace != "" &&
resource.GetNamespace() != namespace` of the label path of `ListResources`:
true for the entries that reach `filtered = append(filtered, resource)`. -/
def matchesKindAndNamespace (gvk : GroupVersionKind) (namespace_ : String)
    (resource : Unstructured) : Bool :=
  if resource.GroupVersionKind ≠ gvk then false
  else if namespace_ ≠ "" ∧ resource.GetNamespace ≠ namespace_ then false
  else true

/-- The test of the loop of `applyFieldSelector`: the field is found without
accessor error and equals the value. -/
def fieldMatches (fieldPath : List String) (value : String) (resource : Unstructured) : Bool :=
  match NestedString resource.Object fieldPath with
  | (fieldValue, true, false) => decide (fieldValue = value)
  | _ => false

namespace Provider

/-- Embedding of `(*Provider).applyFieldSelector`. -/
def applyFieldSelector (_p : Provider) (resources : List Unstructured)
    (fieldSelector : String) : Result (GoSlice Unstructured) :=
  match stringsSplitN2 fieldSelector '=' with
  | [field, value] =>
    .ok (resources.filter (fieldMatches (stringsSplit field '.') value))
  | _ => .err ("invalid field selector: " ++ fieldSelector)

/-- The first step of `ListResources`: the label path or the list path. -/
def selectResources (p : Provider) (gvk : GroupVersionKind) (namespace_ : String)
    (opts : ListOptions) : Result (GoSlice Unstructured) :=
  if opts.LabelSelector ≠ "" then
    match p.index.FindByLabel opts.LabelSelector with
    | .ok resources => .ok (resources.filter (matchesKindAndNamespace gvk namespace_))
    | .err msg => .err msg
    | .panic => .panic
  else p.index.List gvk namespace_

/-- The `Apply limit` step of `ListResources`. -/
def applyLimit (limit : Int) (resources : List Unstructured) : GoSlice Unstructured :=
  if limit > 0 ∧ (resources.length : Int) > limit then resources.take limit.toNat
  else resources

/-- Embedding of `(*Provider).ListResources`. -/
def ListResources (p : Provider) (gvk : GroupVersionKind) (namespace_ : String)
    (opts : ListOptions) : Result UnstructuredList :=
  match p.selectResources gvk namespace_ opts with
  | .err msg => .err msg
  | .panic => .panic
  | .ok resources =>
    let afterField :=
      if opts.FieldSelector ≠ "" then p.applyFieldSelector resources opts.FieldSelector
      else .ok resources
    match afterField with
    | .err msg => .err msg
    | .panic => .panic
    | .ok selected =>
      .ok { Object := [("apiVersion", .str gvk.GroupVersionString),
                       ("kind", .str (gvk.Kind ++ "List"))],
            Items := applyLimit opts.Limit selected }

/-- Embedding of `(*Provider).GetResource`. -/
def GetResource (p : Provider) (gvk : GroupVersionKind) (namespace_ name : String) :
    Result Unstructured :=
  p.index.Get gvk namespace_ name

/-- Embedding of `(*Provider).ListNamespaces`. -/
def ListNamespaces (p : Provider) : Result (GoSlice String) :=
  .ok p.index.ListNamespaces

end Provider

/-! ## The loader's record construction (`loader.go`) -/

/-- The loop over `itemSlice` in `loadMultiResourceFile`: one record per item
that is an object map. -/
def itemsToResources : List Value → List Unstructured
  | [] => []
  | .map itemMap :: rest => ⟨itemMap⟩ :: itemsToResources rest
  | _ :: rest => itemsToResources rest

/-- Embedding of `loadMultiResourceFile` after `yaml.Unmarshal` has succeeded
with the decoded document `obj`. -/
def loadMultiResourceDocument (obj : GoMap String Value) : List Unstructured :=
  if obj.length = 0 then []
  else if "List".data.isSuffixOf (NestedString obj ["kind"]).1.data then
    match GoMap.get? obj "items" with
    | some (.slice itemSlice) => itemsToResources itemSlice
    | _ => []
  else [⟨obj⟩]

/-- Embedding of `loadSingleResourceFile` after `yaml.Unmarshal` has succeeded
with the decoded document `obj`; `none` is the skipped empty file. -/
def loadSingleResourceDocument (obj : GoMap String Value) : Option Unstructured :=
  if obj.length = 0 then none else some ⟨obj⟩

/-! ## Aliasing of the namespace roster -/

/-- Memory holding the backing arrays of `[]string` values, by address. -/
structure SliceHeap where
  arrays : List (List String)

/-- A `[]string` slice header spanning the whole backing array at `array`. -/
structure StringSlice where
  array : Nat

namespace SliceHeap

/-- The elements a slice header denotes in the current memory. -/
def load (h : SliceHeap) (s : StringSlice) : List String := h.arrays.getD s.array []

/-- In-place overwrite of the elements behind a slice header. -/
def store (h : SliceHeap) (s : StringSlice) (xs : List String) : SliceHeap :=
  ⟨h.arrays.set s.array xs⟩

/-- Allocation of a fresh backing array. -/
def alloc (h : SliceHeap) (xs : List String) : SliceHeap × StringSlice :=
  (⟨h.arrays ++ [xs]⟩, ⟨h.arrays.length⟩)

end SliceHeap

/-- The struct `ResourceIndex` with its `namespaces` field as the slice header
it is in memory; the three map views are those of `ResourceIndex`. -/
structure SharedIndex where
  views : ResourceIndex
  namespaces : StringSlice

/-- `BuildIndex` at memory level: `idx.namespaces = namespaces` stores the
caller's slice header, no element is copied. -/
def BuildSharedIndex (h : SliceHeap) (resources : List Unstructured)
    (namespaces : StringSlice) : SharedIndex :=
  ⟨BuildIndex resources (h.load namespaces), namespaces⟩

/-- `(*ResourceIndex).ListNamespaces` at memory level: `return idx.namespaces`
hands out the stored slice header. -/
def SharedIndex.ListNamespaces (idx : SharedIndex) : StringSlice := idx.namespaces

/-- Go's `a <= b` on strings: lexicographic order of the encoded text. -/
def charsLE : List Char → List Char → Bool
  | [], _ => true
  | _ :: _, [] => false
  | a :: as, b :: bs =>
    if a.toNat < b.toNat then true
    else if b.toNat < a.toNat then false
    else charsLE as bs

/-- Insertion of one element into a sorted slice. -/
def sortedInsert (a : String) : List String → List String
  | [] => [a]
  | b :: bs => if charsLE a.data b.data then a :: b :: bs else b :: sortedInsert a bs

/-- Embedding of `sort.Strings`: sorts the elements behind the header in place. -/
def sortStrings (h : SliceHeap) (s : StringSlice) : SliceHeap :=
  h.store s ((h.load s).foldr sortedInsert [])

/-- Embedding of the tool handler `namespacesList` (`toolsets/core/namespaces.go`):
the memory after the call and the text it reports, with the count already
rendered by `%d`. -/
def namespacesList (h : SliceHeap) (idx : SharedIndex) : SliceHeap × String :=
  let namespaces := idx.ListNamespaces
  let h' := sortStrings h namespaces
  (h', "Found " ++ toString (h'.load namespaces).length ++ " namespaces:\n\n" ++
    "\n".intercalate (h'.load namespaces) ++ "\n")

/-! ## Further accessors and steps -/

/-- Embedding of `(*ResourceIndex).Count`. -/
def ResourceIndex.Count (idx : ResourceIndex) : Nat :=
  idx.byGVK.foldl (fun count entry => count + entry.2.length) 0

/-- The part of `ListResources` that precedes `Apply limit`: the label or list
path, then the field selector when one is given. -/
def Provider.filterResources (p : Provider) (gvk : GroupVersionKind) (namespace_ : String)
    (opts : ListOptions) : Result (GoSlice Unstructured) :=
  match p.selectResources gvk namespace_ opts with
  | .err msg => .err msg
  | .panic => .panic
  | .ok resources =>
    if opts.FieldSelector ≠ "" then p.applyFieldSelector resources opts.FieldSelector
    else .ok resources

/-! ## The archive as a directory tree -/

/-- A node of the archive on disk.  A file carries its content, or `none`
when `os.ReadFile` fails on it; a directory carries its entries in listing
order and whether `os.ReadDir` succeeds on it.  An inaccessible node is a
name on which `os.Stat`, `os.Lstat`, `os.ReadFile` and `os.ReadDir` all fail
with an error other than "does not exist"; it carries what `IsDir()` of its
directory entry reports.  Symbolic links are left out. -/
inductive FsNode where
  | file (content : Option String)
  | dir (listable : Bool) (entries : List (String × FsNode))
  | inaccessible (isDir : Bool)

namespace FsNode

/-- The result of `IsDir()` on the node's file info or directory entry. -/
def isDir : FsNode → Bool
  | .dir _ _ => true
  | .file _ => false
  | .inaccessible isDir => isDir

/-- The node that a successful `os.Stat(filepath.Join(dir, name))` finds;
`none` stands for every failure of that call, whatever its error. -/
def child : FsNode → String → Option FsNode
  | .dir _ entries, name =>
    match GoMap.get? entries name with
    | some (.inaccessible _) => none
    | found => found
  | .file _, _ => none
  | .inaccessible _, _ => none

/-- The outcome of `os.ReadFile` on the node. -/
def readFile : FsNode → Option String
  | .file content => content
  | .dir _ _ => none
  | .inaccessible _ => none

/-- The outcome of `os.ReadDir` on the node. -/
def readDir : FsNode → Option (List (String × FsNode))
  | .dir true entries => some entries
  | _ => none

end FsNode

/-- The outcome of `os.Stat` on the path that leads from the node through the
given names, in a tree whose directories may all be searched, as `Load` tests
it: `none` when a name is missing in a directory, the one error for which
`os.IsNotExist` holds; the node found otherwise, an inaccessible one when the
path runs through a regular file or an inaccessible entry, where `os.Stat`
fails and `os.IsNotExist` does not hold. -/
def statPath : List String → FsNode → Option FsNode
  | [], node => some node
  | name :: rest, .dir _ entries =>
    match GoMap.get? entries name with
    | none => none
    | some found => statPath rest found
  | _ :: _, .file _ => some (.inaccessible false)
  | _ :: _, .inaccessible _ => some (.inaccessible false)

mutual
/-- Embedding of `filepath.Walk` and its unexported `walk` for a walk function
that never returns `SkipDir`: the walk function sees the name of the node,
the node, and whether `os.Lstat` on the node or the listing of the directory
failed, and threads a state. -/
def walk {σ : Type} (walkFn : String → FsNode → Bool → σ → Result σ) (name : String) :
    FsNode → σ → Result σ
  | .file content, s => walkFn name (.file content) false s
  | .dir listable entries, s =>
    match walkFn name (.dir listable entries) (!listable) s with
    | .ok s' => if listable then walkEntries walkFn entries s' else .ok s'
    | .err msg => .err msg
    | .panic => .panic
  | .inaccessible isDir, s => walkFn name (.inaccessible isDir) true s
/-- The loop `for _, name := range names` of `walk`. -/
def walkEntries {σ : Type} (walkFn : String → FsNode → Bool → σ → Result σ) :
    List (String × FsNode) → σ → Result σ
  | [], s => .ok s
  | (name, node) :: rest, s =>
    match walk walkFn name node s with
    | .ok s' => walkEntries walkFn rest s'
    | .err msg => .err msg
    | .panic => .panic
end

/-- The extension scan of `filepath.Ext` over the characters of a file name:
the suffix that starts at the last dot, empty without a dot. -/
def extChars : List Char → List Char
  | [] => []
  | c :: cs =>
    match extChars cs with
    | [] => if c = '.' then c :: cs else []
    | ext => ext

/-- Embedding of `isYAMLFile`, applied to the final element of the path; the
lower-casing is that of the letters `A` to `Z`. -/
def isYAMLFile (name : String) : Bool :=
  let ext := String.mk ((extChars name.data).map Char.toLower)
  ext = ".yaml" || ext = ".yml"

/-- Embedding of `loadSingleResourceFile` for the decoder `decode`, whose
`none` is the error of `yaml.Unmarshal`. -/
def loadSingleResourceFile (decode : String → Option (GoMap String Value)) (node : FsNode) :
    Result (Option Unstructured) :=
  match node.readFile with
  | none => .err "read error"
  | some data =>
    match decode data with
    | none => .err "yaml: unmarshal error"
    | some obj => .ok (loadSingleResourceDocument obj)

/-- Embedding of `loadMultiResourceFile` for the decoder `decode`. -/
def loadMultiResourceFile (decode : String → Option (GoMap String Value)) (node : FsNode) :
    Result (GoSlice Unstructured) :=
  match node.readFile with
  | none => .err "read error"
  | some data =>
    match decode data with
    | none => .err "yaml: unmarshal error"
    | some obj => .ok (loadMultiResourceDocument obj)

/-- The walk function of `loadClusterScopedResources`. -/
def clusterWalkFn (decode : String → Option (GoMap String Value)) (name : String)
    (node : FsNode) (walkErr : Bool) (resources : List Unstructured) :
    Result (GoSlice Unstructured) :=
  if walkErr then .err "walk error"
  else if node.isDir || !isYAMLFile name then .ok resources
  else
    match loadSingleResourceFile decode node with
    | .ok (some resource) => .ok (resources ++ [resource])
    | _ => .ok resources

/-- Embedding of `loadClusterScopedResources` on the directory node. -/
def loadClusterScopedResources (decode : String → Option (GoMap String Value))
    (clusterScopedDir : FsNode) : Result (GoSlice Unstructured) :=
  walk (clusterWalkFn decode) "cluster-scoped-resources" clusterScopedDir []

/-- The walk function of `loadNamespacedResources`. -/
def namespacedWalkFn (decode : String → Option (GoMap String Value)) (name : String)
    (node : FsNode) (walkErr : Bool) (resources : List Unstructured) :
    Result (GoSlice Unstructured) :=
  if walkErr then .err "walk error"
  else if node.isDir || !isYAMLFile name then .ok resources
  else
    match loadMultiResourceFile decode node with
    | .ok fileResources => .ok (resources ++ fileResources)
    | _ => .ok resources

/-- The loop `for _, nsEntry := range namespaceEntries` of
`loadNamespacedResources`, threading the resources and the namespace set. -/
def loadNamespaceEntries (decode : String → Option (GoMap String Value)) :
    List (String × FsNode) → List Unstructured × GoMap String Bool →
      Result (List Unstructured × GoMap String Bool)
  | [], acc => .ok acc
  | (namespace_, node) :: rest, (resources, namespaceSet) =>
    if !node.isDir then loadNamespaceEntries decode rest (resources, namespaceSet)
    else
      match walk (namespacedWalkFn decode) namespace_ node resources with
      | .ok resources' =>
        loadNamespaceEntries decode rest (resources', namespaceSet.set namespace_ true)
      | .err msg => .err msg
      | .panic => .panic

/-- Embedding of `loadNamespacedResources` on the directory node: the
resources and the namespaces. -/
def loadNamespacedResources (decode : String → Option (GoMap String Value))
    (namespacesDir : FsNode) : Result (List Unstructured × List String) :=
  match namespacesDir.readDir with
  | none => .err "readdir error"
  | some namespaceEntries =>
    match loadNamespaceEntries decode namespaceEntries ([], []) with
    | .ok (resources, namespaceSet) => .ok (resources, namespaceSet.keys)
    | .err msg => .err msg
    | .panic => .panic

/-- Embedding of `strings.Contains` over the characters. -/
def hasInfix (sub : List Char) : List Char → Bool
  | [] => sub.isPrefixOf []
  | c :: cs => sub.isPrefixOf (c :: cs) || hasInfix sub cs

/-- The loop of `findContainerDir` over the entries of the listing: the first
directory whose name starts with `quay` or contains `sha256`. -/
def findContainerEntry : List (String × FsNode) → Option (String × FsNode)
  | [] => none
  | (name, node) :: rest =>
    if node.isDir && ("quay".data.isPrefixOf name.data || hasInfix "sha256".data name.data)
    then some (name, node)
    else findContainerEntry rest

/-- Embedding of `findContainerDir` on the node of the base path: the name
and node of the container directory. -/
def findContainerDir (base : FsNode) : Result (String × FsNode) :=
  match base.readDir with
  | none => .err "readdir error"
  | some entries =>
    match findContainerEntry entries with
    | some found => .ok found
    | none => .err "container directory not found"

/-- Instants of `time.Time`, counted from its zero value. -/
abbrev Time := Int

/-- The struct `LoadMetadata`. -/
structure LoadMetadata where
  Path : String
  Version : String
  StartTime : Time
  EndTime : Time
  ResourceCount : Nat
  NamespaceCount : Nat

/-- The struct `LoadResult`. -/
structure LoadResult where
  Resources : List Unstructured
  Namespaces : List String
  Metadata : LoadMetadata

/-- One round of the loop over the lines of the timestamp file in
`loadMetadata`, for the parser `parseTime` of `time.Parse(time.RFC3339, _)`. -/
def applyTimestampLine (parseTime : String → Option Time) (metadata : LoadMetadata)
    (rawLine : String) : LoadMetadata :=
  let line := stringsTrimSpace rawLine
  if "started ".data.isPrefixOf line.data then
    match parseTime (String.mk (line.data.drop "started ".length)) with
    | some t => { metadata with StartTime := t }
    | none => metadata
  else if "ended ".data.isPrefixOf line.data then
    match parseTime (String.mk (line.data.drop "ended ".length)) with
    | some t => { metadata with EndTime := t }
    | none => metadata
  else metadata

/-- Embedding of `loadMetadata`; its error result is always `nil`. -/
def loadMetadata (parseTime : String → Option Time) (containerDir : FsNode)
    (metadata : LoadMetadata) : LoadMetadata :=
  let withVersion :=
    match (containerDir.child "version").bind FsNode.readFile with
    | some data => { metadata with Version := stringsTrimSpace data }
    | none => metadata
  match (containerDir.child "timestamp").bind FsNode.readFile with
  | some data => (stringsSplit data '\n').foldl (applyTimestampLine parseTime) withVersion
  | none => withVersion

/-- The directory `Load` reads from: the container directory when
`findContainerDir` finds one, the given root otherwise. -/
def containerDirOf (root : FsNode) : FsNode :=
  match findContainerDir root with
  | .ok found => found.2
  | _ => root

/-- Embedding of `Load` on the outcome `root` of `os.Stat(mustGatherPath)`:
`none` when it fails with an error for which `os.IsNotExist` holds, the node
at the path otherwise, an inaccessible node when `os.Stat` fails with any
other error; `statPath` computes it from a tree and a path. -/
def Load (decode : String → Option (GoMap String Value)) (parseTime : String → Option Time)
    (mustGatherPath : String) (root : Option FsNode) : Result LoadResult :=
  match root with
  | none => .err ("must-gather path does not exist: " ++ mustGatherPath)
  | some rootNode =>
    let containerDir := containerDirOf rootNode
    let metadata := loadMetadata parseTime containerDir
      { Path := mustGatherPath, Version := "", StartTime := 0, EndTime := 0,
        ResourceCount := 0, NamespaceCount := 0 }
    let clusterScoped : Result (GoSlice Unstructured) :=
      match containerDir.child "cluster-scoped-resources" with
      | none => .ok []
      | some clusterScopedDir => loadClusterScopedResources decode clusterScopedDir
    match clusterScoped with
    | .err msg => .err ("failed to load cluster-scoped resources: " ++ msg)
    | .panic => .panic
    | .ok resources =>
      let namespaced : Result (List Unstructured × List String) :=
        match containerDir.child "namespaces" with
        | none => .ok ([], [])
        | some namespacesDir => loadNamespacedResources decode namespacesDir
      match namespaced with
      | .err msg => .err ("failed to load namespaced resources: " ++ msg)
      | .panic => .panic
      | .ok (nsResources, namespaces) =>
        .ok { Resources := resources ++ nsResources, Namespaces := namespaces,
              Metadata := { metadata with
                ResourceCount := (resources ++ nsResources).length,
                NamespaceCount := namespaces.length } }

/-! ## Notions used in the statements -/

mutual
/-- A value `DeepCopyJSONValue` accepts: built from maps, slices, strings,
`int64`, `float64`, booleans and `nil` only. -/
def Value.copyable : Value → Bool
  | .map kvs => fieldsCopyable kvs
  | .slice xs => itemsCopyable xs
  | .int _ => false
  | .other _ => false
  | _ => true
/-- All field values of a map are copyable. -/
def fieldsCopyable : List (String × Value) → Bool
  | [] => true
  | (_, v) :: rest => v.copyable && fieldsCopyable rest
/-- All items of a slice are copyable. -/
def itemsCopyable : List Value → Bool
  | [] => true
  | v :: rest => v.copyable && itemsCopyable rest
end

/-- A record whose body `DeepCopy` accepts. -/
def Unstructured.copyable (u : Unstructured) : Bool := fieldsCopyable u.Object

/-- The identity key `Add` files a record under inside its kind bucket. -/
def Unstructured.identityKey (r : Unstructured) : String :=
  MustGather.identityKey r.GetNamespace r.GetName

/-- The two-level lookup `idx.byGVK[gvk][key]` of the identity view. -/
def ResourceIndex.lookup (idx : ResourceIndex) (gvk : GroupVersionKind) (key : String) :
    Option Unstructured :=
  (idx.byGVK.get? gvk).bind (fun gvkMap => gvkMap.get? key)

/-- The bucket `idx.byGVK[gvk]`, empty when absent. -/
def ResourceIndex.gvkBucket (idx : ResourceIndex) (gvk : GroupVersionKind) :
    GoMap String Unstructured :=
  (idx.byGVK.get? gvk).getD []

/-- The bucket `idx.byNamespace[namespace][gvk]`, empty when absent. -/
def ResourceIndex.nsBucket (idx : ResourceIndex) (namespace_ : String)
    (gvk : GroupVersionKind) : GoMap String Unstructured :=
  ((idx.byNamespace.get? namespace_).bind (fun nsMap => nsMap.get? gvk)).getD []

/-- Two records that `Add` files under the same kind bucket and key. -/
def sameIdentityKey (r1 r2 : Unstructured) : Prop :=
  r1.GroupVersionKind = r2.GroupVersionKind ∧ r1.identityKey = r2.identityKey

/-- Two records with the same (group, version, kind, namespace, name). -/
def sameIdentity (r1 r2 : Unstructured) : Prop :=
  r1.GroupVersionKind = r2.GroupVersionKind ∧ r1.GetNamespace = r2.GetNamespace ∧
    r1.GetName = r2.GetName

/-- The outcome of a call that post-processes the value of another call and
passes an error or panic through. -/
def Result.map {α β : Type} (f : α → β) : Result α → Result β
  | .ok v => .ok (f v)
  | .err msg => .err msg
  | .panic => .panic

/-- The linear scan of a record collection that keeps the records of kind
`gvk` in namespace `namespace_`. -/
def linearScan (rs : List Unstructured) (gvk : GroupVersionKind) (namespace_ : String) :
    List Unstructured :=
  rs.filter (fun r => decide (r.GroupVersionKind = gvk ∧ r.GetNamespace = namespace_))

/-- Navigation of a body through nested maps along a path: the value reached
when every step finds its field in a map. -/
def navigate : Value → List String → Option Value
  | v, [] => some v
  | .map m, field :: fields =>
    match GoMap.get? m field with
    | none => none
    | some v => navigate v fields
  | _, _ :: _ => none

/-- The navigated value exists, is a string, and equals the target. -/
def reachesString (body : Value) (path : List String) (target : String) : Bool :=
  match navigate body path with
  | some (.str s) => decide (s = target)
  | _ => false

/-- The pieces joined with a separator character between neighbours. -/
def joinWith (sep : Char) : List (List Char) → List Char
  | [] => []
  | [piece] => piece
  | piece :: next :: rest => piece ++ sep :: joinWith sep (next :: rest)

/-- The field selector text `f1.f2.....fn=target` for the path `f1, ..., fn`. -/
def fieldSelectorText (path : List String) (target : String) : String :=
  String.mk (joinWith '.' (path.map String.data) ++ '=' :: target.data)

/-- The message carries the given text: the text occurs inside the message. -/
def carries (msg part : String) : Prop := part.data <:+: msg.data

/-- The record `x` has the (group, version, kind, namespace, name) of `r`. -/
def hasIdentityOf (r x : Unstructured) : Bool :=
  decide (x.GroupVersionKind = r.GroupVersionKind ∧ x.GetNamespace = r.GetNamespace ∧
    x.GetName = r.GetName)

mutual
/-- Every directory of the tree can be listed and no node of it is
inaccessible. -/
def FsNode.walkable : FsNode → Bool
  | .file _ => true
  | .dir listable entries => listable && entriesWalkable entries
  | .inaccessible _ => false
/-- Every directory below the entries can be listed and no node below them
is inaccessible. -/
def entriesWalkable : List (String × FsNode) → Bool
  | [] => true
  | (_, node) :: rest => node.walkable && entriesWalkable rest
end

mutual
/-- The files of the tree with their names, in walking order. -/
def filesOf (name : String) : FsNode → List (String × FsNode)
  | .file content => [(name, .file content)]
  | .dir _ entries => filesOfEntries entries
  | .inaccessible _ => []
/-- The files below the entries, in walking order. -/
def filesOfEntries : List (String × FsNode) → List (String × FsNode)
  | [] => []
  | (name, node) :: rest => filesOf name node ++ filesOfEntries rest
end

/-- The record a cluster-scoped file stands for: the decoded document of a
readable file with a YAML extension, unless it is empty or does not decode. -/
def clusterFileRecords (decode : String → Option (GoMap String Value))
    (file : String × FsNode) : List Unstructured :=
  if isYAMLFile file.1 then
    match file.2.readFile with
    | some data =>
      match decode data with
      | some obj => (loadSingleResourceDocument obj).toList
      | none => []
    | none => []
  else []

/-- The records a namespaced file stands for: those of the decoded document
of a readable file with a YAML extension, none when it does not decode. -/
def namespacedFileRecords (decode : String → Option (GoMap String Value))
    (file : String × FsNode) : List Unstructured :=
  if isYAMLFile file.1 then
    match file.2.readFile with
    | some data =>
      match decode data with
      | some obj => loadMultiResourceDocument obj
      | none => []
    | none => []
  else []

/-- The directory `namespaces` can be listed, and every directory at or below
its namespace directories can be listed and holds no inaccessible node. -/
def namespacesLoadable (namespacesDir : FsNode) : Bool :=
  match namespacesDir.readDir with
  | none => false
  | some entries => entries.all (fun entry => !entry.2.isDir || entry.2.walkable)

/-- The archive root can be listed. -/
def rootListable (root : Option FsNode) : Bool :=
  match root with
  | some rootNode => (rootNode.readDir).isSome
  | none => false

/-- The namespace directories of the archive: the directory entries of
`namespaces`, none when `namespaces` is missing or cannot be listed. -/
def namespaceDirsOf (containerDir : FsNode) : List (String × FsNode) :=
  match (containerDir.child "namespaces").bind FsNode.readDir with
  | none => []
  | some entries => entries.filter (fun entry => entry.2.isDir)

/-- The records of all files below `cluster-scoped-resources`, in walking order. -/
def clusterRecordsOf (decode : String → Option (GoMap String Value))
    (containerDir : FsNode) : List Unstructured :=
  match containerDir.child "cluster-scoped-resources" with
  | none => []
  | some d => (filesOf "cluster-scoped-resources" d).flatMap (clusterFileRecords decode)

/-- The records of all files below the namespace directories, in walking order. -/
def namespacedRecordsOf (decode : String → Option (GoMap String Value))
    (containerDir : FsNode) : List Unstructured :=
  (namespaceDirsOf containerDir).flatMap
    (fun entry => (filesOf entry.1 entry.2).flatMap (namespacedFileRecords decode))

/-- A directory at or below `cluster-scoped-resources`, at or below a
namespace directory, or `namespaces` itself cannot be listed, or a node at or
below `cluster-scoped-resources` or a namespace directory is inaccessible. -/
def walkBlocked (containerDir : FsNode) : Prop :=
  (∃ d, containerDir.child "cluster-scoped-resources" = some d ∧ d.walkable = false) ∨
  (∃ d, containerDir.child "namespaces" = some d ∧ namespacesLoadable d = false)

/-- The path does not exist: one of its names is missing in the directory
that the names before it lead to. -/
def pathMissing (names : List String) (tree : FsNode) : Prop :=
  ∃ front name back listable entries, names = front ++ name :: back ∧
    statPath front tree = some (.dir listable entries) ∧ GoMap.get? entries name = none

/-- A record stored in the namespace view or in the label view of the index. -/
def storedInSideViews (idx : ResourceIndex) (r : Unstructured) : Prop :=
  (∃ ns k name, (idx.nsBucket ns k).get? name = some r) ∨
  (∃ label bucket key, idx.byLabel.get? label = some bucket ∧ bucket.get? key = some r)

/-- The record an element of `items` stands for when it is an object map. -/
def objectRecord : Value → Option Unstructured
  | .map itemMap => some ⟨itemMap⟩
  | _ => none

/-- The value at `kind` of the document is a string that ends with `List`. -/
def kindEndsWithList (d : GoMap String Value) : Prop :=
  ∃ stem : String, d.get? "kind" = some (.str (stem ++ "List"))

/-- The path `Load`, `GetPodLog` and the other accessors continue with after
`findContainerDir`: `filepath.Join(basePath, name)` for the container
directory found, the base path itself otherwise; `join` is `filepath.Join`. -/
def containerPathOf (join : String → String → String) (basePath : String) (root : FsNode) :
    String :=
  match findContainerDir root with
  | .ok found => join basePath found.1
  | _ => basePath

/-- The entry is a directory whose name starts with `quay` or contains `sha256`. -/
def qualifies (entry : String × FsNode) : Prop :=
  entry.2.isDir = true ∧ ("quay".data <+: entry.1.data ∨ "sha256".data <:+: entry.1.data)

/-- The rest of the text after the given prefix, if the text starts with it. -/
def stripPrefix : List Char → List Char → Option (List Char)
  | [], text => some text
  | _ :: _, [] => none
  | p :: ps, c :: cs => if p = c then stripPrefix ps cs else none

/-- The time of a line that, trimmed, reads `keyword` followed by a text the
parser accepts. -/
def timestampOf (parseTime : String → Option Time) (keyword line : String) : Option Time :=
  match stripPrefix keyword.data (stringsTrimSpace line).data with
  | some rest => parseTime (String.mk rest)
  | none => none

/-- The last time of the list, the given one when the list is empty. -/
def lastOr (initial : Time) (times : List Time) : Time :=
  times.foldl (fun _ t => t) initial

/-! ## Log tails (`logs.go`) -/

/-- Go's `int` arithmetic: the value of a result in 64-bit two's complement. -/
def wrapInt64 (i : Int) : Int :=
  (i + 9223372036854775808) % 18446744073709551616 - 9223372036854775808

/-- Embedding of `strings.Join` for a one-character separator. -/
def stringsJoin (pieces : List String) (sep : Char) : String :=
  String.mk (joinWith sep (pieces.map String.data))

/-- Embedding of `TailLines`; `panic` is the run-time error of the slice
expression `lines[len(lines)-n:]` when its bound lies outside `0..len(lines)`. -/
def TailLines (content : String) (n : Int) : Result String :=
  let lines := stringsSplit content '\n'
  if (lines.length : Int) ≤ n then .ok content
  else
    let low := wrapInt64 ((lines.length : Int) - n)
    if 0 ≤ low ∧ low ≤ (lines.length : Int) then
      .ok (stringsJoin (lines.drop low.toNat) '\n')
    else .panic

/-- The step `if opts.TailLines > 0 { content = TailLines(content, opts.TailLines) }`
of `GetPodLog`, which `nodeKubeletLogs` and `nodeDiagnostics` repeat with
their own tail count. -/
def applyTail (content : String) (tailLines : Int) : Result String :=
  if tailLines > 0 then TailLines content tailLines else .ok content

/-! ## Concrete manifests used as inputs -/

/-- A decoded manifest with the given identity, labels and `spec` subtree; a
cluster-scoped manifest (empty namespace) carries no `metadata.namespace`. -/
def manifest (apiVersion kind namespace_ name : String) (labels : List (String × String))
    (spec : List (String × Value)) : Unstructured :=
  ⟨[("apiVersion", .str apiVersion), ("kind", .str kind),
    ("metadata", .map
      (("name", Value.str name) ::
        ((if namespace_ = "" then [] else [("namespace", Value.str namespace_)]) ++
          [("labels", Value.map (labels.map fun kv => (kv.1, Value.str kv.2)))]))),
    ("spec", .map spec)]⟩

/-- The kind `v1/Pod`. -/
def podGVK : GroupVersionKind := ⟨"", "v1", "Pod"⟩

/-- The kind `v1/Service`. -/
def serviceGVK : GroupVersionKind := ⟨"", "v1", "Service"⟩

/-- A cluster-scoped record whose name contains a slash. -/
def slashNamed : Unstructured := manifest "example.io/v1" "Widget" "" "a/b" [] []

/-- The record `b` of namespace `a`, of the same kind as `slashNamed`. -/
def nested : Unstructured := manifest "example.io/v1" "Widget" "a" "b" [] []

/-- The kind `example.io/v1/Widget`. -/
def widgetGVK : GroupVersionKind := ⟨"example.io", "v1", "Widget"⟩

/-- Pod `web-1` of namespace `default`, labelled `app=foo`. -/
def podWeb1 : Unstructured :=
  manifest "v1" "Pod" "default" "web-1" [("app", "foo")] [("nodeName", .str "n1")]

/-- Pod `web-2` of namespace `default`, labelled `app=foo`. -/
def podWeb2 : Unstructured :=
  manifest "v1" "Pod" "default" "web-2" [("app", "foo")] [("nodeName", .str "n2")]

/-- Pod `db` of namespace `other`, labelled `app=bar`. -/
def podDb : Unstructured :=
  manifest "v1" "Pod" "other" "db" [("app", "bar")] [("nodeName", .str "n1")]

/-- Pod `web` of namespace `default`, labelled `app=foo`. -/
def podApp : Unstructured := manifest "v1" "Pod" "default" "web" [("app", "foo")] []

/-- Service `web` of namespace `default`, labelled `app=foo`. -/
def serviceApp : Unstructured := manifest "v1" "Service" "default" "web" [("app", "foo")] []

/-- Pod `web` of namespace `default`, labelled `a=1` only. -/
def podA1 : Unstructured := manifest "v1" "Pod" "default" "web" [("a", "1")] []

/-- Service `web` of namespace `default`, labelled `b=2` only. -/
def serviceB2 : Unstructured := manifest "v1" "Service" "default" "web" [("b", "2")] []

/-- A pod manifest as `yaml.Unmarshal` decodes it: the integer scalar
`spec.priority: 0` arrives as a platform `int`. -/
def priorityPodDocument : GoMap String Value :=
  [("apiVersion", .str "v1"), ("kind", .str "Pod"),
   ("metadata", .map [("name", .str "web"), ("namespace", .str "default"),
     ("labels", .map [("app", .str "foo")])]),
   ("spec", .map [("priority", .int 0)])]

/-- Memory holding one roster, in the order the loader produced it. -/
def rosterHeap : SliceHeap := ⟨[["openshift-etcd", "default"]]⟩

/-- The slice header of the roster in `rosterHeap`. -/
def rosterSlice : StringSlice := ⟨0⟩

/-- A pod whose `status.phase` is the given value. -/
def podWithPhase (name : String) (phase : Value) : Unstructured :=
  ⟨[("apiVersion", .str "v1"), ("kind", .str "Pod"),
    ("metadata", .map [("name", .str name), ("namespace", .str "default")]),
    ("status", .map [("phase", phase)])]⟩

/-- A pod whose `status` is a string, not a map. -/
def podFlatStatus : Unstructured :=
  ⟨[("apiVersion", .str "v1"), ("kind", .str "Pod"),
    ("metadata", .map [("name", .str "flat"), ("namespace", .str "default")]),
    ("status", .str "Running")]⟩

/-- Pods whose `status.phase` is `Running`, `Pending`, a number, absent, a
boolean, below a string-valued `status`, and `Running` again. -/
def phasePods : List Unstructured :=
  [podWithPhase "p1" (.str "Running"), podWithPhase "p2" (.str "Pending"),
   podWithPhase "p3" (.int64 1), podWeb1, podWithPhase "p4" (.bool true),
   podFlatStatus, podWithPhase "p5" (.str "Running")]

/-- An older revision of the record `b` of namespace `a`. -/
def nestedOld : Unstructured :=
  manifest "example.io/v1" "Widget" "a" "b" [] [("revision", .str "1")]

/-- A root path that exists as a regular file. -/
def fileRoot : FsNode := .file (some "not an archive")

/-- An archive whose directory `cluster-scoped-resources/core` cannot be listed. -/
def blockedArchive : FsNode :=
  .dir true
    [("cluster-scoped-resources", .dir true [("core", .dir false [])]),
     ("version", .file (some "4.14\n"))]

/-- A directory that holds the regular file `notes` and nothing else. -/
def hostTree : FsNode := .dir true [("notes", fileRoot)]

/-- An archive whose namespace directory `default` is listed by `namespaces`
and cannot be inspected. -/
def unreachableNamespaceArchive : FsNode :=
  .dir true
    [("namespaces", .dir true [("default", .inaccessible true)]),
     ("version", .file (some "4.14\n"))]

/-- An archive whose file `cluster-scoped-resources/nodes.yaml` is listed and
cannot be inspected. -/
def unreachableFileArchive : FsNode :=
  .dir true [("cluster-scoped-resources", .dir true [("nodes.yaml", .inaccessible false)])]

/-- An archive with one undecodable file and a namespace without YAML files. -/
def sampleArchive : FsNode :=
  .dir true
    [("cluster-scoped-resources", .dir true
        [("broken.yaml", .file (some "key: [unclosed")),
         ("core", .dir true [("widget.yaml", .file (some "widget a/b"))])]),
     ("namespaces", .dir true
        [("default", .dir true [("pods.yaml", .file (some "pod web-1"))]),
         ("empty", .dir true [("notes.txt", .file (some "pod web-2"))]),
         ("other", .dir true [("core", .dir true [("pods.yml", .file (some "pod db"))])])]),
     ("version", .file (some "4.14\n"))]

/-- A decoder that knows three documents and fails on every other text. -/
def sampleDecode (data : String) : Option (GoMap String Value) :=
  if data = "widget a/b" then some slashNamed.Object
  else if data = "pod web-1" then some podWeb1.Object
  else if data = "pod db" then some podDb.Object
  else none

/-- A time parser that accepts nothing. -/
def noTime (_text : String) : Option Time := none

/-- The record `b/c` of namespace `a`. -/
def slashInName : Unstructured := manifest "example.io/v1" "Widget" "a" "b/c" [] []

/-- The record `c` of namespace `a/b`, of the same kind as `slashInName`. -/
def slashInNamespace : Unstructured := manifest "example.io/v1" "Widget" "a/b" "c" [] []

/-- Pod `web` of namespace `default` without labels. -/
def podBare : Unstructured := manifest "v1" "Pod" "default" "web" [] []

/-- A decoded `PodList` whose items are a pod, a string, a second pod and a
number. -/
def podListDocument : GoMap String Value :=
  [("apiVersion", .str "v1"), ("kind", .str "PodList"),
   ("items", .slice [.map podWeb1.Object, .str "stray", .map podWeb2.Object, .int 7])]

/-- A decoded cluster-scoped `NodeList` document. -/
def nodeListDocument : GoMap String Value :=
  [("apiVersion", .str "v1"), ("kind", .str "NodeList"), ("items", .slice [])]

/-- A root listing with a matching regular file before two matching directories. -/
def quayRootEntries : List (String × FsNode) :=
  [("event-filter.html", .file (some "")),
   ("quay-io-release-sha256-0f3e.log", .file (some "")),
   ("quay-io-openshift-release-dev-sha256-0f3e", .dir true [("version", .file (some "4.14"))]),
   ("registry-sha256-77aa", .dir true [])]

/-- A time parser that knows two instants. -/
def sampleParseTime (text : String) : Option Time :=
  if text = "2024-05-01T10:00:00Z" then some 100
  else if text = "2024-05-01T11:30:00Z" then some 190
  else none

/-- A container directory with a version file and a timestamp file. -/
def stampedArchive : FsNode :=
  .dir true
    [("timestamp", .file (some
        "started 2024-05-01T10:00:00Z\n  ended 2024-05-01T11:30:00Z \nended soon\n")),
     ("version", .file (some " 4.14.3\n"))]

/-! ## Lemmas on Go maps -/

namespace GoMap

variable {κ ν : Type} [DecidableEq κ]

theorem get?_set_self (m : GoMap κ ν) (k : κ) (v : ν) : (m.set k v).get? k = some v := by
  induction m with
  | nil => simp [set, get?]
  | cons e m ih =>
    obtain ⟨k', v'⟩ := e
    by_cases h : k' = k
    · simp [set, get?, h]
    · simp [set, get?, h, ih]

theorem get?_set_ne (m : GoMap κ ν) {k k' : κ} (v : ν) (h : k ≠ k') :
    (m.set k v).get? k' = m.get? k' := by
  induction m with
  | nil => simp [set, get?, h]
  | cons e m ih =>
    obtain ⟨k0, v0⟩ := e
    by_cases h0 : k0 = k
    · subst h0
      simp [set, get?, h]
    · simp only [set, h0, if_false, get?, ih]

theorem get?_set (m : GoMap κ ν) (k k' : κ) (v : ν) :
    (m.set k v).get? k' = if k = k' then some v else m.get? k' := by
  by_cases h : k = k'
  · subst h
    simp [get?_set_self]
  · simp [h, get?_set_ne m v h]

theorem get?_eq_none_iff (m : GoMap κ ν) (k : κ) : m.get? k = none ↔ k ∉ m.keys := by
  induction m with
  | nil => simp [get?, keys]
  | cons e m ih =>
    obtain ⟨k0, v0⟩ := e
    by_cases h0 : k0 = k
    · simp [get?, keys, h0]
    · have hk : ¬ k = k0 := fun h => h0 h.symm
      simp only [get?, h0, if_false, ih, keys, List.map_cons, List.mem_cons, hk, false_or]

theorem set_of_get?_eq_none (m : GoMap κ ν) (k : κ) (v : ν) (h : m.get? k = none) :
    m.set k v = m ++ [(k, v)] := by
  induction m with
  | nil => simp [set]
  | cons e m ih =>
    obtain ⟨k0, v0⟩ := e
    by_cases h0 : k0 = k
    · simp [get?, h0] at h
    · simp only [get?, h0, if_false] at h
      simp [set, h0, ih h]

theorem mem_of_get?_eq_some (m : GoMap κ ν) (k : κ) (v : ν) (h : m.get? k = some v) :
    (k, v) ∈ m := by
  induction m with
  | nil => simp [get?] at h
  | cons e m ih =>
    obtain ⟨k0, v0⟩ := e
    by_cases h0 : k0 = k
    · simp only [get?, h0, if_true, Option.some.injEq] at h
      simp [h0, h]
    · simp only [get?, h0, if_false] at h
      exact List.mem_cons_of_mem _ (ih h)

end GoMap

/-! ## Lemmas on deep copies -/

mutual
theorem DeepCopyJSONValue_of_copyable : ∀ v : Value, v.copyable = true →
    DeepCopyJSONValue v = some v
  | .map kvs, h => by
    simp only [Value.copyable] at h
    simp [DeepCopyJSONValue, deepCopyFields_of_copyable kvs h]
  | .slice xs, h => by
    simp only [Value.copyable] at h
    simp [DeepCopyJSONValue, deepCopyItems_of_copyable xs h]
  | .int _, h => by simp [Value.copyable] at h
  | .other _, h => by simp [Value.copyable] at h
  | .null, _ => rfl
  | .bool _, _ => rfl
  | .str _, _ => rfl
  | .int64 _, _ => rfl
  | .float64 _, _ => rfl
theorem deepCopyFields_of_copyable : ∀ kvs : List (String × Value),
    fieldsCopyable kvs = true → deepCopyFields kvs = some kvs
  | [], _ => rfl
  | (k, v) :: rest, h => by
    simp only [fieldsCopyable, Bool.and_eq_true] at h
    simp [deepCopyFields, DeepCopyJSONValue_of_copyable v h.1,
      deepCopyFields_of_copyable rest h.2]
theorem deepCopyItems_of_copyable : ∀ xs : List Value,
    itemsCopyable xs = true → deepCopyItems xs = some xs
  | [], _ => rfl
  | v :: rest, h => by
    simp only [itemsCopyable, Bool.and_eq_true] at h
    simp [deepCopyItems, DeepCopyJSONValue_of_copyable v h.1,
      deepCopyItems_of_copyable rest h.2]
end

theorem DeepCopy_of_copyable (u : Unstructured) (h : u.copyable = true) :
    u.DeepCopy = some u := by
  simp [Unstructured.DeepCopy, deepCopyFields_of_copyable u.Object h]

theorem copyAll_of_copyable (rs : List Unstructured) (h : ∀ r ∈ rs, r.copyable = true) :
    copyAll rs = some rs := by
  induction rs with
  | nil => rfl
  | cons r rs ih =>
    have h1 := DeepCopy_of_copyable r (h r (List.mem_cons_self _ _))
    have h2 := ih (fun x hx => h x (List.mem_cons_of_mem _ hx))
    simp [copyAll, h1, h2]

/-! ## Lemmas on the index views -/

theorem BuildIndex_append (rs : List Unstructured) (r : Unstructured) (nss : List String) :
    BuildIndex (rs ++ [r]) nss = (BuildIndex rs nss).Add r := by
  simp [BuildIndex, List.foldl_append]

theorem gvkBucket_Add (idx : ResourceIndex) (r : Unstructured) (k : GroupVersionKind) :
    (idx.Add r).gvkBucket k =
      if r.GroupVersionKind = k then (idx.gvkBucket k).set r.identityKey r
      else idx.gvkBucket k := by
  by_cases h : r.GroupVersionKind = k
  · subst h
    simp [ResourceIndex.gvkBucket, ResourceIndex.Add, GoMap.get?_set_self,
      Unstructured.identityKey]
  · simp [ResourceIndex.gvkBucket, ResourceIndex.Add, GoMap.get?_set_ne _ _ h, h]

theorem lookup_eq_gvkBucket (idx : ResourceIndex) (k : GroupVersionKind) (key : String) :
    idx.lookup k key = (idx.gvkBucket k).get? key := by
  unfold ResourceIndex.lookup ResourceIndex.gvkBucket
  cases idx.byGVK.get? k <;> simp [GoMap.get?]

theorem lookup_Add (idx : ResourceIndex) (r : Unstructured) (k : GroupVersionKind)
    (key : String) :
    (idx.Add r).lookup k key =
      if r.GroupVersionKind = k ∧ r.identityKey = key then some r else idx.lookup k key := by
  rw [lookup_eq_gvkBucket, lookup_eq_gvkBucket, gvkBucket_Add]
  by_cases h : r.GroupVersionKind = k
  · simp only [h, if_true, true_and, GoMap.get?_set]
  · simp [h]

theorem lookup_BuildIndex (rs : List Unstructured) (nss : List String)
    (k : GroupVersionKind) (key : String) :
    (BuildIndex rs nss).lookup k key =
      rs.reverse.find? (fun r => decide (r.GroupVersionKind = k ∧ r.identityKey = key)) := by
  induction rs using List.reverseRecOn with
  | nil => rfl
  | append_singleton rs r ih =>
    rw [BuildIndex_append, lookup_Add, ih]
    by_cases h : r.GroupVersionKind = k ∧ r.identityKey = key
    · simp [h]
    · simp [h]

theorem nsBucket_Add (idx : ResourceIndex) (r : Unstructured) (ns : String)
    (k : GroupVersionKind) :
    (idx.Add r).nsBucket ns k =
      if r.GetNamespace ≠ "" ∧ r.GetNamespace = ns ∧ r.GroupVersionKind = k
      then (idx.nsBucket ns k).set r.GetName r
      else idx.nsBucket ns k := by
  by_cases h0 : r.GetNamespace = ""
  · simp [ResourceIndex.nsBucket, ResourceIndex.Add, h0]
  · by_cases h1 : r.GetNamespace = ns
    · subst h1
      by_cases h2 : r.GroupVersionKind = k
      · subst h2
        cases hb : idx.byNamespace.get? r.GetNamespace <;>
          simp [ResourceIndex.nsBucket, ResourceIndex.Add, h0, GoMap.get?_set_self, hb,
            GoMap.get?]
      · cases hb : idx.byNamespace.get? r.GetNamespace <;>
          simp [ResourceIndex.nsBucket, ResourceIndex.Add, h0, h2, GoMap.get?_set_self,
            GoMap.get?_set_ne _ _ h2, hb, GoMap.get?]
    · simp [ResourceIndex.nsBucket, ResourceIndex.Add, h0, h1, GoMap.get?_set_ne _ _ h1]

theorem returnCopies_nil : returnCopies [] = Result.ok [] := rfl

theorem List_eq_buckets (idx : ResourceIndex) (k : GroupVersionKind) (ns : String) :
    idx.List k ns =
      returnCopies (if ns ≠ "" then idx.nsBucket ns k else idx.gvkBucket k).values := by
  unfold ResourceIndex.List ResourceIndex.nsBucket ResourceIndex.gvkBucket
  by_cases h : ns = ""
  · simp only [h, ne_eq, not_true_eq_false, if_false]
    cases idx.byGVK.get? k <;> simp [GoMap.values, returnCopies_nil]
  · simp only [h, ne_eq, not_false_eq_true, if_true]
    cases idx.byNamespace.get? ns with
    | none => simp [GoMap.values, returnCopies_nil]
    | some nsMap =>
      cases hk : nsMap.get? k <;> simp [GoMap.values, returnCopies_nil, hk]

theorem Get_eq_lookup (idx : ResourceIndex) (k : GroupVersionKind) (ns n : String) :
    idx.Get k ns n =
      match idx.lookup k (identityKey ns n) with
      | none =>
        (match idx.byGVK.get? k with
         | none => Result.err ("no resources found for GVK: " ++ k.String)
         | some _ => Result.err ("resource not found: " ++ ns ++ "/" ++ n ++
            " (GVK: " ++ k.String ++ ")"))
      | some resource =>
        (match resource.DeepCopy with
         | some copy => Result.ok copy
         | none => Result.panic) := by
  unfold ResourceIndex.Get ResourceIndex.lookup
  cases idx.byGVK.get? k with
  | none => simp
  | some m =>
    cases hm : m.get? (identityKey ns n) <;> simp [hm]

theorem Get_err_iff (idx : ResourceIndex) (k : GroupVersionKind) (ns n : String) :
    (∃ msg, idx.Get k ns n = Result.err msg) ↔ idx.lookup k (identityKey ns n) = none := by
  rw [Get_eq_lookup]
  cases hl : idx.lookup k (identityKey ns n) with
  | none =>
    simp only [iff_true]
    cases idx.byGVK.get? k <;> exact ⟨_, rfl⟩
  | some r =>
    cases hc : r.DeepCopy <;> simp [hc]

theorem GoMap.mem_set {κ ν : Type} [DecidableEq κ] (m : GoMap κ ν) (k : κ) (v : ν)
    (e : κ × ν) (h : e ∈ m.set k v) : e = (k, v) ∨ e ∈ m := by
  induction m with
  | nil => simpa [GoMap.set] using h
  | cons e0 m ih =>
    obtain ⟨k0, v0⟩ := e0
    by_cases h0 : k0 = k
    · simp only [GoMap.set, h0, if_true, List.mem_cons] at h
      rcases h with h | h
      · exact Or.inl h
      · exact Or.inr (List.mem_cons_of_mem _ h)
    · simp only [GoMap.set, h0, if_false, List.mem_cons] at h
      rcases h with h | h
      · exact Or.inr (h ▸ List.mem_cons_self _ _)
      · rcases ih h with h | h
        · exact Or.inl h
        · exact Or.inr (List.mem_cons_of_mem _ h)

theorem gvkBucket_mem (rs : List Unstructured) (nss : List String) (k : GroupVersionKind)
    (e : String × Unstructured) (h : e ∈ (BuildIndex rs nss).gvkBucket k) :
    e.2 ∈ rs ∧ e.2.GroupVersionKind = k ∧ e.1 = e.2.identityKey := by
  induction rs using List.reverseRecOn with
  | nil => simp [BuildIndex, NewResourceIndex, ResourceIndex.gvkBucket, GoMap.get?] at h
  | append_singleton rs r ih =>
    rw [BuildIndex_append, gvkBucket_Add] at h
    by_cases hk : r.GroupVersionKind = k
    · simp only [hk, if_true] at h
      rcases GoMap.mem_set _ _ _ _ h with h | h
      · subst h
        simp [hk]
      · obtain ⟨h1, h2⟩ := ih h
        exact ⟨List.mem_append_left _ h1, h2⟩
    · simp only [hk, if_false] at h
      obtain ⟨h1, h2⟩ := ih h
      exact ⟨List.mem_append_left _ h1, h2⟩

theorem nsBucket_mem (rs : List Unstructured) (nss : List String) (ns : String)
    (k : GroupVersionKind) (e : String × Unstructured)
    (h : e ∈ (BuildIndex rs nss).nsBucket ns k) :
    e.2 ∈ rs ∧ e.2.GroupVersionKind = k ∧ e.2.GetNamespace = ns ∧ e.1 = e.2.GetName := by
  induction rs using List.reverseRecOn with
  | nil => simp [BuildIndex, NewResourceIndex, ResourceIndex.nsBucket, GoMap.get?] at h
  | append_singleton rs r ih =>
    rw [BuildIndex_append, nsBucket_Add] at h
    by_cases hk : r.GetNamespace ≠ "" ∧ r.GetNamespace = ns ∧ r.GroupVersionKind = k
    · rw [if_pos hk] at h
      rcases GoMap.mem_set _ _ _ _ h with h | h
      · subst h
        simp [hk.2.1, hk.2.2]
      · obtain ⟨h1, h2⟩ := ih h
        exact ⟨List.mem_append_left _ h1, h2⟩
    · rw [if_neg hk] at h
      obtain ⟨h1, h2⟩ := ih h
      exact ⟨List.mem_append_left _ h1, h2⟩

theorem sameIdentity_of_sameIdentityKey_not {r1 r2 : Unstructured}
    (h : ¬ sameIdentityKey r1 r2) : ¬ sameIdentity r1 r2 := by
  intro hs
  apply h
  refine ⟨hs.1, ?_⟩
  simp [Unstructured.identityKey, hs.2.1, hs.2.2]

theorem gvkBucket_BuildIndex (rs : List Unstructured) (nss : List String)
    (k : GroupVersionKind) (hd : rs.Pairwise (fun r1 r2 => ¬ sameIdentityKey r1 r2)) :
    (BuildIndex rs nss).gvkBucket k =
      (rs.filter (fun r => decide (r.GroupVersionKind = k))).map
        (fun r => (r.identityKey, r)) := by
  induction rs using List.reverseRecOn with
  | nil => rfl
  | append_singleton rs r ih =>
    rw [List.pairwise_append] at hd
    obtain ⟨hd1, -, hd2⟩ := hd
    rw [BuildIndex_append, gvkBucket_Add, ih hd1, List.filter_append, List.map_append]
    by_cases hk : r.GroupVersionKind = k
    · simp only [hk, if_true]
      rw [GoMap.set_of_get?_eq_none]
      · simp [hk]
      · rw [GoMap.get?_eq_none_iff]
        simp only [GoMap.keys, List.map_map, List.mem_map, List.mem_filter,
          decide_eq_true_eq, Function.comp, not_exists, not_and]
        intro x hx hkey
        exact hd2 x hx.1 r (List.mem_singleton_self r) ⟨hx.2.trans hk.symm, hkey⟩
    · simp [hk]

theorem nsBucket_BuildIndex (rs : List Unstructured) (nss : List String) (ns : String)
    (k : GroupVersionKind) (hns : ns ≠ "")
    (hd : rs.Pairwise (fun r1 r2 => ¬ sameIdentity r1 r2)) :
    (BuildIndex rs nss).nsBucket ns k =
      (rs.filter (fun r => decide (r.GroupVersionKind = k ∧ r.GetNamespace = ns))).map
        (fun r => (r.GetName, r)) := by
  induction rs using List.reverseRecOn with
  | nil => rfl
  | append_singleton rs r ih =>
    rw [List.pairwise_append] at hd
    obtain ⟨hd1, -, hd2⟩ := hd
    rw [BuildIndex_append, nsBucket_Add, ih hd1, List.filter_append, List.map_append]
    by_cases hk : r.GroupVersionKind = k ∧ r.GetNamespace = ns
    · have hr : r.GetNamespace ≠ "" := by rw [hk.2]; exact hns
      have hc : r.GetNamespace ≠ "" ∧ r.GetNamespace = ns ∧ r.GroupVersionKind = k :=
        ⟨hr, hk.2, hk.1⟩
      rw [if_pos hc]
      rw [GoMap.set_of_get?_eq_none]
      · simp [hk]
      · rw [GoMap.get?_eq_none_iff]
        simp only [GoMap.keys, List.map_map, List.mem_map, List.mem_filter,
          decide_eq_true_eq, Function.comp, not_exists, not_and]
        intro x hx hname
        exact hd2 x hx.1 r (List.mem_singleton_self r)
          ⟨hx.2.1.trans hk.1.symm, hx.2.2.trans hk.2.symm, hname⟩
    · have hc : ¬ (r.GetNamespace ≠ "" ∧ r.GetNamespace = ns ∧ r.GroupVersionKind = k) :=
        fun h => hk ⟨h.2.2, h.2.1⟩
      rw [if_neg hc]
      simp [hk]

theorem not_sameIdentityKey_symm : Symmetric (fun r1 r2 : Unstructured => ¬ sameIdentityKey r1 r2) := by
  intro a b h hba
  exact h ⟨hba.1.symm, hba.2.symm⟩

theorem lookup_of_mem (rs : List Unstructured) (nss : List String) (r : Unstructured)
    (hd : rs.Pairwise (fun r1 r2 => ¬ sameIdentityKey r1 r2)) (hr : r ∈ rs) :
    (BuildIndex rs nss).lookup r.GroupVersionKind r.identityKey = some r := by
  rw [lookup_BuildIndex]
  cases hf : rs.reverse.find?
      (fun x => decide (x.GroupVersionKind = r.GroupVersionKind ∧ x.identityKey = r.identityKey)) with
  | none =>
    rw [List.find?_eq_none] at hf
    have := hf r (List.mem_reverse.mpr hr)
    simp at this
  | some x =>
    have hp := List.find?_some hf
    have hx : x ∈ rs := List.mem_reverse.mp (List.mem_of_find?_eq_some hf)
    simp only [decide_eq_true_eq] at hp
    by_cases hxr : x = r
    · rw [hxr]
    · exact absurd hp (hd.forall not_sameIdentityKey_symm hx hr hxr)

/-! ## Outcomes of the listing calls -/

theorem returnCopies_ne_err (rs : List Unstructured) (msg : String) :
    returnCopies rs ≠ Result.err msg := by
  unfold returnCopies
  cases copyAll rs <;> simp

theorem List_ne_err (idx : ResourceIndex) (k : GroupVersionKind) (ns msg : String) :
    idx.List k ns ≠ Result.err msg := by
  rw [List_eq_buckets]
  exact returnCopies_ne_err _ msg

theorem List_empty_of_unknown_namespace (idx : ResourceIndex) (k : GroupVersionKind)
    (ns : String) (hns : ns ≠ "") (h : idx.byNamespace.get? ns = none) :
    idx.List k ns = Result.ok [] := by
  simp [ResourceIndex.List, hns, h]

theorem List_empty_of_no_entries (idx : ResourceIndex) (k : GroupVersionKind)
    (ns : String) (hns : ns ≠ "") (h : idx.nsBucket ns k = []) :
    idx.List k ns = Result.ok [] := by
  rw [List_eq_buckets, if_pos hns, h]
  rfl

theorem List_ok_of_copyable (idx : ResourceIndex) (k : GroupVersionKind) (ns : String)
    (h : ∀ e ∈ (if ns ≠ "" then idx.nsBucket ns k else idx.gvkBucket k),
      e.2.copyable = true) :
    idx.List k ns =
      Result.ok (if ns ≠ "" then idx.nsBucket ns k else idx.gvkBucket k).values := by
  rw [List_eq_buckets, returnCopies, copyAll_of_copyable]
  intro r hr
  simp only [GoMap.values, List.mem_map] at hr
  obtain ⟨e, he, rfl⟩ := hr
  exact h e he

theorem FindByLabel_ne_err (idx : ResourceIndex) (sel msg : String) :
    idx.FindByLabel sel ≠ Result.err msg := by
  unfold ResourceIndex.FindByLabel
  split
  · simp
  · split
    · simp
    · split
      · simp
      · split
        · simp
        · exact returnCopies_ne_err _ msg

theorem FindByLabel_empty_selector (idx : ResourceIndex) :
    idx.FindByLabel "" = Result.ok [] := by
  simp [ResourceIndex.FindByLabel]

theorem intersectSelectors_none_of_missing
    (byLabel : GoMap String (GoMap String Unstructured)) (rest : List String)
    (h : ∃ term ∈ rest, byLabel.get? (stringsTrimSpace term) = none)
    (candidates : GoMap String Unstructured) :
    intersectSelectors byLabel candidates rest = none := by
  induction rest generalizing candidates with
  | nil => simp at h
  | cons t rest ih =>
    unfold intersectSelectors
    cases ht : byLabel.get? (stringsTrimSpace t) with
    | none => rfl
    | some m =>
      obtain ⟨term, hmem, hnone⟩ := h
      rcases List.mem_cons.mp hmem with h1 | h1
      · rw [h1, ht] at hnone
        cases hnone
      · exact ih ⟨term, h1, hnone⟩ _

theorem FindByLabel_empty_of_missing_bucket (idx : ResourceIndex) (sel : String)
    (h : ∃ term ∈ stringsSplit sel ',', idx.byLabel.get? (stringsTrimSpace term) = none) :
    idx.FindByLabel sel = Result.ok [] := by
  unfold ResourceIndex.FindByLabel
  split
  · rfl
  · split
    · rfl
    · rename_i first rest hsplit
      rw [hsplit] at h
      cases hf : idx.byLabel.get? (stringsTrimSpace first) with
      | none => rfl
      | some candidates =>
        obtain ⟨term, hmem, hnone⟩ := h
        rcases List.mem_cons.mp hmem with h1 | h1
        · rw [h1, hf] at hnone
          cases hnone
        · simp only []
          rw [intersectSelectors_none_of_missing idx.byLabel rest ⟨term, h1, hnone⟩]

/-! ## Point lookups -/

/-- C1 (as stated, refuted): the cluster-scoped record named `a/b` and the
record `b` of namespace `a` differ in (namespace, name), yet both are filed
under the key `a/b`; `Get` on the identity of the first returns the second. -/
theorem get_slash_name_counterexample :
    [slashNamed, nested].Pairwise (fun r1 r2 => ¬ sameIdentity r1 r2) ∧
    slashNamed.copyable = true ∧ slashNamed.GetName = "a/b" ∧
    (BuildIndex [slashNamed, nested] []).Get slashNamed.GroupVersionKind
      slashNamed.GetNamespace slashNamed.GetName = Result.ok nested ∧
    nested ≠ slashNamed := by
  refine ⟨?_, rfl, rfl, rfl, ?_⟩
  · rw [List.pairwise_pair]
    intro h
    exact absurd h.2.1 (by decide)
  · simp [nested, slashNamed, manifest]

/-- C1 (amended): when no two records are filed under the same kind and
identity key, `Get` on the identity of any loaded record whose body holds no
platform-`int` scalar succeeds and returns that record. -/
theorem get_returns_loaded_record (rs : List Unstructured) (nss : List String)
    (r : Unstructured)
    (hd : rs.Pairwise (fun r1 r2 => ¬ sameIdentityKey r1 r2))
    (hr : r ∈ rs) (hc : r.copyable = true) :
    (BuildIndex rs nss).Get r.GroupVersionKind r.GetNamespace r.GetName = Result.ok r := by
  rw [Get_eq_lookup]
  have hl := lookup_of_mem rs nss r hd hr
  unfold Unstructured.identityKey at hl
  rw [hl]
  simp [DeepCopy_of_copyable r hc]

/-- C1 (amended), instance: the two pods of namespace `default` and the pod of
namespace `other`, queried for `default/web-1`. -/
theorem get_returns_loaded_record_witness :
    (BuildIndex [podWeb1, podWeb2, podDb] ["default", "other"]).Get
      podWeb1.GroupVersionKind podWeb1.GetNamespace podWeb1.GetName = Result.ok podWeb1 :=
  get_returns_loaded_record [podWeb1, podWeb2, podDb] ["default", "other"] podWeb1
    (by
      simp only [List.pairwise_cons, List.mem_cons, List.mem_singleton, List.not_mem_nil,
        forall_eq_or_imp, forall_eq, List.Pairwise.nil, and_true, IsEmpty.forall_iff,
        implies_true]
      refine ⟨⟨?_, ?_⟩, ?_⟩ <;> exact fun h => absurd h.2 (by decide))
    (by simp) rfl

/-! ## Listings -/

theorem flatMap_filter_skip (r : Unstructured) (rs : List Unstructured) (nsl : List String)
    (k : GroupVersionKind)
    (h : ∀ ns ∈ nsl, ¬ (r.GroupVersionKind = k ∧ r.GetNamespace = ns)) :
    nsl.flatMap (fun ns => (r :: rs).filter
        (fun x => decide (x.GroupVersionKind = k ∧ x.GetNamespace = ns))) =
      nsl.flatMap (fun ns => rs.filter
        (fun x => decide (x.GroupVersionKind = k ∧ x.GetNamespace = ns))) := by
  induction nsl with
  | nil => rfl
  | cons n nsl ih =>
    have h1 := h n (List.mem_cons_self _ _)
    have h2 := ih (fun ns hns => h ns (List.mem_cons_of_mem _ hns))
    simp only [List.flatMap_cons, h2]
    rw [List.filter_cons_of_neg (by simpa using h1)]

theorem flatMap_filter_hit (r : Unstructured) (rs : List Unstructured) (nsl : List String)
    (k : GroupVersionKind) (hk : r.GroupVersionKind = k) (hnd : nsl.Nodup)
    (hmem : r.GetNamespace ∈ nsl) :
    (nsl.flatMap (fun ns => (r :: rs).filter
        (fun x => decide (x.GroupVersionKind = k ∧ x.GetNamespace = ns)))).Perm
      (r :: nsl.flatMap (fun ns => rs.filter
        (fun x => decide (x.GroupVersionKind = k ∧ x.GetNamespace = ns)))) := by
  induction nsl with
  | nil => simp at hmem
  | cons n nsl ih =>
    rw [List.nodup_cons] at hnd
    simp only [List.flatMap_cons]
    by_cases hn : r.GetNamespace = n
    · have hskip := flatMap_filter_skip r rs nsl k (fun ns hns hc => by
        apply hnd.1
        rw [← hn, hc.2]
        exact hns)
      rw [hskip, List.filter_cons_of_pos (by simp [hk, hn])]
      exact List.Perm.refl _
    · have hm : r.GetNamespace ∈ nsl := by
        rcases List.mem_cons.mp hmem with h | h
        · exact absurd h hn
        · exact h
      rw [List.filter_cons_of_neg (by simp [hn])]
      exact (List.Perm.append_left _ (ih hnd.2 hm)).trans List.perm_middle

theorem filter_perm_union (rs : List Unstructured) (k : GroupVersionKind)
    (nsl : List String) (hnd : nsl.Nodup) (hne : "" ∉ nsl)
    (hcov : ∀ r ∈ rs, r.GroupVersionKind = k → r.GetNamespace ≠ "" → r.GetNamespace ∈ nsl) :
    (rs.filter (fun x => decide (x.GroupVersionKind = k))).Perm
      (rs.filter (fun x => decide (x.GroupVersionKind = k ∧ x.GetNamespace = "")) ++
        nsl.flatMap (fun ns => rs.filter
          (fun x => decide (x.GroupVersionKind = k ∧ x.GetNamespace = ns)))) := by
  induction rs with
  | nil =>
    have : ∀ l : List String, l.flatMap (fun _ => ([] : List Unstructured)) = [] := by
      intro l
      induction l with
      | nil => rfl
      | cons a l ih => simp
    simp
  | cons r rs ih =>
    have ih' := ih (fun x hx => hcov x (List.mem_cons_of_mem _ hx))
    by_cases hk : r.GroupVersionKind = k
    · by_cases hns : r.GetNamespace = ""
      · rw [List.filter_cons_of_pos (by simp [hk]),
          List.filter_cons_of_pos (by simp [hk, hns]),
          flatMap_filter_skip r rs nsl k (fun ns hmem hc => hne (by
            rw [← hns, hc.2]
            exact hmem))]
        exact List.Perm.cons r ih'
      · have hmem := hcov r (List.mem_cons_self _ _) hk hns
        rw [List.filter_cons_of_pos (by simp [hk]),
          List.filter_cons_of_neg (by simp [hns])]
        refine (List.Perm.cons r ih').trans ?_
        refine List.perm_middle.symm.trans ?_
        exact List.Perm.append_left _ (flatMap_filter_hit r rs nsl k hk hnd hmem).symm
    · rw [List.filter_cons_of_neg (by simp [hk]),
        List.filter_cons_of_neg (by simp [hk]),
        flatMap_filter_skip r rs nsl k (fun ns _ hc => hk hc.1)]
      exact ih'

theorem List_all_of_distinct (rs : List Unstructured) (nss : List String)
    (k : GroupVersionKind)
    (hd : rs.Pairwise (fun r1 r2 => ¬ sameIdentityKey r1 r2))
    (hc : ∀ r ∈ rs, r.GroupVersionKind = k → r.copyable = true) :
    (BuildIndex rs nss).List k "" =
      Result.ok (rs.filter (fun x => decide (x.GroupVersionKind = k))) := by
  rw [List_eq_buckets]
  simp only [ne_eq, not_true_eq_false, if_false, gvkBucket_BuildIndex rs nss k hd,
    GoMap.values, List.map_map]
  have hid : (Prod.snd ∘ fun r : Unstructured => (r.identityKey, r)) = id := rfl
  rw [hid, List.map_id, returnCopies, copyAll_of_copyable]
  intro r hr
  rw [List.mem_filter] at hr
  exact hc r hr.1 (by simpa using hr.2)

theorem List_namespace_of_distinct (rs : List Unstructured) (nss : List String)
    (k : GroupVersionKind) (ns : String) (hns : ns ≠ "")
    (hd : rs.Pairwise (fun r1 r2 => ¬ sameIdentity r1 r2))
    (hc : ∀ r ∈ rs, r.GroupVersionKind = k → r.copyable = true) :
    (BuildIndex rs nss).List k ns =
      Result.ok (rs.filter (fun x => decide (x.GroupVersionKind = k ∧ x.GetNamespace = ns))) := by
  rw [List_eq_buckets]
  simp only [ne_eq, hns, not_false_eq_true, if_true, nsBucket_BuildIndex rs nss ns k hns hd,
    GoMap.values, List.map_map]
  have hid : (Prod.snd ∘ fun r : Unstructured => (r.GetName, r)) = id := rfl
  rw [hid, List.map_id, returnCopies, copyAll_of_copyable]
  intro r hr
  rw [List.mem_filter] at hr
  have := hr.2
  simp only [decide_eq_true_eq] at this
  exact hc r hr.1 this.1

theorem nodup_of_distinct (rs : List Unstructured)
    (hd : rs.Pairwise (fun r1 r2 => ¬ sameIdentityKey r1 r2)) : rs.Nodup := by
  refine List.Pairwise.imp ?_ hd
  intro a b h hab
  exact h (hab ▸ ⟨rfl, rfl⟩)

/-- C2 (as stated, refuted): with a cluster-scoped record named `a/b` and the
record `b` of namespace `a`, identities differ, yet the cross-namespace
listing holds one entry and omits the cluster-scoped record. -/
theorem list_all_omits_counterexample :
    [slashNamed, nested].Pairwise (fun r1 r2 => ¬ sameIdentity r1 r2) ∧
    slashNamed.GroupVersionKind = widgetGVK ∧ slashNamed.GetNamespace = "" ∧
    (BuildIndex [slashNamed, nested] []).List widgetGVK "" = Result.ok [nested] ∧
    (BuildIndex [slashNamed, nested] []).List widgetGVK "a" = Result.ok [nested] ∧
    slashNamed ∉ [nested] := by
  refine ⟨?_, rfl, rfl, rfl, rfl, ?_⟩
  · rw [List.pairwise_pair]
    intro h
    exact absurd h.2.1 (by decide)
  · simp [nested, slashNamed, manifest]

/-- C2 (amended): when no two records are filed under the same kind and
identity key and the records of kind `k` hold no platform-`int` scalar, the
listing `List k ""` is, up to order, the cluster-scoped records of kind `k`
followed by the listings `List k ns` of the namespaces, each record once;
namespaces outside the records contribute nothing. -/
theorem list_all_is_union (rs : List Unstructured) (nss : List String)
    (k : GroupVersionKind) (nsl : List String)
    (hd : rs.Pairwise (fun r1 r2 => ¬ sameIdentityKey r1 r2))
    (hc : ∀ r ∈ rs, r.GroupVersionKind = k → r.copyable = true)
    (hnd : nsl.Nodup) (hne : "" ∉ nsl)
    (hcov : ∀ r ∈ rs, r.GroupVersionKind = k → r.GetNamespace ≠ "" → r.GetNamespace ∈ nsl) :
    ∃ (all : List Unstructured) (perNs : String → List Unstructured),
      (BuildIndex rs nss).List k "" = Result.ok all ∧
      (∀ ns, ns ≠ "" → (BuildIndex rs nss).List k ns = Result.ok (perNs ns)) ∧
      (∀ ns, ns ≠ "" → ns ∉ nsl → perNs ns = []) ∧
      all.Perm (rs.filter (fun r => decide (r.GroupVersionKind = k ∧ r.GetNamespace = "")) ++
        nsl.flatMap perNs) ∧
      all.Nodup := by
  refine ⟨rs.filter (fun x => decide (x.GroupVersionKind = k)),
    fun ns => rs.filter (fun x => decide (x.GroupVersionKind = k ∧ x.GetNamespace = ns)),
    List_all_of_distinct rs nss k hd hc, ?_, ?_, filter_perm_union rs k nsl hnd hne hcov,
    (nodup_of_distinct rs hd).filter _⟩
  · intro ns hns
    exact List_namespace_of_distinct rs nss k ns hns
      (hd.imp (fun h => sameIdentity_of_sameIdentityKey_not h)) hc
  · intro ns hns hnot
    rw [List.filter_eq_nil_iff]
    intro r hr hp
    simp only [decide_eq_true_eq] at hp
    apply hnot
    rw [← hp.2]
    exact hcov r hr hp.1 (by rw [hp.2]; exact hns)

/-- C2 (amended), instance: two pods in `default` and one in `other`. -/
theorem list_all_is_union_witness :
    ∃ (all : List Unstructured) (perNs : String → List Unstructured),
      (BuildIndex [podWeb1, podWeb2, podDb] ["default", "other"]).List podGVK "" =
        Result.ok all ∧
      (∀ ns, ns ≠ "" →
        (BuildIndex [podWeb1, podWeb2, podDb] ["default", "other"]).List podGVK ns =
          Result.ok (perNs ns)) ∧
      (∀ ns, ns ≠ "" → ns ∉ ["default", "other"] → perNs ns = []) ∧
      all.Perm ([podWeb1, podWeb2, podDb].filter
          (fun r => decide (r.GroupVersionKind = podGVK ∧ r.GetNamespace = "")) ++
        ["default", "other"].flatMap perNs) ∧
      all.Nodup :=
  list_all_is_union [podWeb1, podWeb2, podDb] ["default", "other"] podGVK
    ["default", "other"]
    (by
      simp only [List.pairwise_cons, List.mem_cons, List.mem_singleton, List.not_mem_nil,
        forall_eq_or_imp, forall_eq, List.Pairwise.nil, and_true, IsEmpty.forall_iff,
        implies_true]
      refine ⟨⟨?_, ?_⟩, ?_⟩ <;> exact fun h => absurd h.2 (by decide))
    (by
      intro r hr _
      simp only [List.mem_cons, List.mem_singleton, List.not_mem_nil, or_false] at hr
      rcases hr with rfl | rfl | rfl <;> rfl)
    (by decide) (by decide)
    (by
      intro r hr _ _
      simp only [List.mem_cons, List.mem_singleton, List.not_mem_nil, or_false] at hr
      rcases hr with rfl | rfl | rfl <;> decide)

/-! ## Lookups that find nothing -/

theorem buckets_empty_of_no_record (rs : List Unstructured) (nss : List String)
    (k : GroupVersionKind) (h : ∀ r ∈ rs, r.GroupVersionKind ≠ k) (ns : String) :
    (BuildIndex rs nss).List k ns = Result.ok [] := by
  rw [List_eq_buckets]
  have h1 : (BuildIndex rs nss).gvkBucket k = [] := by
    rw [List.eq_nil_iff_forall_not_mem]
    intro e he
    obtain ⟨hm, hk, -⟩ := gvkBucket_mem rs nss k e he
    exact h _ hm hk
  have h2 : (BuildIndex rs nss).nsBucket ns k = [] := by
    rw [List.eq_nil_iff_forall_not_mem]
    intro e he
    obtain ⟨hm, hk, -⟩ := nsBucket_mem rs nss ns k e he
    exact h _ hm hk
  rw [h1, h2]
  simp [GoMap.values, returnCopies_nil]

/-- C7: `Get` returns its not-found error exactly when no record of the
collection has the requested kind and is filed under the requested key; for a
kind without records `Get` returns that error and `List` returns the empty
collection, for every namespace. -/
theorem get_notFound_iff (rs : List Unstructured) (nss : List String)
    (k : GroupVersionKind) (ns n : String) :
    ((∃ msg, (BuildIndex rs nss).Get k ns n = Result.err msg) ↔
      ∀ r ∈ rs, ¬ (r.GroupVersionKind = k ∧ r.identityKey = identityKey ns n)) ∧
    ((∀ r ∈ rs, r.GroupVersionKind ≠ k) →
      (∃ msg, (BuildIndex rs nss).Get k ns n = Result.err msg) ∧
      ∀ ns', (BuildIndex rs nss).List k ns' = Result.ok []) := by
  have hiff : (∃ msg, (BuildIndex rs nss).Get k ns n = Result.err msg) ↔
      ∀ r ∈ rs, ¬ (r.GroupVersionKind = k ∧ r.identityKey = identityKey ns n) := by
    rw [Get_err_iff, lookup_BuildIndex, List.find?_eq_none]
    simp only [List.mem_reverse, decide_eq_true_eq]
  refine ⟨hiff, fun h => ⟨hiff.mpr (fun r hr hc => h r hr hc.1), ?_⟩⟩
  intro ns'
  exact buckets_empty_of_no_record rs nss k h ns'

/-- C7, instance: an index holding pods only, queried for a service. -/
theorem get_notFound_iff_witness :
    (∃ msg, (BuildIndex [podWeb1, podWeb2, podDb] ["default", "other"]).Get
        serviceGVK "default" "web-1" = Result.err msg) ∧
    ∀ ns', (BuildIndex [podWeb1, podWeb2, podDb] ["default", "other"]).List
        serviceGVK ns' = Result.ok [] :=
  (get_notFound_iff [podWeb1, podWeb2, podDb] ["default", "other"] serviceGVK
    "default" "web-1").2
    (by
      intro r hr
      simp only [List.mem_cons, List.mem_singleton, List.not_mem_nil, or_false] at hr
      rcases hr with rfl | rfl | rfl <;> decide)

/-! ## Label selectors -/

/-- C3 (failing input): a pod and a service of the same namespace and name,
both labelled `app=foo`.  The label view files both under `default/web`, the
service overwrites the pod, and `FindByLabel` returns the service alone
although the pod carries the label. -/
theorem findByLabel_drops_same_name_record :
    [podApp, serviceApp].Pairwise (fun r1 r2 => ¬ sameIdentity r1 r2) ∧
    podApp.GetLabels.get? "app" = some "foo" ∧
    (BuildIndex [podApp, serviceApp] ["default"]).FindByLabel "app=foo" =
      Result.ok [serviceApp] ∧
    podApp ∉ [serviceApp] := by
  refine ⟨?_, rfl, rfl, ?_⟩
  · rw [List.pairwise_pair]
    intro h
    exact absurd h.1 (by decide)
  · simp [podApp, serviceApp, manifest]

/-- C4 (failing input): a pod labelled `a=1` and a service labelled `b=2` of
the same namespace and name.  The two single-term results have no record in
common, yet the two-term selector returns the pod. -/
theorem findByLabel_not_intersection :
    (BuildIndex [podA1, serviceB2] ["default"]).FindByLabel "a=1" = Result.ok [podA1] ∧
    (BuildIndex [podA1, serviceB2] ["default"]).FindByLabel "b=2" = Result.ok [serviceB2] ∧
    (BuildIndex [podA1, serviceB2] ["default"]).FindByLabel "a=1,b=2" = Result.ok [podA1] ∧
    podA1 ∉ [serviceB2] ∧ podA1.GetLabels.get? "b" = none := by
  refine ⟨rfl, rfl, rfl, ?_, rfl⟩
  simp [podA1, serviceB2, manifest]

/-! ## Isolation of returned values -/

/-- C5 (failing input): the roster handed out by `ListNamespaces` is the
index's own slice.  After the tool handler `namespacesList` has sorted the
slice it received, a second `ListNamespaces` denotes the sorted roster, not
the one of the first call. -/
theorem listNamespaces_aliases_roster :
    rosterHeap.load (BuildSharedIndex rosterHeap [] rosterSlice).ListNamespaces =
      ["openshift-etcd", "default"] ∧
    (namespacesList rosterHeap (BuildSharedIndex rosterHeap [] rosterSlice)).1.load
      (BuildSharedIndex rosterHeap [] rosterSlice).ListNamespaces =
      ["default", "openshift-etcd"] := by
  constructor <;> rfl

/-! ## Deep copies of decoded YAML -/

/-- C6 (failing input): the loader turns the decoded pod manifest with
`spec.priority: 0` into one record; `Get` on that record's identity panics
inside `DeepCopy` instead of returning the record. -/
theorem get_panics_on_yaml_int :
    loadMultiResourceDocument priorityPodDocument = [⟨priorityPodDocument⟩] ∧
    (BuildIndex (loadMultiResourceDocument priorityPodDocument) ["default"]).Get
      podGVK "default" "web" = Result.panic := by
  constructor <;> rfl

/-- C8 (failing input): on the index of the decoded pod manifest with
`spec.priority: 0`, `List` panics inside `DeepCopy` for the pod's namespace
and for the cross-namespace listing; no collection is returned. -/
theorem list_panics_on_yaml_int :
    (BuildIndex (loadMultiResourceDocument priorityPodDocument) ["default"]).List
      podGVK "default" = Result.panic ∧
    (BuildIndex (loadMultiResourceDocument priorityPodDocument) ["default"]).List
      podGVK "" = Result.panic := by
  constructor <;> rfl

/-- C9 (failing input): on the index of the decoded pod manifest with
`spec.priority: 0`, `FindByLabel` with the pod's own label panics inside
`DeepCopy`; no collection is returned. -/
theorem findByLabel_panics_on_yaml_int :
    (BuildIndex (loadMultiResourceDocument priorityPodDocument) ["default"]).FindByLabel
      "app=foo" = Result.panic := by
  rfl

/-! ## The label path of `ListResources` -/

theorem matchesKindAndNamespace_iff (k : GroupVersionKind) (ns : String) (r : Unstructured) :
    matchesKindAndNamespace k ns r = true ↔
      (r.GroupVersionKind = k ∧ (ns ≠ "" → r.GetNamespace = ns)) := by
  unfold matchesKindAndNamespace
  by_cases hk : r.GroupVersionKind = k
  · by_cases hn : ns ≠ "" ∧ r.GetNamespace ≠ ns
    · rw [if_neg (not_not.mpr hk), if_pos hn]
      constructor
      · intro h
        cases h
      · intro h
        exact absurd (h.2 hn.1) hn.2
    · rw [if_neg (not_not.mpr hk), if_neg hn]
      refine ⟨fun _ => ⟨hk, fun hns => ?_⟩, fun _ => rfl⟩
      by_contra hc
      exact hn ⟨hns, hc⟩
  · rw [if_pos hk]
    constructor
    · intro h
      cases h
    · intro h
      exact absurd h.1 hk

theorem applyLimit_of_nonpos (limit : Int) (rs : List Unstructured) (h : limit ≤ 0) :
    Provider.applyLimit limit rs = rs := by
  unfold Provider.applyLimit
  rw [if_neg]
  intro hc
  exact absurd hc.1 (not_lt.mpr h)

/-- C10: with a non-empty label selector, no field selector and no limit,
`ListResources` has the outcome of `FindByLabel` on that selector, its items
being exactly the found records whose kind is the requested one and, for a
non-empty requested namespace, whose namespace is the requested one, in the
order found; every returned item has the requested kind and namespace. -/
theorem listResources_label_path (p : Provider) (k : GroupVersionKind) (ns : String)
    (opts : ListOptions) (hsel : opts.LabelSelector ≠ "") (hfield : opts.FieldSelector = "")
    (hlimit : opts.Limit ≤ 0) :
    Result.map UnstructuredList.Items (p.ListResources k ns opts) =
      Result.map
        (fun found => found.filter
          (fun r => decide (r.GroupVersionKind = k ∧ (ns ≠ "" → r.GetNamespace = ns))))
        (p.index.FindByLabel opts.LabelSelector) ∧
    ∀ l, p.ListResources k ns opts = Result.ok l →
      ∀ r ∈ l.Items, r.GroupVersionKind = k ∧ (ns ≠ "" → r.GetNamespace = ns) := by
  have hfilter : ∀ found : List Unstructured,
      found.filter (matchesKindAndNamespace k ns) =
        found.filter
          (fun r => decide (r.GroupVersionKind = k ∧ (ns ≠ "" → r.GetNamespace = ns))) := by
    intro found
    apply List.filter_congr
    intro r _
    have hiff := matchesKindAndNamespace_iff k ns r
    by_cases hp : r.GroupVersionKind = k ∧ (ns ≠ "" → r.GetNamespace = ns)
    · rw [hiff.mpr hp, decide_eq_true hp]
    · rw [Bool.eq_false_iff.mpr (fun h => hp (hiff.mp h)), decide_eq_false hp]
  have heq : p.ListResources k ns opts =
      Result.map
        (fun found =>
          { Object := [("apiVersion", Value.str k.GroupVersionString),
                       ("kind", Value.str (k.Kind ++ "List"))],
            Items := found.filter
              (fun r => decide (r.GroupVersionKind = k ∧ (ns ≠ "" → r.GetNamespace = ns))) })
        (p.index.FindByLabel opts.LabelSelector) := by
    unfold Provider.ListResources Provider.selectResources
    simp only [hsel, ne_eq, not_false_eq_true, if_true, hfield, not_true_eq_false, if_false]
    cases hf : p.index.FindByLabel opts.LabelSelector with
    | ok found => simp [Result.map, hfilter, applyLimit_of_nonpos _ _ hlimit]
    | err msg => simp [Result.map]
    | panic => simp [Result.map]
  constructor
  · rw [heq]
    cases p.index.FindByLabel opts.LabelSelector <;> rfl
  · intro l hl r hr
    rw [heq] at hl
    cases hf : p.index.FindByLabel opts.LabelSelector with
    | ok found =>
      rw [hf] at hl
      simp only [Result.map, Result.ok.injEq] at hl
      subst hl
      simp only [List.mem_filter, decide_eq_true_eq] at hr
      exact hr.2
    | err msg => rw [hf] at hl; simp [Result.map] at hl
    | panic => rw [hf] at hl; simp [Result.map] at hl

/-- C10, instance: pods labelled `app=foo` listed for namespace `default`. -/
theorem listResources_label_path_witness :
    Result.map UnstructuredList.Items
      ((Provider.mk "/must-gather"
          (BuildIndex [podWeb1, podWeb2, podDb] ["default", "other"])).ListResources
        podGVK "default" ⟨"app=foo", "", 0⟩) =
      Result.ok [podWeb1, podWeb2] :=
  (listResources_label_path
    (Provider.mk "/must-gather" (BuildIndex [podWeb1, podWeb2, podDb] ["default", "other"]))
    podGVK "default" ⟨"app=foo", "", 0⟩ (by decide) rfl (le_refl _)).1.trans rfl

/-! ## The namespace roster -/

theorem Add_namespaces (idx : ResourceIndex) (r : Unstructured) :
    (idx.Add r).namespaces = idx.namespaces := rfl

theorem BuildIndex_namespaces (rs : List Unstructured) (nss : List String) :
    (BuildIndex rs nss).namespaces = nss := by
  induction rs using List.reverseRecOn with
  | nil => rfl
  | append_singleton rs r ih => rw [BuildIndex_append, Add_namespaces, ih]

/-- C15: the roster `ListNamespaces` reports on a freshly built index is the
roster passed to `BuildIndex`, for every record collection, hence also for
namespaces without any record; at memory level the reported slice is the
very slice that was passed. -/
theorem listNamespaces_is_roster (rs : List Unstructured) (nss : List String)
    (h : SliceHeap) (s : StringSlice) :
    (BuildIndex rs nss).ListNamespaces = nss ∧
    (BuildIndex rs nss).ListNamespaces = (BuildIndex [] nss).ListNamespaces ∧
    (Provider.mk "" (BuildIndex rs nss)).ListNamespaces = Result.ok nss ∧
    (BuildSharedIndex h rs s).ListNamespaces = s ∧
    h.load (BuildSharedIndex h rs s).ListNamespaces = h.load s :=
  ⟨BuildIndex_namespaces rs nss,
   (BuildIndex_namespaces rs nss).trans (BuildIndex_namespaces [] nss).symm,
   congrArg Result.ok (BuildIndex_namespaces rs nss), rfl, rfl⟩

/-! ## The limit of `ListResources` -/

theorem ListResources_eq_filterResources (p : Provider) (k : GroupVersionKind) (ns : String)
    (opts : ListOptions) :
    p.ListResources k ns opts =
      Result.map
        (fun selected =>
          { Object := [("apiVersion", Value.str k.GroupVersionString),
                       ("kind", Value.str (k.Kind ++ "List"))],
            Items := Provider.applyLimit opts.Limit selected })
        (p.filterResources k ns opts) := by
  unfold Provider.ListResources Provider.filterResources
  cases p.selectResources k ns opts with
  | err msg => rfl
  | panic => rfl
  | ok resources =>
    simp only []
    cases (if opts.FieldSelector ≠ "" then p.applyFieldSelector resources opts.FieldSelector
      else Result.ok resources) <;> rfl

theorem applyLimit_prefix (limit : Int) (rs : List Unstructured) :
    Provider.applyLimit limit rs <+: rs := by
  unfold Provider.applyLimit
  split
  · exact List.take_prefix _ _
  · exact List.prefix_refl _

theorem applyLimit_length (limit : Int) (rs : List Unstructured) :
    ((Provider.applyLimit limit rs).length : Int) =
      if limit > 0 then min limit (rs.length : Int) else (rs.length : Int) := by
  unfold Provider.applyLimit
  by_cases hpos : limit > 0
  · by_cases hlt : (rs.length : Int) > limit
    · rw [if_pos ⟨hpos, hlt⟩, if_pos hpos, List.length_take]
      have h1 : limit.toNat ≤ rs.length := by omega
      rw [Nat.min_eq_left h1, Int.toNat_of_nonneg (le_of_lt hpos)]
      exact (min_eq_left (le_of_lt hlt)).symm
    · rw [if_neg (fun h => hlt h.2), if_pos hpos]
      exact (min_eq_right (not_lt.mp hlt)).symm
  · rw [if_neg (fun h => hpos h.1), if_neg hpos]

/-- C13: when the label-selector and field-selector steps leave the candidate
sequence `candidates`, `ListResources` returns a list whose items are a
prefix of `candidates`, `min(limit, m)` of them for a positive limit and all
`m` of them otherwise, `m` being the number of candidates. -/
theorem listResources_limit_last (p : Provider) (k : GroupVersionKind) (ns : String)
    (opts : ListOptions) (candidates : List Unstructured)
    (hsteps : p.filterResources k ns opts = Result.ok candidates) :
    ∃ l, p.ListResources k ns opts = Result.ok l ∧
      l.Items <+: candidates ∧
      (l.Items.length : Int) =
        if opts.Limit > 0 then min opts.Limit (candidates.length : Int)
        else (candidates.length : Int) := by
  rw [ListResources_eq_filterResources, hsteps]
  exact ⟨_, rfl, applyLimit_prefix _ _, applyLimit_length _ _⟩

/-- C13, instance: three pods listed across namespaces with limit 1. -/
theorem listResources_limit_last_witness :
    ∃ l, (Provider.mk "/must-gather"
          (BuildIndex [podWeb1, podWeb2, podDb] ["default", "other"])).ListResources
        podGVK "" ⟨"", "", 1⟩ = Result.ok l ∧
      l.Items <+: [podWeb1, podWeb2, podDb] ∧
      (l.Items.length : Int) =
        if (1 : Int) > 0 then min 1 (([podWeb1, podWeb2, podDb].length : Nat) : Int)
        else (([podWeb1, podWeb2, podDb].length : Nat) : Int) :=
  listResources_limit_last
    (Provider.mk "/must-gather" (BuildIndex [podWeb1, podWeb2, podDb] ["default", "other"]))
    podGVK "" ⟨"", "", 1⟩ [podWeb1, podWeb2, podDb] rfl

/-! ## Malformed field selectors -/

theorem cutChars_eq_none (sep : Char) (l : List Char) (h : sep ∉ l) :
    cutChars sep l = none := by
  induction l with
  | nil => rfl
  | cons c cs ih =>
    have hc : ¬ c = sep := fun hc => h (hc ▸ List.mem_cons_self _ _)
    have hcs : sep ∉ cs := fun hm => h (List.mem_cons_of_mem _ hm)
    simp [cutChars, hc, ih hcs]

theorem applyFieldSelector_malformed (p : Provider) (rs : List Unstructured) (sel : String)
    (h : '=' ∉ sel.data) :
    p.applyFieldSelector rs sel = Result.err ("invalid field selector: " ++ sel) := by
  simp [Provider.applyFieldSelector, stringsSplitN2, cutChars_eq_none '=' sel.data h]

theorem ListResources_malformed (p : Provider) (k : GroupVersionKind) (ns : String)
    (opts : ListOptions) (hne : opts.FieldSelector ≠ "") (h : '=' ∉ opts.FieldSelector.data) :
    p.ListResources k ns opts =
      match p.selectResources k ns opts with
      | Result.ok _ => Result.err ("invalid field selector: " ++ opts.FieldSelector)
      | Result.err msg => Result.err msg
      | Result.panic => Result.panic := by
  unfold Provider.ListResources
  cases p.selectResources k ns opts with
  | err msg => rfl
  | panic => rfl
  | ok resources =>
    simp only [hne, ne_eq, not_false_eq_true, if_true,
      applyFieldSelector_malformed p resources _ h]

/-- C12 (failing input): on the index of the decoded pod manifest with
`spec.priority: 0`, `ListResources` with the field selector `status.phase`,
which has no `=`, reads the index first and panics inside `DeepCopy`; the
error of the malformed selector is never produced. -/
theorem listResources_malformed_panics_on_yaml_int :
    (Provider.mk "/must-gather"
        (BuildIndex (loadMultiResourceDocument priorityPodDocument) ["default"])).ListResources
      podGVK "default" ⟨"", "status.phase", 0⟩ = Result.panic := by
  rfl

/-! ## Indexed listing against a linear scan -/

theorem List_eq_linearScan (rs : List Unstructured) (nss : List String)
    (k : GroupVersionKind) (ns : String) (hns : ns ≠ "")
    (hd : rs.Pairwise (fun r1 r2 => ¬ sameIdentity r1 r2)) :
    (BuildIndex rs nss).List k ns = returnCopies (linearScan rs k ns) := by
  rw [List_eq_buckets]
  simp only [ne_eq, hns, not_false_eq_true, if_true, nsBucket_BuildIndex rs nss ns k hns hd,
    GoMap.values, List.map_map]
  have hid : (Prod.snd ∘ fun r : Unstructured => (r.GetName, r)) = id := rfl
  rw [hid, List.map_id]
  rfl

theorem linearScan_nodup (rs : List Unstructured) (k : GroupVersionKind) (ns : String)
    (hd : rs.Pairwise (fun r1 r2 => ¬ sameIdentity r1 r2)) : (linearScan rs k ns).Nodup := by
  refine List.Nodup.filter _ (List.Pairwise.imp ?_ hd)
  intro a b h hab
  exact h (hab ▸ ⟨rfl, rfl, rfl⟩)

/-- C14 (failing input): the linear scan of the loader's records for the pod
manifest with `spec.priority: 0` keeps that pod for `v1/Pod` in `default`,
while the indexed `List` panics inside `DeepCopy` and returns no set. -/
theorem list_namespace_panics_where_scan_keeps :
    linearScan (loadMultiResourceDocument priorityPodDocument) podGVK "default" =
      [⟨priorityPodDocument⟩] ∧
    (BuildIndex (loadMultiResourceDocument priorityPodDocument) ["default"]).List
      podGVK "default" = Result.panic := by
  constructor <;> rfl

/-! ## The field-selector step -/

theorem cutChars_append (sep : Char) (pre post : List Char) (h : sep ∉ pre) :
    cutChars sep (pre ++ sep :: post) = some (pre, post) := by
  induction pre with
  | nil => simp [cutChars]
  | cons c cs ih =>
    have hc : ¬ c = sep := fun hc => h (hc ▸ List.mem_cons_self _ _)
    have hcs : sep ∉ cs := fun hm => h (List.mem_cons_of_mem _ hm)
    simp [cutChars, hc, ih hcs]

theorem splitChars_no_sep (sep : Char) (piece : List Char) (h : sep ∉ piece) :
    splitChars sep piece = [piece] := by
  induction piece with
  | nil => rfl
  | cons c cs ih =>
    have hc : ¬ c = sep := fun hc => h (hc ▸ List.mem_cons_self _ _)
    have hcs : sep ∉ cs := fun hm => h (List.mem_cons_of_mem _ hm)
    simp [splitChars, hc, ih hcs]

theorem splitChars_append (sep : Char) (piece rest : List Char) (h : sep ∉ piece) :
    splitChars sep (piece ++ sep :: rest) = piece :: splitChars sep rest := by
  induction piece with
  | nil => simp [splitChars]
  | cons c cs ih =>
    have hc : ¬ c = sep := fun hc => h (hc ▸ List.mem_cons_self _ _)
    have hcs : sep ∉ cs := fun hm => h (List.mem_cons_of_mem _ hm)
    simp [splitChars, hc, ih hcs]

theorem splitChars_joinWith (sep : Char) (pieces : List (List Char)) (hne : pieces ≠ [])
    (h : ∀ piece ∈ pieces, sep ∉ piece) :
    splitChars sep (joinWith sep pieces) = pieces := by
  induction pieces with
  | nil => exact absurd rfl hne
  | cons piece rest ih =>
    cases rest with
    | nil => exact splitChars_no_sep sep piece (h piece (List.mem_cons_self _ _))
    | cons next rest =>
      rw [joinWith, splitChars_append sep piece _ (h piece (List.mem_cons_self _ _)),
        ih (List.cons_ne_nil _ _) (fun q hq => h q (List.mem_cons_of_mem _ hq))]

theorem not_mem_joinWith (c sep : Char) (pieces : List (List Char)) (hsep : c ≠ sep)
    (h : ∀ piece ∈ pieces, c ∉ piece) : c ∉ joinWith sep pieces := by
  induction pieces with
  | nil => simp [joinWith]
  | cons piece rest ih =>
    cases rest with
    | nil => exact h piece (List.mem_cons_self _ _)
    | cons next rest =>
      rw [joinWith]
      simp only [List.mem_append, List.mem_cons, not_or]
      exact ⟨h piece (List.mem_cons_self _ _), hsep,
        ih (fun q hq => h q (List.mem_cons_of_mem _ hq))⟩

theorem NestedFieldNoCopy_eq_navigate (v : Value) (path : List String) :
    (∀ found, NestedFieldNoCopy v path = Result.ok (some found) ↔
      navigate v path = some found) := by
  induction path generalizing v with
  | nil =>
    intro found
    cases v <;> simp [NestedFieldNoCopy, navigate]
  | cons field fields ih =>
    intro found
    cases v with
    | map m =>
      simp only [NestedFieldNoCopy, navigate]
      cases hm : GoMap.get? m field with
      | none => simp
      | some val => exact ih val found
    | null => simp [NestedFieldNoCopy, navigate]
    | bool b => simp [NestedFieldNoCopy, navigate]
    | str s => simp [NestedFieldNoCopy, navigate]
    | int i => simp [NestedFieldNoCopy, navigate]
    | int64 i => simp [NestedFieldNoCopy, navigate]
    | float64 f => simp [NestedFieldNoCopy, navigate]
    | other t => simp [NestedFieldNoCopy, navigate]
    | slice xs => simp [NestedFieldNoCopy, navigate]

theorem fieldMatches_eq_reachesString (path : List String) (target : String)
    (r : Unstructured) :
    fieldMatches path target r = reachesString (Value.map r.Object) path target := by
  unfold fieldMatches reachesString NestedString
  have h := NestedFieldNoCopy_eq_navigate (Value.map r.Object) path
  cases hn : NestedFieldNoCopy (Value.map r.Object) path with
  | ok found =>
    cases found with
    | none =>
      cases hv : navigate (Value.map r.Object) path with
      | none => rfl
      | some v => rw [(h v).mpr hv] at hn; cases hn
    | some v =>
      rw [(h v).mp hn]
      cases v <;> rfl
  | err msg =>
    cases hv : navigate (Value.map r.Object) path with
    | none => rfl
    | some v => rw [(h v).mpr hv] at hn; cases hn
  | panic =>
    cases hv : navigate (Value.map r.Object) path with
    | none => rfl
    | some v => rw [(h v).mpr hv] at hn; cases hn

theorem stringsSplit_joinWith (path : List String) (hne : path ≠ [])
    (h : ∀ f ∈ path, '.' ∉ f.data) :
    stringsSplit (String.mk (joinWith '.' (path.map String.data))) '.' = path := by
  unfold stringsSplit
  rw [splitChars_joinWith '.' (path.map String.data) (by simpa using hne)
    (by
      intro piece hp
      obtain ⟨f, hf, rfl⟩ := List.mem_map.mp hp
      exact h f hf)]
  rw [List.map_map]
  exact List.map_id _

theorem applyFieldSelector_of_text (p : Provider) (rs : List Unstructured)
    (path : List String) (target : String) (hne : path ≠ [])
    (hpath : ∀ f ∈ path, '.' ∉ f.data ∧ '=' ∉ f.data) :
    p.applyFieldSelector rs (fieldSelectorText path target) =
      Result.ok (rs.filter (fun r => reachesString (Value.map r.Object) path target)) := by
  have hcut : cutChars '=' (fieldSelectorText path target).data =
      some (joinWith '.' (path.map String.data), target.data) := by
    apply cutChars_append
    apply not_mem_joinWith '=' '.' _ (by decide)
    intro piece hp
    obtain ⟨f, hf, rfl⟩ := List.mem_map.mp hp
    exact (hpath f hf).2
  unfold Provider.applyFieldSelector stringsSplitN2
  rw [hcut]
  simp only []
  rw [stringsSplit_joinWith path hne (fun f hf => (hpath f hf).1)]
  congr 1
  apply List.filter_congr
  intro r _
  exact fieldMatches_eq_reachesString path target r

theorem applyFieldSelector_status_phase :
    (Provider.mk "/must-gather" NewResourceIndex).applyFieldSelector
      phasePods
      "status.phase=Running" =
      Result.ok [podWithPhase "p1" (.str "Running"), podWithPhase "p5" (.str "Running")] :=
  (applyFieldSelector_of_text (Provider.mk "/must-gather" NewResourceIndex)
    phasePods
    ["status", "phase"] "Running" (by simp)
    (by
      intro f hf
      simp only [List.mem_cons, List.mem_singleton, List.not_mem_nil, or_false] at hf
      rcases hf with rfl | rfl <;> decide)).trans rfl

theorem cutChars_spec (sep : Char) (l pre post : List Char)
    (h : cutChars sep l = some (pre, post)) : l = pre ++ sep :: post ∧ sep ∉ pre := by
  induction l generalizing pre with
  | nil => simp [cutChars] at h
  | cons c cs ih =>
    by_cases hc : c = sep
    · simp only [cutChars, hc, if_true, Option.some.injEq, Prod.mk.injEq] at h
      obtain ⟨rfl, rfl⟩ := h
      simp [hc]
    · simp only [cutChars, hc, if_false] at h
      cases hcut : cutChars sep cs with
      | none => rw [hcut] at h; cases h
      | some pq =>
        obtain ⟨pre', post'⟩ := pq
        rw [hcut] at h
        simp only [Option.some.injEq, Prod.mk.injEq] at h
        obtain ⟨rfl, rfl⟩ := h
        obtain ⟨h1, h2⟩ := ih pre' hcut
        refine ⟨by rw [h1]; rfl, ?_⟩
        simp only [List.mem_cons, not_or]
        exact ⟨fun hs => hc hs.symm, h2⟩

theorem joinWith_splitChars (sep : Char) (l : List Char) :
    joinWith sep (splitChars sep l) = l ∧ splitChars sep l ≠ [] ∧
      ∀ piece ∈ splitChars sep l, sep ∉ piece ∧ ∀ c ∈ piece, c ∈ l := by
  induction l with
  | nil => simp [splitChars, joinWith]
  | cons c cs ih =>
    obtain ⟨h1, h2, h3⟩ := ih
    by_cases hc : c = sep
    · simp only [splitChars, hc, if_true]
      cases hs : splitChars sep cs with
      | nil => exact absurd hs h2
      | cons q qs =>
        rw [hs] at h1 h3
        refine ⟨by rw [joinWith, h1]; rfl, List.cons_ne_nil _ _, ?_⟩
        intro piece hp
        rcases List.mem_cons.mp hp with rfl | hp
        · simp
        · exact ⟨(h3 piece hp).1, fun x hx => List.mem_cons_of_mem _ ((h3 piece hp).2 x hx)⟩
    · simp only [splitChars, hc, if_false]
      cases hs : splitChars sep cs with
      | nil => exact absurd hs h2
      | cons q qs =>
        rw [hs] at h1 h3
        have hq := h3 q (List.mem_cons_self _ _)
        refine ⟨?_, List.cons_ne_nil _ _, ?_⟩
        · cases qs with
          | nil =>
            simp only [joinWith] at h1 ⊢
            rw [h1]
          | cons q2 qs2 =>
            simp only [joinWith] at h1 ⊢
            rw [← h1]
            rfl
        · intro piece hp
          rcases List.mem_cons.mp hp with rfl | hp
          · refine ⟨?_, ?_⟩
            · simp only [List.mem_cons, not_or]
              exact ⟨fun hs => hc hs.symm, hq.1⟩
            · intro x hx
              rcases List.mem_cons.mp hx with rfl | hx
              · exact List.mem_cons_self _ _
              · exact List.mem_cons_of_mem _ (hq.2 x hx)
          · have hp' := h3 piece (List.mem_cons_of_mem _ hp)
            exact ⟨hp'.1, fun x hx => List.mem_cons_of_mem _ (hp'.2 x hx)⟩

theorem fieldSelectorText_covers (sel : String) (h : '=' ∈ sel.data) :
    ∃ (path : List String) (target : String), path ≠ [] ∧
      (∀ f ∈ path, '.' ∉ f.data ∧ '=' ∉ f.data) ∧ sel = fieldSelectorText path target := by
  cases hcut : cutChars '=' sel.data with
  | none =>
    exfalso
    have : ∀ l : List Char, cutChars '=' l = none → '=' ∉ l := by
      intro l
      induction l with
      | nil => simp
      | cons c cs ih =>
        intro hn
        by_cases hc : c = '='
        · simp [cutChars, hc] at hn
        · simp only [cutChars, hc, if_false] at hn
          cases hcs : cutChars '=' cs with
          | none =>
            simp only [List.mem_cons, not_or]
            exact ⟨fun hs => hc hs.symm, ih hcs⟩
          | some pq => rw [hcs] at hn; cases hn
    exact this _ hcut h
  | some pq =>
    obtain ⟨pre, post⟩ := pq
    obtain ⟨hsel, hpre⟩ := cutChars_spec '=' sel.data pre post hcut
    obtain ⟨hj, hne, hp⟩ := joinWith_splitChars '.' pre
    refine ⟨(splitChars '.' pre).map String.mk, String.mk post, by simpa using hne, ?_, ?_⟩
    · intro f hf
      obtain ⟨piece, hpiece, rfl⟩ := List.mem_map.mp hf
      exact ⟨(hp piece hpiece).1, fun hm => hpre ((hp piece hpiece).2 _ hm)⟩
    · unfold fieldSelectorText
      rw [List.map_map]
      have hid : (String.data ∘ String.mk) = id := rfl
      rw [hid, List.map_id, hj, ← hsel]

/-- C11: every field selector containing `=` is the text `f1.....fn=target`
of exactly one path `f1, ..., fn` of fields free of `.` and `=` (its part
before the first `=`, cut at the dots) and one target (the rest); on it the
field-selector step succeeds and keeps, in their original order, exactly the
candidates whose body, navigated through nested maps along the path, reaches
a value that is a string equal to the target. -/
theorem applyFieldSelector_keeps_matching (p : Provider) (rs : List Unstructured)
    (sel : String) (h : '=' ∈ sel.data) :
    ∃ (path : List String) (target : String),
      (path ≠ [] ∧ (∀ f ∈ path, '.' ∉ f.data ∧ '=' ∉ f.data) ∧
        sel = fieldSelectorText path target) ∧
      (∀ (path' : List String) (target' : String), path' ≠ [] →
        (∀ f ∈ path', '.' ∉ f.data ∧ '=' ∉ f.data) →
        sel = fieldSelectorText path' target' → path' = path ∧ target' = target) ∧
      p.applyFieldSelector rs sel =
        Result.ok (rs.filter (fun r => reachesString (Value.map r.Object) path target)) ∧
      (rs.filter (fun r => reachesString (Value.map r.Object) path target)).Sublist rs := by
  obtain ⟨path, target, hne, hpath, hsel⟩ := fieldSelectorText_covers sel h
  refine ⟨path, target, ⟨hne, hpath, hsel⟩, ?_, ?_, List.filter_sublist _⟩
  · intro path' target' hne' hpath' hsel'
    have hdata : (fieldSelectorText path' target').data =
        (fieldSelectorText path target).data := by rw [← hsel', ← hsel]
    have hcut : ∀ (q : List String) (t : String), (∀ f ∈ q, '.' ∉ f.data ∧ '=' ∉ f.data) →
        cutChars '=' (fieldSelectorText q t).data =
          some (joinWith '.' (q.map String.data), t.data) := by
      intro q t hq
      apply cutChars_append
      apply not_mem_joinWith '=' '.' _ (by decide)
      intro piece hp
      obtain ⟨f, hf, rfl⟩ := List.mem_map.mp hp
      exact (hq f hf).2
    have h1 := hcut path' target' hpath'
    rw [hdata, hcut path target hpath] at h1
    simp only [Option.some.injEq, Prod.mk.injEq] at h1
    constructor
    · have e1 := stringsSplit_joinWith path' hne' (fun f hf => (hpath' f hf).1)
      have e2 := stringsSplit_joinWith path hne (fun f hf => (hpath f hf).1)
      rw [← e1, ← e2, h1.1]
    · exact (String.ext h1.2).symm
  · rw [hsel]
    exact applyFieldSelector_of_text p rs path target hne hpath

/-- C11, instance: the selector `status.phase=Running` over pods whose phase
is `Running`, `Pending`, a number, a boolean, absent, or lies below a
string-valued `status`. -/
theorem applyFieldSelector_keeps_matching_witness :
    ∃ (path : List String) (target : String),
      (path ≠ [] ∧ (∀ f ∈ path, '.' ∉ f.data ∧ '=' ∉ f.data) ∧
        "status.phase=Running" = fieldSelectorText path target) ∧
      (∀ (path' : List String) (target' : String), path' ≠ [] →
        (∀ f ∈ path', '.' ∉ f.data ∧ '=' ∉ f.data) →
        "status.phase=Running" = fieldSelectorText path' target' →
        path' = path ∧ target' = target) ∧
      (Provider.mk "/must-gather" NewResourceIndex).applyFieldSelector
          phasePods
          "status.phase=Running" =
        Result.ok
          (phasePods.filter
            (fun r => reachesString (Value.map r.Object) path target)) ∧
      (phasePods.filter
        (fun r => reachesString (Value.map r.Object) path target)).Sublist
        phasePods :=
  applyFieldSelector_keeps_matching (Provider.mk "/must-gather" NewResourceIndex)
    phasePods
    "status.phase=Running" (by decide)

/-! ## The errors of `Get` -/

theorem carries_append_right (msg tail part : String) (h : carries msg part) :
    carries (msg ++ tail) part := by
  unfold carries at *
  rw [String.data_append]
  exact h.trans (List.prefix_append _ _).isInfix

theorem carries_append_left (head msg part : String) (h : carries msg part) :
    carries (head ++ msg) part := by
  unfold carries at *
  rw [String.data_append]
  exact h.trans (List.suffix_append _ _).isInfix

theorem carries_self (part : String) : carries part part := List.infix_refl _

/-- C18 (as stated, refuted): on an index holding pods only, `Get` for the
service `default/web` takes the branch of the missing kind bucket; its error
names the kind and carries neither the namespace nor the name. -/
theorem get_missing_bucket_error_counterexample :
    (BuildIndex [podWeb1, podWeb2, podDb] ["default", "other"]).Get
      serviceGVK "default" "web" =
      Result.err "no resources found for GVK: /v1, Kind=Service" ∧
    ¬ carries "no resources found for GVK: /v1, Kind=Service" "default" ∧
    ¬ carries "no resources found for GVK: /v1, Kind=Service" "web" := by
  refine ⟨rfl, ?_, ?_⟩ <;> unfold carries <;> decide

/-- C18 (amended): both failure branches of `Get` return an error value of
the one error kind; the error of the missing kind bucket carries the
requested kind, the error of the missing key carries the requested kind,
namespace and name. -/
theorem get_errors_carry (idx : ResourceIndex) (k : GroupVersionKind) (ns n : String) :
    (idx.byGVK.get? k = none →
      ∃ msg, idx.Get k ns n = Result.err msg ∧ carries msg k.String) ∧
    (∀ gvkMap, idx.byGVK.get? k = some gvkMap → gvkMap.get? (identityKey ns n) = none →
      ∃ msg, idx.Get k ns n = Result.err msg ∧ carries msg k.String ∧ carries msg ns ∧
        carries msg n) := by
  constructor
  · intro h
    refine ⟨"no resources found for GVK: " ++ k.String, by simp [ResourceIndex.Get, h], ?_⟩
    exact carries_append_left _ _ _ (carries_self _)
  · intro gvkMap h hkey
    refine ⟨"resource not found: " ++ ns ++ "/" ++ n ++ " (GVK: " ++ k.String ++ ")",
      by simp [ResourceIndex.Get, h, hkey], ?_, ?_, ?_⟩
    · exact carries_append_right _ _ _ (carries_append_left _ _ _ (carries_self _))
    · iterate 5 apply carries_append_right
      exact carries_append_left _ _ _ (carries_self _)
    · iterate 3 apply carries_append_right
      exact carries_append_left _ _ _ (carries_self _)

/-- C18 (amended), instance: pods only, queried for a service and for a pod
that is not there. -/
theorem get_errors_carry_witness :
    (∃ msg, (BuildIndex [podWeb1, podWeb2, podDb] ["default", "other"]).Get
        serviceGVK "default" "web" = Result.err msg ∧ carries msg serviceGVK.String) ∧
    (∃ msg, (BuildIndex [podWeb1, podWeb2, podDb] ["default", "other"]).Get
        podGVK "default" "web-9" = Result.err msg ∧ carries msg podGVK.String ∧
        carries msg "default" ∧ carries msg "web-9") :=
  ⟨(get_errors_carry (BuildIndex [podWeb1, podWeb2, podDb] ["default", "other"])
      serviceGVK "default" "web").1 rfl,
   (get_errors_carry (BuildIndex [podWeb1, podWeb2, podDb] ["default", "other"])
      podGVK "default" "web-9").2 _ rfl rfl⟩

/-! ## The record count -/

theorem foldl_count_eq {κ β : Type} (m : GoMap κ (List β)) (a : Nat) :
    m.foldl (fun count entry => count + entry.2.length) a =
      a + (m.map (fun entry => entry.2.length)).sum := by
  induction m generalizing a with
  | nil => simp
  | cons e m ih =>
    simp only [List.foldl_cons, List.map_cons, List.sum_cons, ih]
    omega

theorem Count_eq_sum (idx : ResourceIndex) :
    idx.Count = (idx.byGVK.map (fun entry => entry.2.length)).sum := by
  unfold ResourceIndex.Count
  rw [foldl_count_eq]
  exact Nat.zero_add _

theorem GoMap.length_set {κ ν : Type} [DecidableEq κ] (m : GoMap κ ν) (k : κ) (v : ν) :
    (m.set k v).length = m.length + (if (m.get? k).isNone then 1 else 0) := by
  induction m with
  | nil => simp [GoMap.set, GoMap.get?]
  | cons e m ih =>
    obtain ⟨k0, v0⟩ := e
    by_cases h0 : k0 = k
    · simp [GoMap.set, GoMap.get?, h0]
    · simp only [GoMap.set, h0, if_false, List.length_cons, ih, GoMap.get?]
      omega

theorem GoMap.sum_set {κ β : Type} [DecidableEq κ] (m : GoMap κ (List β)) (k : κ)
    (b : List β) :
    ((m.set k b).map (fun entry => entry.2.length)).sum + ((m.get? k).getD []).length =
      (m.map (fun entry => entry.2.length)).sum + b.length := by
  induction m with
  | nil => simp [GoMap.set, GoMap.get?]
  | cons e m ih =>
    obtain ⟨k0, v0⟩ := e
    by_cases h0 : k0 = k
    · simp only [GoMap.set, h0, if_true, List.map_cons, List.sum_cons, GoMap.get?,
        Option.getD_some]
      omega
    · simp only [GoMap.set, h0, if_false, List.map_cons, List.sum_cons, GoMap.get?]
      omega

theorem Count_Add (idx : ResourceIndex) (r : Unstructured) :
    (idx.Add r).Count =
      idx.Count +
        (if (idx.lookup r.GroupVersionKind r.identityKey).isNone then 1 else 0) := by
  rw [Count_eq_sum, Count_eq_sum, lookup_eq_gvkBucket]
  have h1 := GoMap.sum_set idx.byGVK r.GroupVersionKind
    ((idx.gvkBucket r.GroupVersionKind).set r.identityKey r)
  rw [GoMap.length_set] at h1
  have key : ∀ X S L i : Nat, X + L = S + (L + i) → X = S + i := by
    intros
    omega
  exact key _ _ _ _ h1

theorem Count_le_length (rs : List Unstructured) (nss : List String) :
    (BuildIndex rs nss).Count ≤ rs.length := by
  induction rs using List.reverseRecOn with
  | nil => simp [BuildIndex, NewResourceIndex, ResourceIndex.Count]
  | append_singleton rs r ih =>
    rw [BuildIndex_append, Count_Add, List.length_append, List.length_singleton]
    split <;> omega

/-- C17 (as stated, refuted): the cluster-scoped record named `a/b` and the
record `b` of namespace `a` have different identities, yet the index built
from the two counts one record. -/
theorem count_slash_name_counterexample :
    [slashNamed, nested].Pairwise (fun r1 r2 => ¬ sameIdentity r1 r2) ∧
    (BuildIndex [slashNamed, nested] []).Count = 1 ∧ [slashNamed, nested].length = 2 := by
  refine ⟨?_, rfl, rfl⟩
  rw [List.pairwise_pair]
  intro h
  exact absurd h.2.1 (by decide)

/-- C17 (amended): `Count` never exceeds the number of records passed to
`BuildIndex`, and equals it when no two records are filed under the same
kind and identity key. -/
theorem count_eq_length (rs : List Unstructured) (nss : List String) :
    (BuildIndex rs nss).Count ≤ rs.length ∧
    (rs.Pairwise (fun r1 r2 => ¬ sameIdentityKey r1 r2) →
      (BuildIndex rs nss).Count = rs.length) := by
  refine ⟨Count_le_length rs nss, ?_⟩
  induction rs using List.reverseRecOn with
  | nil =>
    intro _
    simp [BuildIndex, NewResourceIndex, ResourceIndex.Count]
  | append_singleton rs r ih =>
    intro hd
    rw [List.pairwise_append] at hd
    obtain ⟨hd1, -, hd2⟩ := hd
    rw [BuildIndex_append, Count_Add, ih hd1, List.length_append, List.length_singleton,
      lookup_BuildIndex]
    have hnone : rs.reverse.find?
        (fun x => decide (x.GroupVersionKind = r.GroupVersionKind ∧
          x.identityKey = r.identityKey)) = none := by
      rw [List.find?_eq_none]
      intro x hx hp
      simp only [decide_eq_true_eq] at hp
      exact hd2 x (List.mem_reverse.mp hx) r (List.mem_singleton_self r) hp
    rw [hnone]
    simp

/-- C17 (amended), instance: two pods in `default` and one in `other`. -/
theorem count_eq_length_witness :
    (BuildIndex [podWeb1, podWeb2, podDb] ["default", "other"]).Count =
      [podWeb1, podWeb2, podDb].length :=
  (count_eq_length [podWeb1, podWeb2, podDb] ["default", "other"]).2
    (by
      simp only [List.pairwise_cons, List.mem_cons, List.mem_singleton, List.not_mem_nil,
        forall_eq_or_imp, forall_eq, List.Pairwise.nil, and_true, IsEmpty.forall_iff,
        implies_true]
      refine ⟨⟨?_, ?_⟩, ?_⟩ <;> exact fun h => absurd h.2 (by decide))

/-! ## Last write wins -/

theorem GoMap.keys_set {κ ν : Type} [DecidableEq κ] (m : GoMap κ ν) (k : κ) (v : ν) :
    (m.set k v).keys = if (m.get? k).isNone then m.keys ++ [k] else m.keys := by
  induction m with
  | nil => simp [GoMap.set, GoMap.get?, GoMap.keys]
  | cons e m ih =>
    obtain ⟨k0, v0⟩ := e
    by_cases h0 : k0 = k
    · simp [GoMap.set, GoMap.get?, GoMap.keys, h0]
    · have ih' := ih
      simp only [GoMap.keys] at ih'
      simp only [GoMap.set, h0, if_false, GoMap.get?, GoMap.keys, List.map_cons, ih']
      split <;> simp

theorem GoMap.nodup_keys_set {κ ν : Type} [DecidableEq κ] (m : GoMap κ ν) (k : κ) (v : ν)
    (h : m.keys.Nodup) : (m.set k v).keys.Nodup := by
  rw [GoMap.keys_set]
  cases hg : m.get? k with
  | none =>
    simp only [Option.isNone_none, if_true]
    rw [List.nodup_append]
    refine ⟨h, List.nodup_singleton _, ?_⟩
    intro a ha hb
    rw [List.mem_singleton] at hb
    subst hb
    exact (GoMap.get?_eq_none_iff m a).mp hg ha
  | some v0 => simpa using h

theorem gvkBucket_nodup_keys (rs : List Unstructured) (nss : List String)
    (k : GroupVersionKind) : ((BuildIndex rs nss).gvkBucket k).keys.Nodup := by
  induction rs using List.reverseRecOn with
  | nil => simp [BuildIndex, NewResourceIndex, ResourceIndex.gvkBucket, GoMap.get?, GoMap.keys]
  | append_singleton rs r ih =>
    rw [BuildIndex_append, gvkBucket_Add]
    split
    · exact GoMap.nodup_keys_set _ _ _ ih
    · exact ih

theorem nsBucket_nodup_keys (rs : List Unstructured) (nss : List String) (ns : String)
    (k : GroupVersionKind) : ((BuildIndex rs nss).nsBucket ns k).keys.Nodup := by
  induction rs using List.reverseRecOn with
  | nil => simp [BuildIndex, NewResourceIndex, ResourceIndex.nsBucket, GoMap.get?, GoMap.keys]
  | append_singleton rs r ih =>
    rw [BuildIndex_append, nsBucket_Add]
    split
    · exact GoMap.nodup_keys_set _ _ _ ih
    · exact ih

theorem nsBucket_get?_BuildIndex (rs : List Unstructured) (nss : List String) (ns : String)
    (k : GroupVersionKind) (name : String) (hns : ns ≠ "") :
    ((BuildIndex rs nss).nsBucket ns k).get? name =
      rs.reverse.find? (fun r => decide (r.GroupVersionKind = k ∧ r.GetNamespace = ns ∧
        r.GetName = name)) := by
  induction rs using List.reverseRecOn with
  | nil => rfl
  | append_singleton rs r ih =>
    rw [BuildIndex_append, nsBucket_Add, List.reverse_append, List.reverse_singleton,
      List.singleton_append, List.find?_cons]
    by_cases hc : r.GetNamespace ≠ "" ∧ r.GetNamespace = ns ∧ r.GroupVersionKind = k
    · rw [if_pos hc, GoMap.get?_set]
      by_cases hn : r.GetName = name
      · simp [hn, hc.2.1, hc.2.2]
      · simp [hn, ih]
    · rw [if_neg hc, ih]
      have : ¬ (r.GroupVersionKind = k ∧ r.GetNamespace = ns ∧ r.GetName = name) := by
        intro h
        exact hc ⟨by rw [h.2.1]; exact hns, h.2.1, h.1⟩
      simp [this]

theorem GoMap.filter_values_eq_singleton (m : GoMap String Unstructured) (key : String)
    (v : Unstructured) (P : Unstructured → Bool) (hnd : m.keys.Nodup)
    (hget : m.get? key = some v) (hP : ∀ e ∈ m, P e.2 = true ↔ e.1 = key) :
    m.values.filter P = [v] := by
  induction m with
  | nil => simp [GoMap.get?] at hget
  | cons e m ih =>
    obtain ⟨k0, v0⟩ := e
    simp only [GoMap.keys, List.map_cons, List.nodup_cons] at hnd
    by_cases h0 : k0 = key
    · simp only [GoMap.get?, h0, if_true, Option.some.injEq] at hget
      subst hget
      have hv : P v0 = true := (hP (k0, v0) (List.mem_cons_self _ _)).mpr h0
      have hrest : (GoMap.values m).filter P = [] := by
        rw [List.filter_eq_nil_iff]
        intro x hx hpx
        simp only [GoMap.values, List.mem_map] at hx
        obtain ⟨e, he, rfl⟩ := hx
        have hk := (hP e (List.mem_cons_of_mem _ he)).mp hpx
        apply hnd.1
        rw [h0, ← hk]
        exact List.mem_map_of_mem _ he
      simp only [GoMap.values, List.map_cons, List.filter_cons, hv, if_true]
      simp only [GoMap.values] at hrest
      rw [hrest]
    · simp only [GoMap.get?, h0, if_false] at hget
      have hv : ¬ P v0 = true := fun hp => h0 ((hP (k0, v0) (List.mem_cons_self _ _)).mp hp)
      have := ih hnd.2 hget (fun e he => hP e (List.mem_cons_of_mem _ he))
      simp only [GoMap.values] at this
      simp only [GoMap.values, List.map_cons, List.filter_cons, hv, if_false, this]
      simp

theorem find?_last_of_none_after (pre post : List Unstructured) (r : Unstructured)
    (P : Unstructured → Bool) (hr : P r = true) (hpost : ∀ x ∈ post, ¬ P x = true) :
    (pre ++ r :: post).reverse.find? P = some r := by
  rw [List.reverse_append, List.reverse_cons, List.append_assoc, List.find?_append]
  have h1 : post.reverse.find? P = none := by
    rw [List.find?_eq_none]
    intro x hx
    exact hpost x (List.mem_reverse.mp hx)
  rw [h1]
  simp [List.find?_cons, hr]

theorem GoMap.get?_of_mem_nodup {κ ν : Type} [DecidableEq κ] (m : GoMap κ ν) (k : κ) (v : ν)
    (hnd : m.keys.Nodup) (hmem : (k, v) ∈ m) : m.get? k = some v := by
  induction m with
  | nil => simp at hmem
  | cons e m ih =>
    obtain ⟨k0, v0⟩ := e
    simp only [GoMap.keys, List.map_cons, List.nodup_cons] at hnd
    rcases List.mem_cons.mp hmem with h | h
    · simp only [Prod.mk.injEq] at h
      simp [GoMap.get?, h.1, h.2]
    · have hk : ¬ k0 = k := by
        intro hk
        apply hnd.1
        rw [hk]
        exact List.mem_map_of_mem Prod.fst h
      simp only [GoMap.get?, hk, if_false]
      exact ih hnd.2 h

theorem bucket_filter_identity (m : GoMap String Unstructured) (key : String)
    (r2 : Unstructured) (hnd : m.keys.Nodup) (hget : m.get? key = some r2)
    (hkey : ∀ e ∈ m, hasIdentityOf r2 e.2 = true → e.1 = key) :
    m.values.filter (hasIdentityOf r2) = [r2] := by
  apply GoMap.filter_values_eq_singleton m key r2 _ hnd hget
  intro e he
  refine ⟨hkey e he, fun hk => ?_⟩
  have hmem : (key, e.2) ∈ m := by
    rw [← hk]
    exact he
  have := GoMap.get?_of_mem_nodup m key e.2 hnd hmem
  rw [hget] at this
  simp only [Option.some.injEq] at this
  rw [← this]
  simp [hasIdentityOf]

theorem not_mem_of_filter_identity (l : List Unstructured) (r1 r2 : Unstructured)
    (hsame : sameIdentity r1 r2) (hf : l.filter (hasIdentityOf r2) = [r2]) (hne : r1 ≠ r2) :
    r1 ∉ l := by
  intro hmem
  have : r1 ∈ l.filter (hasIdentityOf r2) := by
    rw [List.mem_filter]
    exact ⟨hmem, by simpa [hasIdentityOf] using hsame⟩
  rw [hf, List.mem_singleton] at this
  exact hne this

/-- C16 (as stated, refuted): an older and a newer revision of record `b` of
namespace `a`, followed by the cluster-scoped record named `a/b`.  `Get` for
`a`, `b` returns the cluster-scoped record, not the newer revision, and the
cross-namespace listing holds no record with the identity of `b`. -/
theorem last_write_slash_counterexample :
    sameIdentity nestedOld nested ∧ ¬ sameIdentity slashNamed nested ∧
    (BuildIndex [nestedOld, nested, slashNamed] []).Get widgetGVK "a" "b" =
      Result.ok slashNamed ∧
    slashNamed ≠ nested ∧
    (BuildIndex [nestedOld, nested, slashNamed] []).List widgetGVK "" =
      Result.ok [slashNamed] ∧
    [slashNamed].filter (hasIdentityOf nested) = [] := by
  refine ⟨⟨rfl, rfl, rfl⟩, ?_, rfl, ?_, rfl, ?_⟩
  · intro h
    exact absurd h.2.1 (by decide)
  · simp [nested, slashNamed, manifest]
  · rfl

/-- C16 (amended): when the collection holds `r1` before `r2` with the same
identity, no record after `r2` is filed under the kind and identity key of
`r2`, and the records of that kind hold no platform-`int` scalar, then `Get`
for that identity returns `r2`, and the listing of that kind, across
namespaces and within the namespace of `r2`, holds exactly one record of that
identity, namely `r2`, and not `r1` unless it equals `r2`. -/
theorem last_write_wins (pre post : List Unstructured) (r1 r2 : Unstructured)
    (nss : List String) (h1 : r1 ∈ pre) (hsame : sameIdentity r1 r2)
    (hlast : ∀ x ∈ post, ¬ sameIdentityKey x r2)
    (hc : ∀ x ∈ pre ++ r2 :: post,
      x.GroupVersionKind = r2.GroupVersionKind → x.copyable = true) :
    r1 ∈ pre ++ r2 :: post ∧
    (BuildIndex (pre ++ r2 :: post) nss).Get r2.GroupVersionKind r2.GetNamespace r2.GetName =
      Result.ok r2 ∧
    (∃ l, (BuildIndex (pre ++ r2 :: post) nss).List r2.GroupVersionKind "" = Result.ok l ∧
      l.filter (hasIdentityOf r2) = [r2] ∧ (r1 ≠ r2 → r1 ∉ l)) ∧
    (r2.GetNamespace ≠ "" →
      ∃ l, (BuildIndex (pre ++ r2 :: post) nss).List r2.GroupVersionKind r2.GetNamespace =
          Result.ok l ∧
        l.filter (hasIdentityOf r2) = [r2] ∧ (r1 ≠ r2 → r1 ∉ l)) := by
  have hlookup : (BuildIndex (pre ++ r2 :: post) nss).lookup r2.GroupVersionKind
      r2.identityKey = some r2 := by
    rw [lookup_BuildIndex]
    apply find?_last_of_none_after
    · simp
    · intro x hx hp
      simp only [decide_eq_true_eq] at hp
      exact hlast x hx hp
  refine ⟨List.mem_append_left _ h1, ?_, ?_, ?_⟩
  · rw [Get_eq_lookup]
    have hl := hlookup
    unfold Unstructured.identityKey at hl
    rw [hl]
    have hcopy := DeepCopy_of_copyable r2
      (hc r2 (List.mem_append_right _ (List.mem_cons_self _ _)) rfl)
    simp [hcopy]
  · have hlist := List_ok_of_copyable (BuildIndex (pre ++ r2 :: post) nss)
      r2.GroupVersionKind "" (by
        intro e he
        simp only [ne_eq, not_true_eq_false, if_false] at he
        obtain ⟨hm, hk, -⟩ := gvkBucket_mem _ nss _ e he
        exact hc e.2 hm hk)
    simp only [ne_eq, not_true_eq_false, if_false] at hlist
    have hf := bucket_filter_identity _ r2.identityKey r2
      (gvkBucket_nodup_keys (pre ++ r2 :: post) nss r2.GroupVersionKind)
      (by rw [← lookup_eq_gvkBucket]; exact hlookup)
      (by
        intro e he hid
        obtain ⟨-, -, hk⟩ := gvkBucket_mem _ nss _ e he
        simp only [hasIdentityOf, decide_eq_true_eq] at hid
        rw [hk]
        simp [Unstructured.identityKey, hid.2.1, hid.2.2])
    exact ⟨_, hlist, hf, not_mem_of_filter_identity _ r1 r2 hsame hf⟩
  · intro hns
    have hlist := List_ok_of_copyable (BuildIndex (pre ++ r2 :: post) nss)
      r2.GroupVersionKind r2.GetNamespace (by
        intro e he
        simp only [ne_eq, hns, not_false_eq_true, if_true] at he
        obtain ⟨hm, hk, -⟩ := nsBucket_mem _ nss _ _ e he
        exact hc e.2 hm hk)
    simp only [ne_eq, hns, not_false_eq_true, if_true] at hlist
    have hget : ((BuildIndex (pre ++ r2 :: post) nss).nsBucket r2.GetNamespace
        r2.GroupVersionKind).get? r2.GetName = some r2 := by
      rw [nsBucket_get?_BuildIndex _ nss _ _ _ hns]
      apply find?_last_of_none_after
      · simp
      · intro x hx hp
        simp only [decide_eq_true_eq] at hp
        apply hlast x hx
        refine ⟨hp.1, ?_⟩
        simp [Unstructured.identityKey, hp.2.1, hp.2.2]
    have hf := bucket_filter_identity _ r2.GetName r2
      (nsBucket_nodup_keys (pre ++ r2 :: post) nss r2.GetNamespace r2.GroupVersionKind)
      hget
      (by
        intro e he hid
        obtain ⟨-, -, -, hk⟩ := nsBucket_mem _ nss _ _ e he
        simp only [hasIdentityOf, decide_eq_true_eq] at hid
        rw [hk, hid.2.2])
    exact ⟨_, hlist, hf, not_mem_of_filter_identity _ r1 r2 hsame hf⟩

/-- C16 (amended), instance: an older and a newer revision of record `b` of
namespace `a`, with a pod loaded after them. -/
theorem last_write_wins_witness :
    nestedOld ∈ [nestedOld] ++ nested :: [podDb] ∧
    (BuildIndex ([nestedOld] ++ nested :: [podDb]) ["a", "other"]).Get
      nested.GroupVersionKind nested.GetNamespace nested.GetName = Result.ok nested ∧
    (∃ l, (BuildIndex ([nestedOld] ++ nested :: [podDb]) ["a", "other"]).List
        nested.GroupVersionKind "" = Result.ok l ∧
      l.filter (hasIdentityOf nested) = [nested] ∧ (nestedOld ≠ nested → nestedOld ∉ l)) ∧
    (nested.GetNamespace ≠ "" →
      ∃ l, (BuildIndex ([nestedOld] ++ nested :: [podDb]) ["a", "other"]).List
          nested.GroupVersionKind nested.GetNamespace = Result.ok l ∧
        l.filter (hasIdentityOf nested) = [nested] ∧ (nestedOld ≠ nested → nestedOld ∉ l)) :=
  last_write_wins [nestedOld] [podDb] nestedOld nested ["a", "other"]
    (List.mem_singleton_self _) ⟨rfl, rfl, rfl⟩
    (by
      intro x hx
      rw [List.mem_singleton] at hx
      subst hx
      exact fun h => absurd h.1 (by decide))
    (by
      intro x hx _
      simp only [List.singleton_append, List.mem_cons, List.mem_singleton, List.not_mem_nil,
        or_false] at hx
      rcases hx with rfl | rfl | rfl <;> rfl)

/-! ## Walking the archive -/

mutual
theorem walk_files {σ : Type} (walkFn : String → FsNode → Bool → List σ → Result (List σ))
    (perFile : String × FsNode → List σ)
    (hdir : ∀ name listable entries s,
      walkFn name (FsNode.dir listable entries) false s = Result.ok s)
    (hfile : ∀ name content s,
      walkFn name (FsNode.file content) false s =
        Result.ok (s ++ perFile (name, FsNode.file content))) :
    ∀ (node : FsNode) (name : String) (s : List σ), node.walkable = true →
      walk walkFn name node s = Result.ok (s ++ (filesOf name node).flatMap perFile)
  | .file content, name, s, _ => by
    simp [walk, filesOf, hfile]
  | .dir listable entries, name, s, h => by
    simp only [FsNode.walkable, Bool.and_eq_true] at h
    simp only [walk, h.1, Bool.not_true, hdir, if_true, filesOf]
    exact walkEntries_files walkFn perFile hdir hfile entries s h.2
theorem walkEntries_files {σ : Type}
    (walkFn : String → FsNode → Bool → List σ → Result (List σ))
    (perFile : String × FsNode → List σ)
    (hdir : ∀ name listable entries s,
      walkFn name (FsNode.dir listable entries) false s = Result.ok s)
    (hfile : ∀ name content s,
      walkFn name (FsNode.file content) false s =
        Result.ok (s ++ perFile (name, FsNode.file content))) :
    ∀ (entries : List (String × FsNode)) (s : List σ), entriesWalkable entries = true →
      walkEntries walkFn entries s =
        Result.ok (s ++ (filesOfEntries entries).flatMap perFile)
  | [], s, _ => by simp [walkEntries, filesOfEntries]
  | (name, node) :: rest, s, h => by
    simp only [entriesWalkable, Bool.and_eq_true] at h
    simp only [walkEntries, walk_files walkFn perFile hdir hfile node name s h.1,
      walkEntries_files walkFn perFile hdir hfile rest _ h.2, filesOfEntries,
      List.flatMap_append, List.append_assoc]
end

mutual
theorem walk_ok_of_walkable {σ : Type}
    (walkFn : String → FsNode → Bool → List σ → Result (List σ))
    (hok : ∀ name node s, ∃ s', walkFn name node false s = Result.ok s') :
    ∀ (node : FsNode) (name : String) (s : List σ), node.walkable = true →
      ∃ s', walk walkFn name node s = Result.ok s'
  | .file content, name, s, _ => by
    obtain ⟨s', hs⟩ := hok name (FsNode.file content) s
    exact ⟨s', by simp [walk, hs]⟩
  | .dir listable entries, name, s, h => by
    simp only [FsNode.walkable, Bool.and_eq_true] at h
    obtain ⟨hl, h2⟩ := h
    subst hl
    obtain ⟨s', hs⟩ := hok name (FsNode.dir true entries) s
    obtain ⟨s'', hs'⟩ := walkEntries_ok_of_walkable walkFn hok entries s' h2
    exact ⟨s'', by simp [walk, hs, hs']⟩
theorem walkEntries_ok_of_walkable {σ : Type}
    (walkFn : String → FsNode → Bool → List σ → Result (List σ))
    (hok : ∀ name node s, ∃ s', walkFn name node false s = Result.ok s') :
    ∀ (entries : List (String × FsNode)) (s : List σ), entriesWalkable entries = true →
      ∃ s', walkEntries walkFn entries s = Result.ok s'
  | [], s, _ => ⟨s, by simp [walkEntries]⟩
  | (name, node) :: rest, s, h => by
    simp only [entriesWalkable, Bool.and_eq_true] at h
    obtain ⟨s', hs⟩ := walk_ok_of_walkable walkFn hok node name s h.1
    obtain ⟨s'', hs'⟩ := walkEntries_ok_of_walkable walkFn hok rest s' h.2
    exact ⟨s'', by simp [walkEntries, hs, hs']⟩
end

mutual
theorem walk_unlistable {σ : Type}
    (walkFn : String → FsNode → Bool → List σ → Result (List σ))
    (herr : ∀ name node s, ∃ msg, walkFn name node true s = Result.err msg)
    (hok : ∀ name node s, ∃ s', walkFn name node false s = Result.ok s') :
    ∀ (node : FsNode) (name : String) (s : List σ), node.walkable = false →
      ∃ msg, walk walkFn name node s = Result.err msg
  | .file content, name, s, h => by simp [FsNode.walkable] at h
  | .dir listable entries, name, s, h => by
    cases listable with
    | false =>
      obtain ⟨msg, hm⟩ := herr name (FsNode.dir false entries) s
      exact ⟨msg, by simp [walk, hm]⟩
    | true =>
      simp only [FsNode.walkable, Bool.true_and] at h
      obtain ⟨s', hs⟩ := hok name (FsNode.dir true entries) s
      obtain ⟨msg, hm⟩ := walkEntries_unlistable walkFn herr hok entries s' h
      exact ⟨msg, by simp [walk, hs, hm]⟩
  | .inaccessible isDir, name, s, _ => by
    obtain ⟨msg, hm⟩ := herr name (FsNode.inaccessible isDir) s
    exact ⟨msg, by simp [walk, hm]⟩
theorem walkEntries_unlistable {σ : Type}
    (walkFn : String → FsNode → Bool → List σ → Result (List σ))
    (herr : ∀ name node s, ∃ msg, walkFn name node true s = Result.err msg)
    (hok : ∀ name node s, ∃ s', walkFn name node false s = Result.ok s') :
    ∀ (entries : List (String × FsNode)) (s : List σ), entriesWalkable entries = false →
      ∃ msg, walkEntries walkFn entries s = Result.err msg
  | [], s, h => by simp [entriesWalkable] at h
  | (name, node) :: rest, s, h => by
    cases hn : node.walkable with
    | false =>
      obtain ⟨msg, hm⟩ := walk_unlistable walkFn herr hok node name s hn
      exact ⟨msg, by simp [walkEntries, hm]⟩
    | true =>
      simp only [entriesWalkable, hn, Bool.true_and] at h
      have hw : ∃ s', walk walkFn name node s = Result.ok s' := by
        cases node with
        | file content =>
          obtain ⟨s', hs⟩ := hok name (FsNode.file content) s
          exact ⟨s', by simp [walk, hs]⟩
        | dir listable entries =>
          exact walk_ok_of_walkable walkFn hok (FsNode.dir listable entries) name s hn
        | inaccessible isDir => simp [FsNode.walkable] at hn
      obtain ⟨s', hs⟩ := hw
      obtain ⟨msg, hm⟩ := walkEntries_unlistable walkFn herr hok rest s' h
      exact ⟨msg, by simp [walkEntries, hs, hm]⟩
end

theorem clusterWalkFn_dir (decode : String → Option (GoMap String Value)) (name : String)
    (listable : Bool) (entries : List (String × FsNode)) (s : List Unstructured) :
    clusterWalkFn decode name (FsNode.dir listable entries) false s = Result.ok s := by
  simp [clusterWalkFn, FsNode.isDir]

theorem clusterWalkFn_file (decode : String → Option (GoMap String Value)) (name : String)
    (content : Option String) (s : List Unstructured) :
    clusterWalkFn decode name (FsNode.file content) false s =
      Result.ok (s ++ clusterFileRecords decode (name, FsNode.file content)) := by
  unfold clusterWalkFn clusterFileRecords loadSingleResourceFile
  by_cases hy : isYAMLFile name = true
  · simp only [Bool.false_eq_true, if_false, FsNode.isDir, hy, Bool.not_true, Bool.or_self,
      if_true, FsNode.readFile]
    cases content with
    | none => simp
    | some data =>
      cases hdec : decode data with
      | none => simp [hdec]
      | some obj => cases hdoc : loadSingleResourceDocument obj <;> simp [hdec, hdoc]
  · simp [hy, FsNode.isDir]

theorem namespacedWalkFn_dir (decode : String → Option (GoMap String Value)) (name : String)
    (listable : Bool) (entries : List (String × FsNode)) (s : List Unstructured) :
    namespacedWalkFn decode name (FsNode.dir listable entries) false s = Result.ok s := by
  simp [namespacedWalkFn, FsNode.isDir]

theorem namespacedWalkFn_file (decode : String → Option (GoMap String Value)) (name : String)
    (content : Option String) (s : List Unstructured) :
    namespacedWalkFn decode name (FsNode.file content) false s =
      Result.ok (s ++ namespacedFileRecords decode (name, FsNode.file content)) := by
  unfold namespacedWalkFn namespacedFileRecords loadMultiResourceFile
  by_cases hy : isYAMLFile name = true
  · simp only [Bool.false_eq_true, if_false, FsNode.isDir, hy, Bool.not_true, Bool.or_self,
      if_true, FsNode.readFile]
    cases content with
    | none => simp
    | some data => cases hdec : decode data <;> simp [hdec]
  · simp [hy, FsNode.isDir]

theorem clusterWalkFn_ok (decode : String → Option (GoMap String Value)) (name : String)
    (node : FsNode) (s : List Unstructured) :
    ∃ s', clusterWalkFn decode name node false s = Result.ok s' := by
  cases node with
  | file content => exact ⟨_, clusterWalkFn_file decode name content s⟩
  | dir listable entries => exact ⟨_, clusterWalkFn_dir decode name listable entries s⟩
  | inaccessible isDir =>
    by_cases hskip : ((FsNode.inaccessible isDir).isDir || !isYAMLFile name) = true
    · exact ⟨s, by simp [clusterWalkFn, hskip]⟩
    · exact ⟨s, by simp [clusterWalkFn, hskip, loadSingleResourceFile, FsNode.readFile]⟩

theorem namespacedWalkFn_ok (decode : String → Option (GoMap String Value)) (name : String)
    (node : FsNode) (s : List Unstructured) :
    ∃ s', namespacedWalkFn decode name node false s = Result.ok s' := by
  cases node with
  | file content => exact ⟨_, namespacedWalkFn_file decode name content s⟩
  | dir listable entries => exact ⟨_, namespacedWalkFn_dir decode name listable entries s⟩
  | inaccessible isDir =>
    by_cases hskip : ((FsNode.inaccessible isDir).isDir || !isYAMLFile name) = true
    · exact ⟨s, by simp [namespacedWalkFn, hskip]⟩
    · exact ⟨s, by simp [namespacedWalkFn, hskip, loadMultiResourceFile, FsNode.readFile]⟩

theorem loadClusterScopedResources_ok (decode : String → Option (GoMap String Value))
    (d : FsNode) (h : d.walkable = true) :
    loadClusterScopedResources decode d =
      Result.ok ((filesOf "cluster-scoped-resources" d).flatMap (clusterFileRecords decode)) := by
  unfold loadClusterScopedResources
  rw [walk_files (clusterWalkFn decode) (clusterFileRecords decode)
    (clusterWalkFn_dir decode) (clusterWalkFn_file decode) d _ [] h]
  simp

theorem loadClusterScopedResources_err (decode : String → Option (GoMap String Value))
    (d : FsNode) (h : d.walkable = false) :
    ∃ msg, loadClusterScopedResources decode d = Result.err msg :=
  walk_unlistable (clusterWalkFn decode) (fun _ _ _ => ⟨"walk error", by simp [clusterWalkFn]⟩)
    (clusterWalkFn_ok decode) d _ [] h

/-- The namespace set after the loop over the entries: every directory name
added to the initial set. -/
theorem loadNamespaceEntries_ok (decode : String → Option (GoMap String Value)) :
    ∀ (entries : List (String × FsNode)) (resources : List Unstructured)
      (namespaceSet : GoMap String Bool),
      entries.all (fun entry => !entry.2.isDir || entry.2.walkable) = true →
      loadNamespaceEntries decode entries (resources, namespaceSet) =
        Result.ok
          (resources ++ (entries.filter (fun entry => entry.2.isDir)).flatMap
              (fun entry => (filesOf entry.1 entry.2).flatMap (namespacedFileRecords decode)),
           (entries.filter (fun entry => entry.2.isDir)).foldl
              (fun set entry => GoMap.set set entry.1 true) namespaceSet)
  | [], resources, namespaceSet, _ => by simp [loadNamespaceEntries]
  | (name, node) :: rest, resources, namespaceSet, h => by
    simp only [List.all_cons, Bool.and_eq_true, Bool.or_eq_true, Bool.not_eq_true'] at h
    by_cases hd : node.isDir = true
    · have hw : node.walkable = true := by
        rcases h.1 with h1 | h1
        · rw [hd] at h1
          cases h1
        · exact h1
      have hrest : rest.all (fun entry => !entry.2.isDir || entry.2.walkable) = true := by
        simpa using h.2
      simp only [loadNamespaceEntries, hd, Bool.not_true, Bool.false_eq_true, if_false,
        walk_files (namespacedWalkFn decode) (namespacedFileRecords decode)
          (namespacedWalkFn_dir decode) (namespacedWalkFn_file decode) node name resources hw,
        loadNamespaceEntries_ok decode rest _ _ hrest, List.filter_cons, if_true,
        List.flatMap_cons, List.foldl_cons, List.append_assoc]
    · have hrest : rest.all (fun entry => !entry.2.isDir || entry.2.walkable) = true := by
        simpa using h.2
      simp only [Bool.not_eq_true] at hd
      simp only [loadNamespaceEntries, hd, Bool.not_false, if_true,
        loadNamespaceEntries_ok decode rest _ _ hrest, List.filter_cons, Bool.false_eq_true,
        if_false]

theorem loadNamespaceEntries_err (decode : String → Option (GoMap String Value)) :
    ∀ (entries : List (String × FsNode)) (acc : List Unstructured × GoMap String Bool),
      entries.all (fun entry => !entry.2.isDir || entry.2.walkable) = false →
      ∃ msg, loadNamespaceEntries decode entries acc = Result.err msg
  | [], acc, h => by simp at h
  | (name, node) :: rest, (resources, namespaceSet), h => by
    by_cases hd : node.isDir = true
    · cases hw : node.walkable with
      | false =>
        obtain ⟨msg, hm⟩ := walk_unlistable (namespacedWalkFn decode)
          (fun _ _ _ => ⟨"walk error", by simp [namespacedWalkFn]⟩)
          (namespacedWalkFn_ok decode) node name resources hw
        exact ⟨msg, by simp [loadNamespaceEntries, hd, hm]⟩
      | true =>
        have hrest : rest.all (fun entry => !entry.2.isDir || entry.2.walkable) = false := by
          simpa [List.all_cons, hd, hw] using h
        obtain ⟨s', hs⟩ := walk_ok_of_walkable (namespacedWalkFn decode)
          (namespacedWalkFn_ok decode) node name resources hw
        obtain ⟨msg, hm⟩ := loadNamespaceEntries_err decode rest
          (s', GoMap.set namespaceSet name true) hrest
        exact ⟨msg, by simp [loadNamespaceEntries, hd, hs, hm]⟩
    · simp only [Bool.not_eq_true] at hd
      have hrest : rest.all (fun entry => !entry.2.isDir || entry.2.walkable) = false := by
        simpa [List.all_cons, hd] using h
      obtain ⟨msg, hm⟩ := loadNamespaceEntries_err decode rest (resources, namespaceSet) hrest
      exact ⟨msg, by simp [loadNamespaceEntries, hd, hm]⟩

theorem GoMap.mem_keys_set {κ ν : Type} [DecidableEq κ] (m : GoMap κ ν) (k k' : κ) (v : ν) :
    k' ∈ (m.set k v).keys ↔ k' ∈ m.keys ∨ k' = k := by
  rw [GoMap.keys_set]
  cases hg : m.get? k with
  | none => simp
  | some v0 =>
    simp only [Option.isNone_some, Bool.false_eq_true, if_false]
    constructor
    · exact Or.inl
    · rintro (h | h)
      · exact h
      · rw [h]
        by_contra hk
        rw [(GoMap.get?_eq_none_iff m k).mpr hk] at hg
        cases hg

theorem mem_keys_foldl_set (l : List (String × FsNode)) (set : GoMap String Bool)
    (name : String) :
    name ∈ (l.foldl (fun set entry => GoMap.set set entry.1 true) set).keys ↔
      name ∈ set.keys ∨ ∃ entry ∈ l, entry.1 = name := by
  induction l generalizing set with
  | nil => simp
  | cons e l ih =>
    rw [List.foldl_cons, ih, GoMap.mem_keys_set]
    simp only [List.mem_cons, exists_eq_or_imp]
    constructor
    · rintro ((h | h) | h)
      · exact Or.inl h
      · exact Or.inr (Or.inl h.symm)
      · exact Or.inr (Or.inr h)
    · rintro (h | h | h)
      · exact Or.inl (Or.inl h)
      · exact Or.inl (Or.inr h.symm)
      · exact Or.inr h

theorem loadNamespacedResources_ok (decode : String → Option (GoMap String Value))
    (d : FsNode) (h : namespacesLoadable d = true) :
    ∃ entries namespaces, d.readDir = some entries ∧
      loadNamespacedResources decode d =
        Result.ok
          ((entries.filter (fun entry => entry.2.isDir)).flatMap
              (fun entry => (filesOf entry.1 entry.2).flatMap (namespacedFileRecords decode)),
           namespaces) ∧
      ∀ name, name ∈ namespaces ↔
        ∃ entry ∈ entries.filter (fun entry => entry.2.isDir), entry.1 = name := by
  unfold namespacesLoadable at h
  cases hr : d.readDir with
  | none => rw [hr] at h; cases h
  | some entries =>
    rw [hr] at h
    simp only [] at h
    refine ⟨entries, GoMap.keys ((entries.filter (fun entry => entry.2.isDir)).foldl
      (fun set entry => GoMap.set set entry.1 true) []), rfl, ?_, ?_⟩
    · unfold loadNamespacedResources
      rw [hr]
      simp only [loadNamespaceEntries_ok decode entries [] [] h, List.nil_append]
    · intro name
      rw [mem_keys_foldl_set]
      simp [GoMap.keys]

theorem loadNamespacedResources_err (decode : String → Option (GoMap String Value))
    (d : FsNode) (h : namespacesLoadable d = false) :
    ∃ msg, loadNamespacedResources decode d = Result.err msg := by
  unfold namespacesLoadable at h
  unfold loadNamespacedResources
  cases hr : d.readDir with
  | none => exact ⟨_, rfl⟩
  | some entries =>
    rw [hr] at h
    obtain ⟨msg, hm⟩ := loadNamespaceEntries_err decode entries ([], []) h
    exact ⟨msg, by simp [hm]⟩

theorem Load_ok_of_not_blocked (decode : String → Option (GoMap String Value))
    (parseTime : String → Option Time) (path : String) (rootNode : FsNode)
    (h : ¬ walkBlocked (containerDirOf rootNode)) :
    ∃ res, Load decode parseTime path (some rootNode) = Result.ok res ∧
      res.Resources = clusterRecordsOf decode (containerDirOf rootNode) ++
        namespacedRecordsOf decode (containerDirOf rootNode) ∧
      (∀ name, name ∈ res.Namespaces ↔
        ∃ entry ∈ namespaceDirsOf (containerDirOf rootNode), entry.1 = name) ∧
      res.Metadata.ResourceCount = res.Resources.length ∧
      res.Metadata.NamespaceCount = res.Namespaces.length := by
  unfold walkBlocked at h
  rw [not_or] at h
  obtain ⟨hc, hn⟩ := h
  have hcluster : (match (containerDirOf rootNode).child "cluster-scoped-resources" with
      | none => (Result.ok [] : Result (GoSlice Unstructured))
      | some clusterScopedDir => loadClusterScopedResources decode clusterScopedDir) =
      Result.ok (clusterRecordsOf decode (containerDirOf rootNode)) := by
    unfold clusterRecordsOf
    cases hch : (containerDirOf rootNode).child "cluster-scoped-resources" with
    | none => rfl
    | some d =>
      have hw : d.walkable = true := by
        cases hwd : d.walkable with
        | true => rfl
        | false => exact absurd ⟨d, hch, hwd⟩ hc
      exact loadClusterScopedResources_ok decode d hw
  cases hnch : (containerDirOf rootNode).child "namespaces" with
  | none =>
    refine ⟨_, by
      unfold Load
      simp only [hcluster, hnch]
      rfl, ?_, ?_, rfl, rfl⟩
    · simp [namespacedRecordsOf, namespaceDirsOf, hnch]
    · simp [namespaceDirsOf, hnch]
  | some d =>
    have hl : namespacesLoadable d = true := by
      cases hld : namespacesLoadable d with
      | true => rfl
      | false => exact absurd ⟨d, hnch, hld⟩ hn
    obtain ⟨entries, namespaces, hrd, hload, hmem⟩ := loadNamespacedResources_ok decode d hl
    refine ⟨_, by
      unfold Load
      simp only [hcluster, hnch, hload]
      rfl, ?_, ?_, rfl, rfl⟩
    · simp [namespacedRecordsOf, namespaceDirsOf, hnch, hrd]
    · intro name
      have hdirs : namespaceDirsOf (containerDirOf rootNode) =
          entries.filter (fun entry => entry.2.isDir) := by
        simp [namespaceDirsOf, hnch, hrd]
      rw [hdirs]
      exact hmem name

theorem Load_err_of_blocked (decode : String → Option (GoMap String Value))
    (parseTime : String → Option Time) (path : String) (rootNode : FsNode)
    (h : walkBlocked (containerDirOf rootNode)) :
    ∃ msg, Load decode parseTime path (some rootNode) = Result.err msg := by
  by_cases hc : ∃ d, (containerDirOf rootNode).child "cluster-scoped-resources" = some d ∧
      d.walkable = false
  · obtain ⟨d, hch, hw⟩ := hc
    obtain ⟨msg, hm⟩ := loadClusterScopedResources_err decode d hw
    exact ⟨"failed to load cluster-scoped resources: " ++ msg, by
      unfold Load
      simp only [hch, hm]⟩
  · have hn : ∃ d, (containerDirOf rootNode).child "namespaces" = some d ∧
        namespacesLoadable d = false := by
      rcases h with h | h
      · exact absurd h hc
      · exact h
    obtain ⟨d, hnch, hl⟩ := hn
    obtain ⟨msg, hm⟩ := loadNamespacedResources_err decode d hl
    have hcluster : ∃ res, (match (containerDirOf rootNode).child "cluster-scoped-resources" with
        | none => (Result.ok [] : Result (GoSlice Unstructured))
        | some clusterScopedDir => loadClusterScopedResources decode clusterScopedDir) =
        Result.ok res := by
      cases hch : (containerDirOf rootNode).child "cluster-scoped-resources" with
      | none => exact ⟨_, rfl⟩
      | some d' =>
        have hw : d'.walkable = true := by
          cases hwd : d'.walkable with
          | true => rfl
          | false => exact absurd ⟨d', hch, hwd⟩ hc
        exact ⟨_, loadClusterScopedResources_ok decode d' hw⟩
    obtain ⟨res, hres⟩ := hcluster
    exact ⟨"failed to load namespaced resources: " ++ msg, by
      unfold Load
      simp only [hres, hnch, hm]⟩

/-! ## Success and failure of `Load` -/

theorem Load_ne_panic (decode : String → Option (GoMap String Value))
    (parseTime : String → Option Time) (path : String) (root : Option FsNode) :
    Load decode parseTime path root ≠ Result.panic := by
  cases root with
  | none => simp [Load]
  | some rootNode =>
    by_cases h : walkBlocked (containerDirOf rootNode)
    · obtain ⟨msg, hm⟩ := Load_err_of_blocked decode parseTime path rootNode h
      rw [hm]
      simp
    · obtain ⟨res, hres, -⟩ := Load_ok_of_not_blocked decode parseTime path rootNode h
      rw [hres]
      simp

theorem statPath_eq_none_iff : ∀ (names : List String) (tree : FsNode),
    statPath names tree = none ↔ pathMissing names tree
  | [], tree => by
    constructor
    · intro h
      simp [statPath] at h
    · rintro ⟨front, name, back, listable, entries, hsplit, -, -⟩
      simp at hsplit
  | name :: rest, .file content => by
    constructor
    · intro h
      simp [statPath] at h
    · rintro ⟨front, n, back, listable, entries, hsplit, hfront, -⟩
      cases front with
      | nil => simp [statPath] at hfront
      | cons f front => simp [statPath] at hfront
  | name :: rest, .inaccessible isDir => by
    constructor
    · intro h
      simp [statPath] at h
    · rintro ⟨front, n, back, listable, entries, hsplit, hfront, -⟩
      cases front with
      | nil => simp [statPath] at hfront
      | cons f front => simp [statPath] at hfront
  | name :: rest, .dir listable entries => by
    cases hget : GoMap.get? entries name with
    | none =>
      constructor
      · intro _
        exact ⟨[], name, rest, listable, entries, rfl, rfl, hget⟩
      · intro _
        simp [statPath, hget]
    | some found =>
      have hstep : statPath (name :: rest) (.dir listable entries) = statPath rest found := by
        simp [statPath, hget]
      rw [hstep, statPath_eq_none_iff rest found]
      constructor
      · rintro ⟨front, n, back, l, es, hsplit, hfront, hmiss⟩
        refine ⟨name :: front, n, back, l, es, by simp [hsplit], ?_, hmiss⟩
        simp [statPath, hget, hfront]
      · rintro ⟨front, n, back, l, es, hsplit, hfront, hmiss⟩
        cases front with
        | nil =>
          simp only [List.nil_append, List.cons.injEq] at hsplit
          simp only [statPath, Option.some.injEq, FsNode.dir.injEq] at hfront
          obtain ⟨-, hes⟩ := hfront
          rw [← hes, ← hsplit.1, hget] at hmiss
          cases hmiss
        | cons f front =>
          simp only [List.cons_append, List.cons.injEq] at hsplit
          obtain ⟨hf, hrest⟩ := hsplit
          subst hf
          simp only [statPath, hget] at hfront
          exact ⟨front, n, back, l, es, hrest, hfront, hmiss⟩

/-- C19 (as stated, refuted): a root that exists as a regular file cannot be
listed, and neither can a root path below a regular file, on which `os.Stat`
fails with an error other than "does not exist"; yet `Load` succeeds on both
with an empty result.  An archive whose root can be listed but whose
directory `cluster-scoped-resources/core` cannot makes `Load` fail. -/
theorem load_root_listing_counterexample :
    rootListable (some fileRoot) = false ∧
    (∃ res, Load sampleDecode noTime "/must-gather" (some fileRoot) = Result.ok res ∧
      res.Resources = [] ∧ res.Namespaces = []) ∧
    rootListable (statPath ["notes", "must-gather"] hostTree) = false ∧
    (∃ res, Load sampleDecode noTime "/notes/must-gather"
        (statPath ["notes", "must-gather"] hostTree) = Result.ok res ∧
      res.Resources = [] ∧ res.Namespaces = []) ∧
    rootListable (some blockedArchive) = true ∧
    Load sampleDecode noTime "/must-gather" (some blockedArchive) =
      Result.err "failed to load cluster-scoped resources: walk error" := by
  refine ⟨rfl, ⟨_, rfl, rfl, rfl⟩, rfl, ⟨_, rfl, rfl, rfl⟩, rfl, rfl⟩

theorem Load_unreachable_entries :
    statPath ["must-gather"] hostTree = none ∧
    Load sampleDecode noTime "/must-gather" (statPath ["must-gather"] hostTree) =
      Result.err "must-gather path does not exist: /must-gather" ∧
    Load sampleDecode noTime "/must-gather" (some unreachableNamespaceArchive) =
      Result.err "failed to load namespaced resources: walk error" ∧
    Load sampleDecode noTime "/must-gather" (some unreachableFileArchive) =
      Result.err "failed to load cluster-scoped resources: walk error" := by
  refine ⟨rfl, rfl, rfl, rfl⟩

/-- C19 (amended): `Load` fails exactly when `os.Stat` reports that the root
path does not exist, or a directory at or below `cluster-scoped-resources` or
at or below a namespace directory cannot be listed or holds an entry that
cannot be inspected, or `namespaces` itself cannot be listed; it never
panics.  The root path does not exist exactly when one of its names is
missing in the directory the names before it lead to.  A root on which
`os.Stat` fails with any other error, like a root that is a regular file,
loads as an empty archive: neither the listing of the root, nor the metadata
files, nor the readability or decoding of any file enters the condition. -/
theorem load_fails_iff (decode : String → Option (GoMap String Value))
    (parseTime : String → Option Time) (path : String) (root : Option FsNode) :
    ((∃ msg, Load decode parseTime path root = Result.err msg) ↔
      (root = none ∨ ∃ rootNode, root = some rootNode ∧
        walkBlocked (containerDirOf rootNode))) ∧
    Load decode parseTime path root ≠ Result.panic ∧
    (∀ names tree, statPath names tree = none ↔ pathMissing names tree) ∧
    (∀ isDir, ∃ res, Load decode parseTime path (some (.inaccessible isDir)) = Result.ok res ∧
      res.Resources = [] ∧ res.Namespaces = []) ∧
    (∀ content, ∃ res, Load decode parseTime path (some (.file content)) = Result.ok res ∧
      res.Resources = [] ∧ res.Namespaces = []) := by
  refine ⟨?_, Load_ne_panic decode parseTime path root, statPath_eq_none_iff,
    fun _ => ⟨_, rfl, rfl, rfl⟩, fun _ => ⟨_, rfl, rfl, rfl⟩⟩
  cases root with
  | none => simp [Load]
  | some rootNode =>
    constructor
    · rintro ⟨msg, hm⟩
      refine Or.inr ⟨rootNode, rfl, ?_⟩
      by_contra h
      obtain ⟨res, hres, -⟩ := Load_ok_of_not_blocked decode parseTime path rootNode h
      rw [hres] at hm
      cases hm
    · rintro (h | ⟨r, hr, h⟩)
      · cases h
      · cases hr
        exact Load_err_of_blocked decode parseTime path rootNode h

theorem mem_flatMap_of_mem {α β : Type} (l : List α) (f : α → List β) (a : α) (b : β)
    (ha : a ∈ l) (hb : b ∈ f a) : b ∈ l.flatMap f :=
  List.mem_flatMap.mpr ⟨a, ha, hb⟩

/-- C20: when every directory of the two resource subtrees can be listed and
holds no inaccessible entry, `Load` succeeds whatever files fail to decode; its records contain the record
of every decodable YAML file below `cluster-scoped-resources` and the records
of every decodable YAML file below a namespace directory, and its roster
contains the name of every directory directly under `namespaces`. -/
theorem load_keeps_other_files (decode : String → Option (GoMap String Value))
    (parseTime : String → Option Time) (path : String) (rootNode : FsNode)
    (hlist : ¬ walkBlocked (containerDirOf rootNode)) :
    ∃ res, Load decode parseTime path (some rootNode) = Result.ok res ∧
      (∀ d, (containerDirOf rootNode).child "cluster-scoped-resources" = some d →
        ∀ file ∈ filesOf "cluster-scoped-resources" d, ∀ data obj r,
          isYAMLFile file.1 = true → file.2.readFile = some data → decode data = some obj →
          loadSingleResourceDocument obj = some r → r ∈ res.Resources) ∧
      (∀ entry ∈ namespaceDirsOf (containerDirOf rootNode),
        entry.1 ∈ res.Namespaces ∧
        ∀ file ∈ filesOf entry.1 entry.2, ∀ data obj,
          isYAMLFile file.1 = true → file.2.readFile = some data → decode data = some obj →
          ∀ r ∈ loadMultiResourceDocument obj, r ∈ res.Resources) := by
  obtain ⟨res, hres, hrec, hns, -⟩ :=
    Load_ok_of_not_blocked decode parseTime path rootNode hlist
  refine ⟨res, hres, ?_, ?_⟩
  · intro d hd file hfile data obj r hy hread hdec hdoc
    rw [hrec]
    apply List.mem_append_left
    unfold clusterRecordsOf
    rw [hd]
    apply mem_flatMap_of_mem _ _ file r hfile
    simp [clusterFileRecords, hy, hread, hdec, hdoc]
  · intro entry hentry
    refine ⟨(hns entry.1).mpr ⟨entry, hentry, rfl⟩, ?_⟩
    intro file hfile data obj hy hread hdec r hr
    rw [hrec]
    apply List.mem_append_right
    unfold namespacedRecordsOf
    apply mem_flatMap_of_mem _ _ entry r hentry
    apply mem_flatMap_of_mem _ _ file r hfile
    simpa [namespacedFileRecords, hy, hread, hdec] using hr

theorem sampleArchive_not_blocked : ¬ walkBlocked (containerDirOf sampleArchive) := by
  rintro (⟨d, hd, hw⟩ | ⟨d, hd, hw⟩)
  · have hch : (containerDirOf sampleArchive).child "cluster-scoped-resources" =
        some (FsNode.dir true
          [("broken.yaml", FsNode.file (some "key: [unclosed")),
           ("core", FsNode.dir true [("widget.yaml", FsNode.file (some "widget a/b"))])]) := rfl
    rw [hch] at hd
    cases hd
    exact absurd hw (by decide)
  · have hch : (containerDirOf sampleArchive).child "namespaces" =
        some (FsNode.dir true
          [("default", FsNode.dir true [("pods.yaml", FsNode.file (some "pod web-1"))]),
           ("empty", FsNode.dir true [("notes.txt", FsNode.file (some "pod web-2"))]),
           ("other", FsNode.dir true
              [("core", FsNode.dir true [("pods.yml", FsNode.file (some "pod db"))])])]) := rfl
    rw [hch] at hd
    cases hd
    exact absurd hw (by decide)

theorem Load_sampleArchive :
    Result.map (fun res => (res.Resources, res.Namespaces, res.Metadata.Version))
        (Load sampleDecode noTime "/must-gather" (some sampleArchive)) =
      Result.ok ([slashNamed, podWeb1, podDb], ["default", "empty", "other"], "4.14") := by
  rfl

/-- C20, instance: an archive whose file `broken.yaml` does not decode and
whose namespace `empty` holds no YAML file. -/
theorem load_keeps_other_files_witness :
    ∃ res, Load sampleDecode noTime "/must-gather" (some sampleArchive) = Result.ok res ∧
      (∀ d, (containerDirOf sampleArchive).child "cluster-scoped-resources" = some d →
        ∀ file ∈ filesOf "cluster-scoped-resources" d, ∀ data obj r,
          isYAMLFile file.1 = true → file.2.readFile = some data →
          sampleDecode data = some obj →
          loadSingleResourceDocument obj = some r → r ∈ res.Resources) ∧
      (∀ entry ∈ namespaceDirsOf (containerDirOf sampleArchive),
        entry.1 ∈ res.Namespaces ∧
        ∀ file ∈ filesOf entry.1 entry.2, ∀ data obj,
          isYAMLFile file.1 = true → file.2.readFile = some data →
          sampleDecode data = some obj →
          ∀ r ∈ loadMultiResourceDocument obj, r ∈ res.Resources) :=
  load_keeps_other_files sampleDecode noTime "/must-gather" sampleArchive
    sampleArchive_not_blocked

/-! ## Log tails -/

/-- C21 (failing input): a log of three lines, each ended by a newline.  For
`n = 2` the code returns the last line alone, for `n = 3` the last two lines
although the content has three, and for `n = 1` nothing at all. -/
theorem tailLines_counts_final_newline :
    TailLines "a\nb\nc\n" 2 = Result.ok "c\n" ∧
    TailLines "a\nb\nc\n" 3 = Result.ok "b\nc\n" ∧
    TailLines "a\nb\nc\n" 1 = Result.ok "" := by
  refine ⟨?_, ?_, ?_⟩ <;> rfl

theorem wrapInt64_of_bounds (i : Int) (h0 : 0 ≤ i) (h1 : i < 9223372036854775808) :
    wrapInt64 i = i := by
  unfold wrapInt64
  omega

theorem TailLines_ok_of_nonneg (content : String) (n : Int) (hn : 0 ≤ n)
    (hlen : ((stringsSplit content '\n').length : Int) < 9223372036854775808) :
    ∃ s, TailLines content n = Result.ok s := by
  unfold TailLines
  by_cases h : ((stringsSplit content '\n').length : Int) ≤ n
  · exact ⟨content, by simp [h]⟩
  · have hw : wrapInt64 (((stringsSplit content '\n').length : Int) - n) =
        ((stringsSplit content '\n').length : Int) - n :=
      wrapInt64_of_bounds _ (by omega) (by omega)
    refine ⟨stringsJoin ((stringsSplit content '\n').drop
      (((stringsSplit content '\n').length : Int) - n).toNat) '\n', ?_⟩
    simp only [h, if_false, hw]
    rw [if_pos ⟨by omega, by omega⟩]

/-- C30 (as stated, refuted): for `n = -1` the slice expression of
`TailLines` asks for a lower bound beyond the length of the line slice and
the call panics. -/
theorem tailLines_negative_counterexample :
    TailLines "a\nb" (-1) = Result.panic ∧
    TailLines "a\nb" (-9223372036854775808) = Result.panic := by
  constructor <;> rfl

/-- C30 (amended): for every content, whose line slice has a length a Go
slice can have, `TailLines` returns a string for every `n ≥ 0`, the empty
string for `n = 0`; the guarded call `n > 0` of `GetPodLog` and of the node
tools returns a string for every integer `n`. -/
theorem tailLines_total_of_nonneg (content : String)
    (hlen : ((stringsSplit content '\n').length : Int) < 9223372036854775808) :
    (∀ n : Int, 0 ≤ n → ∃ s, TailLines content n = Result.ok s) ∧
    TailLines content 0 = Result.ok "" ∧
    (∀ n : Int, ∃ s, applyTail content n = Result.ok s) := by
  refine ⟨fun n hn => TailLines_ok_of_nonneg content n hn hlen, ?_, ?_⟩
  · have hpos : 0 < (stringsSplit content '\n').length := by
      unfold stringsSplit
      rw [List.length_map]
      exact List.length_pos.mpr (joinWith_splitChars '\n' content.data).2.1
    unfold TailLines
    have h : ¬ ((stringsSplit content '\n').length : Int) ≤ 0 := by omega
    have hw : wrapInt64 (((stringsSplit content '\n').length : Int) - 0) =
        ((stringsSplit content '\n').length : Int) - 0 :=
      wrapInt64_of_bounds _ (by omega) (by omega)
    simp only [h, if_false, hw]
    rw [if_pos ⟨by omega, by omega⟩]
    simp [stringsJoin, joinWith]
  · intro n
    unfold applyTail
    by_cases hn : n > 0
    · rw [if_pos hn]
      exact TailLines_ok_of_nonneg content n (le_of_lt hn) hlen
    · rw [if_neg hn]
      exact ⟨content, rfl⟩

/-- C30 (amended), instance: a two-line log. -/
theorem tailLines_total_of_nonneg_witness :
    (∀ n : Int, 0 ≤ n → ∃ s, TailLines "a\nb" n = Result.ok s) ∧
    TailLines "a\nb" 0 = Result.ok "" ∧
    (∀ n : Int, ∃ s, applyTail "a\nb" n = Result.ok s) :=
  tailLines_total_of_nonneg "a\nb" (by decide)

/-! ## What the accessors hand out -/

mutual
theorem DeepCopyJSONValue_eq : ∀ (v v' : Value), DeepCopyJSONValue v = some v' → v' = v
  | .map kvs, v', h => by
    simp only [DeepCopyJSONValue, Option.map_eq_some'] at h
    obtain ⟨kvs', h1, rfl⟩ := h
    rw [deepCopyFields_eq kvs kvs' h1]
  | .slice xs, v', h => by
    simp only [DeepCopyJSONValue, Option.map_eq_some'] at h
    obtain ⟨xs', h1, rfl⟩ := h
    rw [deepCopyItems_eq xs xs' h1]
  | .int _, _, h => by simp [DeepCopyJSONValue] at h
  | .other _, _, h => by simp [DeepCopyJSONValue] at h
  | .null, _, h => by simp [DeepCopyJSONValue] at h; exact h.symm
  | .bool _, _, h => by simp [DeepCopyJSONValue] at h; exact h.symm
  | .str _, _, h => by simp [DeepCopyJSONValue] at h; exact h.symm
  | .int64 _, _, h => by simp [DeepCopyJSONValue] at h; exact h.symm
  | .float64 _, _, h => by simp [DeepCopyJSONValue] at h; exact h.symm
theorem deepCopyFields_eq : ∀ (kvs kvs' : List (String × Value)),
    deepCopyFields kvs = some kvs' → kvs' = kvs
  | [], kvs', h => by simp [deepCopyFields] at h; exact h
  | (k, v) :: rest, kvs', h => by
    simp only [deepCopyFields] at h
    cases hv : DeepCopyJSONValue v with
    | none => simp [hv] at h
    | some v' =>
      cases hr : deepCopyFields rest with
      | none => simp [hv, hr] at h
      | some rest' =>
        simp only [hv, hr, Option.some.injEq] at h
        rw [← h, DeepCopyJSONValue_eq v v' hv, deepCopyFields_eq rest rest' hr]
theorem deepCopyItems_eq : ∀ (xs xs' : List Value), deepCopyItems xs = some xs' → xs' = xs
  | [], xs', h => by simp [deepCopyItems] at h; exact h
  | v :: rest, xs', h => by
    simp only [deepCopyItems] at h
    cases hv : DeepCopyJSONValue v with
    | none => simp [hv] at h
    | some v' =>
      cases hr : deepCopyItems rest with
      | none => simp [hv, hr] at h
      | some rest' =>
        simp only [hv, hr, Option.some.injEq] at h
        rw [← h, DeepCopyJSONValue_eq v v' hv, deepCopyItems_eq rest rest' hr]
end

theorem DeepCopy_eq (u u' : Unstructured) (h : u.DeepCopy = some u') : u' = u := by
  simp only [Unstructured.DeepCopy, Option.map_eq_some'] at h
  obtain ⟨obj, h1, rfl⟩ := h
  rw [deepCopyFields_eq u.Object obj h1]

theorem copyAll_eq (rs l : List Unstructured) (h : copyAll rs = some l) :
    l = rs ∧ ∀ r ∈ rs, r.DeepCopy = some r := by
  induction rs generalizing l with
  | nil =>
    simp only [copyAll, Option.some.injEq] at h
    exact ⟨h.symm, by simp⟩
  | cons r rs ih =>
    simp only [copyAll] at h
    cases hr : r.DeepCopy with
    | none => simp [hr] at h
    | some r' =>
      cases hrs : copyAll rs with
      | none => simp [hr, hrs] at h
      | some rest =>
        simp only [hr, hrs, Option.some.injEq] at h
        obtain ⟨h1, h2⟩ := ih rest hrs
        have hr' := DeepCopy_eq r r' hr
        subst hr' h1
        refine ⟨h.symm, ?_⟩
        intro x hx
        rcases List.mem_cons.mp hx with rfl | hx
        · exact hr
        · exact h2 x hx

theorem returnCopies_eq (rs l : List Unstructured) (h : returnCopies rs = Result.ok l) :
    l = rs ∧ ∀ r ∈ rs, r.DeepCopy = some r := by
  unfold returnCopies at h
  cases hc : copyAll rs with
  | none => simp [hc] at h
  | some l' =>
    simp only [hc, Result.ok.injEq] at h
    subst h
    exact copyAll_eq rs l' hc

/-- C24 (as stated, refuted): on the index holding the cluster-scoped record
named `a/b`, `Get` for namespace `a` and name `b` succeeds with that record,
whose namespace is empty and whose name is `a/b`. -/
theorem get_foreign_record_counterexample :
    (BuildIndex [slashNamed] []).Get widgetGVK "a" "b" = Result.ok slashNamed ∧
    slashNamed.GetNamespace = "" ∧ slashNamed.GetName = "a/b" := by
  refine ⟨rfl, rfl, rfl⟩

theorem identityKey_injective (ns n ns' n' : String)
    (h1 : '/' ∉ ns.data) (h2 : '/' ∉ n.data) (h3 : '/' ∉ ns'.data) (h4 : '/' ∉ n'.data)
    (h : identityKey ns n = identityKey ns' n') : ns = ns' ∧ n = n' := by
  unfold identityKey at h
  have hcut : ∀ a b : String, '/' ∉ a.data →
      cutChars '/' (a ++ "/" ++ b).data = some (a.data, b.data) := by
    intro a b ha
    have : (a ++ "/" ++ b).data = a.data ++ '/' :: b.data := by
      simp [String.data_append]
    rw [this]
    exact cutChars_append '/' a.data b.data ha
  by_cases e1 : ns = ""
  · by_cases e2 : ns' = ""
    · simp only [e1, e2, ne_eq, not_true_eq_false, if_false] at h
      exact ⟨by rw [e1, e2], h⟩
    · simp only [e1, e2, ne_eq, not_true_eq_false, if_false, not_false_eq_true, if_true] at h
      have := hcut ns' n' h3
      rw [← h, cutChars_eq_none '/' n.data h2] at this
      cases this
  · by_cases e2 : ns' = ""
    · simp only [e1, e2, ne_eq, not_true_eq_false, if_false, not_false_eq_true, if_true] at h
      have := hcut ns n h1
      rw [h, cutChars_eq_none '/' n'.data h4] at this
      cases this
    · simp only [e1, e2, ne_eq, not_false_eq_true, if_true] at h
      have a := hcut ns n h1
      rw [h, hcut ns' n' h3] at a
      simp only [Option.some.injEq, Prod.mk.injEq] at a
      exact ⟨(String.ext a.1).symm, (String.ext a.2).symm⟩

/-- C24 (amended): when `Get` succeeds it returns a record of the collection
that has the requested kind and is filed under the requested identity key;
its namespace and name are the requested ones whenever none of the four
strings contains `/`. -/
theorem get_returns_requested_key (rs : List Unstructured) (nss : List String)
    (k : GroupVersionKind) (ns n : String) (r : Unstructured)
    (h : (BuildIndex rs nss).Get k ns n = Result.ok r) :
    r ∈ rs ∧ r.GroupVersionKind = k ∧ r.identityKey = identityKey ns n ∧
    ('/' ∉ ns.data → '/' ∉ n.data → '/' ∉ r.GetNamespace.data → '/' ∉ r.GetName.data →
      r.GetNamespace = ns ∧ r.GetName = n) := by
  rw [Get_eq_lookup] at h
  cases hl : (BuildIndex rs nss).lookup k (identityKey ns n) with
  | none =>
    rw [hl] at h
    simp only [] at h
    cases hb : (BuildIndex rs nss).byGVK.get? k <;> rw [hb] at h <;> cases h
  | some x =>
    rw [hl] at h
    simp only [] at h
    cases hc : x.DeepCopy with
    | none => rw [hc] at h; cases h
    | some y =>
      rw [hc] at h
      simp only [Result.ok.injEq] at h
      have hxy := DeepCopy_eq x y hc
      subst h
      subst hxy
      rw [lookup_BuildIndex] at hl
      have hp := List.find?_some hl
      have hm := List.mem_reverse.mp (List.mem_of_find?_eq_some hl)
      simp only [decide_eq_true_eq] at hp
      refine ⟨hm, hp.1, hp.2, ?_⟩
      intro h1 h2 h3 h4
      exact identityKey_injective _ _ _ _ h3 h4 h1 h2 hp.2

/-- C24 (amended), instance: the pod `web-1` of `default` among three pods. -/
theorem get_returns_requested_key_witness :
    podWeb1 ∈ [podWeb1, podWeb2, podDb] ∧ podWeb1.GroupVersionKind = podGVK ∧
    podWeb1.identityKey = identityKey "default" "web-1" ∧
    ('/' ∉ "default".data → '/' ∉ "web-1".data → '/' ∉ podWeb1.GetNamespace.data →
      '/' ∉ podWeb1.GetName.data →
      podWeb1.GetNamespace = "default" ∧ podWeb1.GetName = "web-1") :=
  get_returns_requested_key [podWeb1, podWeb2, podDb] ["default", "other"] podGVK
    "default" "web-1" podWeb1 rfl

/-! ## Consistency of the three views -/

theorem addLabel_mem (ns name : String) (resource : Unstructured)
    (byLabel : GoMap String (GoMap String Unstructured)) (kv : String × String)
    (Q : Unstructured → Prop) (hQ : Q resource)
    (hinv : ∀ label bucket e, byLabel.get? label = some bucket → e ∈ bucket → Q e.2) :
    ∀ label bucket e, (addLabel ns name resource byLabel kv).get? label = some bucket →
      e ∈ bucket → Q e.2 := by
  intro label bucket e hget he
  unfold addLabel at hget
  simp only [GoMap.get?_set] at hget
  by_cases hl : kv.1 ++ "=" ++ kv.2 = label
  · rw [if_pos hl] at hget
    simp only [Option.some.injEq] at hget
    subst hget
    rcases GoMap.mem_set _ _ _ _ he with h | h
    · rw [h]
      exact hQ
    · cases hb : byLabel.get? (kv.1 ++ "=" ++ kv.2) with
      | none => rw [hb] at h; simp at h
      | some old =>
        rw [hb] at h
        exact hinv _ old e hb h
  · rw [if_neg hl] at hget
    exact hinv label bucket e hget he

theorem foldl_addLabel_mem (ns name : String) (resource : Unstructured)
    (labels : List (String × String)) (Q : Unstructured → Prop) (hQ : Q resource) :
    ∀ (byLabel : GoMap String (GoMap String Unstructured)),
      (∀ label bucket e, byLabel.get? label = some bucket → e ∈ bucket → Q e.2) →
      ∀ label bucket e,
        (labels.foldl (addLabel ns name resource) byLabel).get? label = some bucket →
        e ∈ bucket → Q e.2 := by
  induction labels with
  | nil => intro byLabel hinv; exact hinv
  | cons kv rest ih =>
    intro byLabel hinv
    rw [List.foldl_cons]
    exact ih _ (addLabel_mem ns name resource byLabel kv Q hQ hinv)

theorem byLabel_mem (rs : List Unstructured) (nss : List String) :
    ∀ label bucket e, (BuildIndex rs nss).byLabel.get? label = some bucket →
      e ∈ bucket → e.2 ∈ rs := by
  induction rs using List.reverseRecOn with
  | nil =>
    intro label bucket e hget
    simp [BuildIndex, NewResourceIndex, GoMap.get?] at hget
  | append_singleton rs r ih =>
    rw [BuildIndex_append]
    have hAdd : ((BuildIndex rs nss).Add r).byLabel =
        r.GetLabels.foldl (addLabel r.GetNamespace r.GetName r) (BuildIndex rs nss).byLabel :=
      rfl
    rw [hAdd]
    exact foldl_addLabel_mem _ _ r _ (fun x => x ∈ rs ++ [r]) (by simp) _
      (fun label bucket e hget he => List.mem_append_left _ (ih label bucket e hget he))

theorem intersectSelectors_subset (byLabel : GoMap String (GoMap String Unstructured))
    (rest : List String) :
    ∀ (candidates remaining : GoMap String Unstructured),
      intersectSelectors byLabel candidates rest = some remaining →
      ∀ e ∈ remaining, e ∈ candidates := by
  induction rest with
  | nil =>
    intro candidates remaining h e he
    simp only [intersectSelectors, Option.some.injEq] at h
    rw [h]
    exact he
  | cons t rest ih =>
    intro candidates remaining h e he
    unfold intersectSelectors at h
    cases ht : byLabel.get? (stringsTrimSpace t) with
    | none => rw [ht] at h; cases h
    | some m =>
      rw [ht] at h
      exact (List.mem_filter.mp (ih _ remaining h e he)).1

theorem FindByLabel_mem (idx : ResourceIndex) (sel : String) (l : List Unstructured)
    (r : Unstructured) (h : idx.FindByLabel sel = Result.ok l) (hr : r ∈ l) :
    (∃ label bucket e, idx.byLabel.get? label = some bucket ∧ e ∈ bucket ∧ e.2 = r) ∧
    r.DeepCopy = some r := by
  unfold ResourceIndex.FindByLabel at h
  by_cases hs : sel = ""
  · simp only [hs, if_true, Result.ok.injEq] at h
    subst h
    simp at hr
  · rw [if_neg hs] at h
    cases hsplit : stringsSplit sel ',' with
    | nil =>
      rw [hsplit] at h
      simp only [Result.ok.injEq] at h
      subst h
      simp at hr
    | cons first rest =>
      rw [hsplit] at h
      simp only [] at h
      cases hf : idx.byLabel.get? (stringsTrimSpace first) with
      | none =>
        rw [hf] at h
        simp only [Result.ok.injEq] at h
        subst h
        simp at hr
      | some candidates =>
        rw [hf] at h
        simp only [] at h
        cases hi : intersectSelectors idx.byLabel candidates rest with
        | none =>
          rw [hi] at h
          simp only [Result.ok.injEq] at h
          subst h
          simp at hr
        | some remaining =>
          rw [hi] at h
          simp only [] at h
          obtain ⟨hl, hcopy⟩ := returnCopies_eq _ l h
          subst hl
          have hr' := hr
          simp only [GoMap.values, List.mem_map] at hr'
          obtain ⟨e, he, rfl⟩ := hr'
          exact ⟨⟨_, candidates, e, hf,
            intersectSelectors_subset idx.byLabel rest candidates remaining hi e he, rfl⟩,
            hcopy _ hr⟩

theorem List_mem (rs : List Unstructured) (nss : List String) (k : GroupVersionKind)
    (ns : String) (l : List Unstructured) (r : Unstructured)
    (h : (BuildIndex rs nss).List k ns = Result.ok l) (hr : r ∈ l) :
    r ∈ rs ∧ r.DeepCopy = some r := by
  rw [List_eq_buckets] at h
  obtain ⟨hl, hcopy⟩ := returnCopies_eq _ l h
  subst hl
  refine ⟨?_, hcopy r hr⟩
  simp only [GoMap.values, List.mem_map] at hr
  obtain ⟨e, he, rfl⟩ := hr
  by_cases hns : ns = ""
  · simp only [hns, ne_eq, not_true_eq_false, if_false] at he
    exact (gvkBucket_mem rs nss k e he).1
  · simp only [hns, ne_eq, not_false_eq_true, if_true] at he
    exact (nsBucket_mem rs nss ns k e he).1

theorem Get_of_mem_distinct (rs : List Unstructured) (nss : List String) (r : Unstructured)
    (hd : rs.Pairwise (fun r1 r2 => ¬ sameIdentityKey r1 r2)) (hr : r ∈ rs)
    (hc : r.DeepCopy = some r) :
    (BuildIndex rs nss).Get r.GroupVersionKind r.GetNamespace r.GetName = Result.ok r := by
  rw [Get_eq_lookup]
  have hl := lookup_of_mem rs nss r hd hr
  unfold Unstructured.identityKey at hl
  rw [hl]
  simp [hc]

/-- C23 (as stated, refuted): with the records `b/c` of namespace `a` and `c`
of namespace `a/b`, the namespace view holds the first while the identity
view holds the second under the first one's key, so `List` returns a record
that `Get` on its identity does not return; with a labelled pod overwritten
by an unlabelled pod of the same identity, the label view still holds the
labelled one. -/
theorem views_diverge_counterexample :
    storedInSideViews (BuildIndex [slashInName, slashInNamespace] []) slashInName ∧
    (BuildIndex [slashInName, slashInNamespace] []).lookup slashInName.GroupVersionKind
      slashInName.identityKey = some slashInNamespace ∧
    (BuildIndex [slashInName, slashInNamespace] []).List widgetGVK "a" =
      Result.ok [slashInName] ∧
    (BuildIndex [slashInName, slashInNamespace] []).Get slashInName.GroupVersionKind
      slashInName.GetNamespace slashInName.GetName = Result.ok slashInNamespace ∧
    slashInNamespace ≠ slashInName ∧
    (BuildIndex [podApp, podBare] []).FindByLabel "app=foo" = Result.ok [podApp] ∧
    (BuildIndex [podApp, podBare] []).Get podApp.GroupVersionKind podApp.GetNamespace
      podApp.GetName = Result.ok podBare ∧
    podBare ≠ podApp := by
  refine ⟨Or.inl ⟨"a", widgetGVK, "b/c", rfl⟩, rfl, rfl, rfl, ?_, rfl, rfl, ?_⟩
  · simp [slashInName, slashInNamespace, manifest]
  · simp [podBare, podApp, manifest]

/-- C23 (amended): on an index built by `Add` from records no two of which
are filed under the same kind and identity key, every record stored in the
namespace view or in the label view is the record stored in the identity
view under its own kind and key, and every record that `List` or
`FindByLabel` returns is what `Get` returns for its kind, namespace and name. -/
theorem views_consistent (rs : List Unstructured) (nss : List String)
    (hd : rs.Pairwise (fun r1 r2 => ¬ sameIdentityKey r1 r2)) :
    (∀ r, storedInSideViews (BuildIndex rs nss) r →
      (BuildIndex rs nss).lookup r.GroupVersionKind r.identityKey = some r) ∧
    (∀ k ns l r, (BuildIndex rs nss).List k ns = Result.ok l → r ∈ l →
      (BuildIndex rs nss).Get r.GroupVersionKind r.GetNamespace r.GetName = Result.ok r) ∧
    (∀ sel l r, (BuildIndex rs nss).FindByLabel sel = Result.ok l → r ∈ l →
      (BuildIndex rs nss).Get r.GroupVersionKind r.GetNamespace r.GetName = Result.ok r) := by
  refine ⟨?_, ?_, ?_⟩
  · rintro r (⟨ns, k, name, h⟩ | ⟨label, bucket, key, hb, h⟩)
    · have he := GoMap.mem_of_get?_eq_some _ _ _ h
      exact lookup_of_mem rs nss r hd (nsBucket_mem rs nss ns k (name, r) he).1
    · have he := GoMap.mem_of_get?_eq_some _ _ _ h
      exact lookup_of_mem rs nss r hd (byLabel_mem rs nss label bucket (key, r) hb he)
  · intro k ns l r h hr
    obtain ⟨hm, hc⟩ := List_mem rs nss k ns l r h hr
    exact Get_of_mem_distinct rs nss r hd hm hc
  · intro sel l r h hr
    obtain ⟨⟨label, bucket, e, hb, he, rfl⟩, hc⟩ := FindByLabel_mem _ sel l r h hr
    exact Get_of_mem_distinct rs nss e.2 hd (byLabel_mem rs nss label bucket e hb he) hc

/-- C23 (amended), instance: two pods in `default` and one in `other`. -/
theorem views_consistent_witness :
    (∀ r, storedInSideViews (BuildIndex [podWeb1, podWeb2, podDb] ["default", "other"]) r →
      (BuildIndex [podWeb1, podWeb2, podDb] ["default", "other"]).lookup
        r.GroupVersionKind r.identityKey = some r) ∧
    (∀ k ns l r,
      (BuildIndex [podWeb1, podWeb2, podDb] ["default", "other"]).List k ns = Result.ok l →
      r ∈ l →
      (BuildIndex [podWeb1, podWeb2, podDb] ["default", "other"]).Get
        r.GroupVersionKind r.GetNamespace r.GetName = Result.ok r) ∧
    (∀ sel l r,
      (BuildIndex [podWeb1, podWeb2, podDb] ["default", "other"]).FindByLabel sel =
        Result.ok l →
      r ∈ l →
      (BuildIndex [podWeb1, podWeb2, podDb] ["default", "other"]).Get
        r.GroupVersionKind r.GetNamespace r.GetName = Result.ok r) :=
  views_consistent [podWeb1, podWeb2, podDb] ["default", "other"]
    (by
      simp only [List.pairwise_cons, List.mem_cons, List.mem_singleton, List.not_mem_nil,
        forall_eq_or_imp, forall_eq, List.Pairwise.nil, and_true, IsEmpty.forall_iff,
        implies_true]
      refine ⟨⟨?_, ?_⟩, ?_⟩ <;> exact fun h => absurd h.2 (by decide))

/-! ## The label path against the list path -/

/-- C22 (failing input): a pod and a service of the same namespace and name,
both labelled `app=foo`.  The list path returns the pod, which carries the
label; the label path returns nothing, the service having taken the pod's
place in the label view. -/
theorem listResources_label_path_misses_pod :
    [podApp, serviceApp].Pairwise (fun r1 r2 => ¬ sameIdentity r1 r2) ∧
    Result.map UnstructuredList.Items
      ((Provider.mk "/must-gather" (BuildIndex [podApp, serviceApp] ["default"])).ListResources
        podGVK "default" ⟨"", "", 0⟩) = Result.ok [podApp] ∧
    podApp.GetLabels.get? "app" = some "foo" ∧
    Result.map UnstructuredList.Items
      ((Provider.mk "/must-gather" (BuildIndex [podApp, serviceApp] ["default"])).ListResources
        podGVK "default" ⟨"app=foo", "", 0⟩) = Result.ok [] := by
  refine ⟨?_, rfl, rfl, rfl⟩
  rw [List.pairwise_pair]
  intro h
  exact absurd h.1 (by decide)

/-- C25 (failing input): a pod labelled `a=1` and a service labelled `b=2` of
the same namespace and name.  The selector `a=1,b=2` returns the pod, the
selector `b=2,a=1` returns the service. -/
theorem findByLabel_term_order_matters :
    (BuildIndex [podA1, serviceB2] ["default"]).FindByLabel "a=1,b=2" = Result.ok [podA1] ∧
    (BuildIndex [podA1, serviceB2] ["default"]).FindByLabel "b=2,a=1" =
      Result.ok [serviceB2] ∧
    podA1 ∉ [serviceB2] ∧ podA1.GroupVersionKind ≠ serviceB2.GroupVersionKind := by
  refine ⟨rfl, rfl, ?_, by decide⟩
  simp [podA1, serviceB2, manifest]

/-! ## Records of a decoded document -/

theorem itemsToResources_eq_filterMap (items : List Value) :
    itemsToResources items = items.filterMap objectRecord := by
  induction items with
  | nil => rfl
  | cons v rest ih =>
    cases v <;> simp [itemsToResources, objectRecord, List.filterMap_cons, ih]

theorem kind_of_document (d : GoMap String Value) :
    (NestedString d ["kind"]).1 =
      match d.get? "kind" with
      | some (.str s) => s
      | _ => "" := by
  unfold NestedString
  simp only [NestedFieldNoCopy]
  cases hk : GoMap.get? d "kind" with
  | none => rfl
  | some v => cases v <;> simp [NestedFieldNoCopy]

theorem kindEndsWithList_iff (d : GoMap String Value) :
    "List".data.isSuffixOf (NestedString d ["kind"]).1.data = true ↔ kindEndsWithList d := by
  rw [kind_of_document, List.isSuffixOf_iff_suffix]
  unfold kindEndsWithList
  cases hk : GoMap.get? d "kind" with
  | none =>
    simp only [reduceCtorEq, exists_false, iff_false]
    rintro ⟨t, ht⟩
    have := congrArg List.length ht
    simp at this
  | some v =>
    cases v with
    | str s =>
      simp only [Option.some.injEq, Value.str.injEq]
      constructor
      · rintro ⟨t, ht⟩
        exact ⟨String.mk t, String.ext (by simp [String.data_append, ht])⟩
      · rintro ⟨stem, hs⟩
        exact ⟨stem.data, by rw [hs, String.data_append]⟩
    | null | bool _ | int _ | int64 _ | float64 _ | other _ | slice _ | map _ =>
      simp only [Option.some.injEq, reduceCtorEq, exists_false, iff_false]
      rintro ⟨t, ht⟩
      have := congrArg List.length ht
      simp at this

/-- C26: an empty document yields no record; a non-empty document whose
`kind` is a string ending in `List` yields the object maps among the
elements of its `items` array, in order, and nothing when `items` is missing
or not an array; every other non-empty document yields exactly one record
whose body is the document. -/
theorem loadMultiResourceDocument_records (d : GoMap String Value) :
    (d = [] → loadMultiResourceDocument d = []) ∧
    (d ≠ [] → kindEndsWithList d → ∀ items, d.get? "items" = some (.slice items) →
      loadMultiResourceDocument d = items.filterMap objectRecord ∧
      (loadMultiResourceDocument d).map Unstructured.Object =
        items.filterMap (fun v => (objectRecord v).map Unstructured.Object)) ∧
    (d ≠ [] → kindEndsWithList d → (∀ items, d.get? "items" ≠ some (.slice items)) →
      loadMultiResourceDocument d = []) ∧
    (d ≠ [] → ¬ kindEndsWithList d → loadMultiResourceDocument d = [⟨d⟩]) := by
  have hlen : d ≠ [] → ¬ d.length = 0 := fun h hl => h (List.length_eq_zero.mp hl)
  refine ⟨?_, ?_, ?_, ?_⟩
  · intro h
    simp [loadMultiResourceDocument, h]
  · intro hne hk items hitems
    have h1 : loadMultiResourceDocument d = items.filterMap objectRecord := by
      unfold loadMultiResourceDocument
      rw [if_neg (hlen hne), if_pos ((kindEndsWithList_iff d).mpr hk), hitems]
      exact itemsToResources_eq_filterMap items
    refine ⟨h1, ?_⟩
    rw [h1, List.map_filterMap]
  · intro hne hk hitems
    unfold loadMultiResourceDocument
    rw [if_neg (hlen hne), if_pos ((kindEndsWithList_iff d).mpr hk)]
    cases hi : GoMap.get? d "items" with
    | none => rfl
    | some v =>
      cases v with
      | slice items => exact absurd hi (hitems items)
      | null | bool _ | str _ | int _ | int64 _ | float64 _ | other _ | map _ => rfl
  · intro hne hk
    unfold loadMultiResourceDocument
    rw [if_neg (hlen hne), if_neg (fun h => hk ((kindEndsWithList_iff d).mp h))]

/-- C26, instance: a `PodList` whose items are a pod, a string, a second pod
and a number. -/
theorem loadMultiResourceDocument_records_witness :
    loadMultiResourceDocument podListDocument =
        [.map podWeb1.Object, .str "stray", .map podWeb2.Object, .int 7].filterMap
          objectRecord ∧
    (loadMultiResourceDocument podListDocument).map Unstructured.Object =
      [.map podWeb1.Object, .str "stray", .map podWeb2.Object, .int 7].filterMap
        (fun v => (objectRecord v).map Unstructured.Object) :=
  (loadMultiResourceDocument_records podListDocument).2.1 (by simp [podListDocument])
    ⟨"Pod", rfl⟩ _ rfl

/-- C27: for a cluster-scoped file that decodes to `d`, the loader reports no
error; an empty `d` yields no record and a non-empty `d` exactly one record
whose body is `d`, with no condition on its `kind`; the walk appends that
record, if any, to the collection. -/
theorem loadSingleResourceFile_records (decode : String → Option (GoMap String Value))
    (name data : String) (d : GoMap String Value) (resources : List Unstructured)
    (hdec : decode data = some d) (hyaml : isYAMLFile name = true) :
    (d = [] → loadSingleResourceFile decode (.file (some data)) = Result.ok none ∧
      clusterWalkFn decode name (.file (some data)) false resources = Result.ok resources) ∧
    (d ≠ [] → loadSingleResourceFile decode (.file (some data)) = Result.ok (some ⟨d⟩) ∧
      clusterWalkFn decode name (.file (some data)) false resources =
        Result.ok (resources ++ [⟨d⟩])) := by
  constructor
  · intro h
    have h1 : loadSingleResourceFile decode (.file (some data)) = Result.ok none := by
      simp [loadSingleResourceFile, FsNode.readFile, hdec, loadSingleResourceDocument, h]
    refine ⟨h1, ?_⟩
    simp [clusterWalkFn, FsNode.isDir, hyaml, h1]
  · intro h
    have hl : ¬ d.length = 0 := fun hl => h (List.length_eq_zero.mp hl)
    have h1 : loadSingleResourceFile decode (.file (some data)) = Result.ok (some ⟨d⟩) := by
      simp [loadSingleResourceFile, FsNode.readFile, hdec, loadSingleResourceDocument, hl]
    refine ⟨h1, ?_⟩
    simp [clusterWalkFn, FsNode.isDir, hyaml, h1]

/-- C27, instance: a cluster-scoped file holding a `NodeList` document. -/
theorem loadSingleResourceFile_records_witness :
    (nodeListDocument = [] →
      loadSingleResourceFile (fun _ => some nodeListDocument) (.file (some "nodes")) =
        Result.ok none ∧
      clusterWalkFn (fun _ => some nodeListDocument) "nodes.yaml" (.file (some "nodes"))
        false [podWeb1] = Result.ok [podWeb1]) ∧
    (nodeListDocument ≠ [] →
      loadSingleResourceFile (fun _ => some nodeListDocument) (.file (some "nodes")) =
        Result.ok (some ⟨nodeListDocument⟩) ∧
      clusterWalkFn (fun _ => some nodeListDocument) "nodes.yaml" (.file (some "nodes"))
        false [podWeb1] = Result.ok ([podWeb1] ++ [⟨nodeListDocument⟩])) :=
  loadSingleResourceFile_records (fun _ => some nodeListDocument) "nodes.yaml" "nodes"
    nodeListDocument [podWeb1] rfl (by decide)

/-! ## Root resolution -/

theorem hasInfix_iff (sub l : List Char) : hasInfix sub l = true ↔ sub <:+: l := by
  induction l with
  | nil =>
    simp only [hasInfix, List.isPrefixOf_iff_prefix, List.prefix_nil, List.infix_nil]
  | cons c cs ih =>
    simp only [hasInfix, Bool.or_eq_true, List.isPrefixOf_iff_prefix, ih, List.infix_cons_iff]

theorem qualifies_iff (name : String) (node : FsNode) :
    (node.isDir && ("quay".data.isPrefixOf name.data || hasInfix "sha256".data name.data)) =
      true ↔ qualifies (name, node) := by
  unfold qualifies
  simp only [Bool.and_eq_true, Bool.or_eq_true, List.isPrefixOf_iff_prefix, hasInfix_iff]

theorem findContainerEntry_first (pre post : List (String × FsNode)) (e : String × FsNode)
    (he : qualifies e) (hpre : ∀ x ∈ pre, ¬ qualifies x) :
    findContainerEntry (pre ++ e :: post) = some e := by
  induction pre with
  | nil =>
    obtain ⟨name, node⟩ := e
    simp only [List.nil_append, findContainerEntry]
    rw [if_pos ((qualifies_iff name node).mpr he)]
  | cons x pre ih =>
    obtain ⟨name, node⟩ := x
    have hx : ¬ qualifies (name, node) := hpre _ (List.mem_cons_self _ _)
    simp only [List.cons_append, findContainerEntry]
    rw [if_neg (fun h => hx ((qualifies_iff name node).mp h))]
    exact ih (fun y hy => hpre y (List.mem_cons_of_mem _ hy))

theorem findContainerEntry_none (entries : List (String × FsNode))
    (h : ∀ x ∈ entries, ¬ qualifies x) : findContainerEntry entries = none := by
  induction entries with
  | nil => rfl
  | cons x rest ih =>
    obtain ⟨name, node⟩ := x
    have hx : ¬ qualifies (name, node) := h _ (List.mem_cons_self _ _)
    simp only [findContainerEntry]
    rw [if_neg (fun hq => hx ((qualifies_iff name node).mp hq))]
    exact ih (fun y hy => h y (List.mem_cons_of_mem _ hy))

/-- C28: for every listing of the root, the effective archive root is the
first entry, in listing order, that is a directory whose name starts with
`quay` or contains `sha256`, addressed as `filepath.Join(root, name)`; when
no entry qualifies, the effective root is the given root and its path the
given path, and `Load` fails for no reason of the root resolution. -/
theorem root_resolution (join : String → String → String) (basePath : String)
    (entries : List (String × FsNode)) :
    (∀ pre e post, entries = pre ++ e :: post → qualifies e → (∀ x ∈ pre, ¬ qualifies x) →
      containerDirOf (.dir true entries) = e.2 ∧
      containerPathOf join basePath (.dir true entries) = join basePath e.1) ∧
    ((∀ x ∈ entries, ¬ qualifies x) →
      containerDirOf (.dir true entries) = .dir true entries ∧
      containerPathOf join basePath (.dir true entries) = basePath ∧
      ∀ decode parseTime,
        (¬ walkBlocked (.dir true entries)) →
        ∃ res, Load decode parseTime basePath (some (.dir true entries)) = Result.ok res) := by
  constructor
  · intro pre e post hsplit he hpre
    have hf := findContainerEntry_first pre post e he hpre
    rw [← hsplit] at hf
    simp [containerDirOf, containerPathOf, findContainerDir, FsNode.readDir, hf]
  · intro hnone
    have hf := findContainerEntry_none entries hnone
    have hc : containerDirOf (.dir true entries) = .dir true entries := by
      simp [containerDirOf, findContainerDir, FsNode.readDir, hf]
    refine ⟨hc, by simp [containerPathOf, findContainerDir, FsNode.readDir, hf], ?_⟩
    intro decode parseTime hb
    rw [← hc] at hb
    obtain ⟨res, hres, -⟩ := Load_ok_of_not_blocked decode parseTime basePath _ hb
    exact ⟨res, hres⟩

/-- C28, instance: a listing in which two regular files match before the
first matching directory. -/
theorem root_resolution_witness :
    containerDirOf (.dir true quayRootEntries) =
        .dir true [("version", .file (some "4.14"))] ∧
    containerPathOf (fun base name => base ++ "/" ++ name) "/must-gather"
        (.dir true quayRootEntries) =
      (fun base name => base ++ "/" ++ name) "/must-gather"
        "quay-io-openshift-release-dev-sha256-0f3e" :=
  (root_resolution (fun base name => base ++ "/" ++ name) "/must-gather" quayRootEntries).1
    [("event-filter.html", .file (some "")),
     ("quay-io-release-sha256-0f3e.log", .file (some ""))]
    ("quay-io-openshift-release-dev-sha256-0f3e", .dir true [("version", .file (some "4.14"))])
    [("registry-sha256-77aa", .dir true [])]
    rfl
    ⟨rfl, Or.inl (by decide)⟩
    (by
      intro x hx
      simp only [List.mem_cons, List.mem_singleton, List.not_mem_nil, or_false] at hx
      rcases hx with rfl | rfl <;> exact fun h => absurd h.1 (by decide))

/-! ## Metadata extraction -/

theorem stripPrefix_eq (keyword text : List Char) :
    stripPrefix keyword text =
      if keyword.isPrefixOf text = true then some (text.drop keyword.length) else none := by
  induction keyword generalizing text with
  | nil => simp [stripPrefix, List.isPrefixOf]
  | cons p ps ih =>
    cases text with
    | nil => simp [stripPrefix, List.isPrefixOf]
    | cons c cs =>
      by_cases hpc : p = c
      · subst hpc
        simp [stripPrefix, List.isPrefixOf, ih]
      · simp [stripPrefix, List.isPrefixOf, hpc]

theorem started_not_ended (text : List Char) (h : "started ".data.isPrefixOf text = true) :
    "ended ".data.isPrefixOf text = false := by
  have hs : "started ".data = ['s', 't', 'a', 'r', 't', 'e', 'd', ' '] := rfl
  have he : "ended ".data = ['e', 'n', 'd', 'e', 'd', ' '] := rfl
  rw [hs] at h
  rw [he]
  cases text with
  | nil => simp [List.isPrefixOf] at h
  | cons c cs =>
    simp only [List.isPrefixOf, Bool.and_eq_true, beq_iff_eq] at h
    have hc : c = 's' := h.1.symm
    subst hc
    simp [List.isPrefixOf]

theorem applyTimestampLine_fields (parseTime : String → Option Time) (metadata : LoadMetadata)
    (rawLine : String) :
    (applyTimestampLine parseTime metadata rawLine).StartTime =
        (timestampOf parseTime "started " rawLine).getD metadata.StartTime ∧
    (applyTimestampLine parseTime metadata rawLine).EndTime =
        (timestampOf parseTime "ended " rawLine).getD metadata.EndTime ∧
    (applyTimestampLine parseTime metadata rawLine).Version = metadata.Version ∧
    (applyTimestampLine parseTime metadata rawLine).Path = metadata.Path ∧
    (applyTimestampLine parseTime metadata rawLine).ResourceCount = metadata.ResourceCount ∧
    (applyTimestampLine parseTime metadata rawLine).NamespaceCount =
        metadata.NamespaceCount := by
  have hls : "started ".length = "started ".data.length := rfl
  have hle : "ended ".length = "ended ".data.length := rfl
  unfold applyTimestampLine timestampOf
  simp only [stripPrefix_eq, hls, hle]
  by_cases hs : "started ".data.isPrefixOf (stringsTrimSpace rawLine).data = true
  · have he := started_not_ended _ hs
    simp only [hs, he, if_true]
    cases parseTime (String.mk ((stringsTrimSpace rawLine).data.drop "started ".data.length))
      <;> simp
  · by_cases he : "ended ".data.isPrefixOf (stringsTrimSpace rawLine).data = true
    · simp only [hs, he, if_true, if_false]
      cases parseTime (String.mk ((stringsTrimSpace rawLine).data.drop "ended ".data.length))
        <;> simp
    · simp [hs, he]

theorem foldl_applyTimestampLine_fields (parseTime : String → Option Time)
    (lines : List String) (metadata : LoadMetadata) :
    (lines.foldl (applyTimestampLine parseTime) metadata).StartTime =
        lastOr metadata.StartTime (lines.filterMap (timestampOf parseTime "started ")) ∧
    (lines.foldl (applyTimestampLine parseTime) metadata).EndTime =
        lastOr metadata.EndTime (lines.filterMap (timestampOf parseTime "ended ")) ∧
    (lines.foldl (applyTimestampLine parseTime) metadata).Version = metadata.Version ∧
    (lines.foldl (applyTimestampLine parseTime) metadata).Path = metadata.Path ∧
    (lines.foldl (applyTimestampLine parseTime) metadata).ResourceCount =
        metadata.ResourceCount ∧
    (lines.foldl (applyTimestampLine parseTime) metadata).NamespaceCount =
        metadata.NamespaceCount := by
  induction lines generalizing metadata with
  | nil => simp [lastOr]
  | cons line rest ih =>
    obtain ⟨h1, h2, h3, h4, h5, h6⟩ := ih (applyTimestampLine parseTime metadata line)
    obtain ⟨g1, g2, g3, g4, g5, g6⟩ := applyTimestampLine_fields parseTime metadata line
    simp only [List.foldl_cons]
    refine ⟨?_, ?_, h3.trans g3, h4.trans g4, h5.trans g5, h6.trans g6⟩
    · rw [h1, g1, List.filterMap_cons]
      cases timestampOf parseTime "started " line <;> simp [lastOr]
    · rw [h2, g2, List.filterMap_cons]
      cases timestampOf parseTime "ended " line <;> simp [lastOr]

/-- C29: `loadMetadata` is total and returns the metadata, never an error.
`Version` is the trimmed content of the version file; `StartTime`
(`EndTime`) is the time of the last line of the timestamp file that,
trimmed, reads `started <t>` (`ended <t>`) with `<t>` accepted by the time
parser; a field whose file cannot be read, or for which no such line exists,
keeps the value it had, which `Load` sets to the zero value. The path and
the counts are left as they were. -/
theorem loadMetadata_fields (parseTime : String → Option Time) (containerDir : FsNode)
    (metadata : LoadMetadata) :
    (loadMetadata parseTime containerDir metadata).Version =
      (match (containerDir.child "version").bind FsNode.readFile with
        | some data => stringsTrimSpace data
        | none => metadata.Version) ∧
    (loadMetadata parseTime containerDir metadata).StartTime =
      (match (containerDir.child "timestamp").bind FsNode.readFile with
        | some data => lastOr metadata.StartTime
            ((stringsSplit data '\n').filterMap (timestampOf parseTime "started "))
        | none => metadata.StartTime) ∧
    (loadMetadata parseTime containerDir metadata).EndTime =
      (match (containerDir.child "timestamp").bind FsNode.readFile with
        | some data => lastOr metadata.EndTime
            ((stringsSplit data '\n').filterMap (timestampOf parseTime "ended "))
        | none => metadata.EndTime) ∧
    (loadMetadata parseTime containerDir metadata).Path = metadata.Path ∧
    (loadMetadata parseTime containerDir metadata).ResourceCount = metadata.ResourceCount ∧
    (loadMetadata parseTime containerDir metadata).NamespaceCount =
      metadata.NamespaceCount := by
  unfold loadMetadata
  cases hv : (containerDir.child "version").bind FsNode.readFile with
  | none =>
    cases ht : (containerDir.child "timestamp").bind FsNode.readFile with
    | none => exact ⟨rfl, rfl, rfl, rfl, rfl, rfl⟩
    | some stamps =>
      obtain ⟨h1, h2, h3, h4, h5, h6⟩ := foldl_applyTimestampLine_fields parseTime
        (stringsSplit stamps '\n') metadata
      exact ⟨h3, h1, h2, h4, h5, h6⟩
  | some version =>
    cases ht : (containerDir.child "timestamp").bind FsNode.readFile with
    | none => exact ⟨rfl, rfl, rfl, rfl, rfl, rfl⟩
    | some stamps =>
      obtain ⟨h1, h2, h3, h4, h5, h6⟩ := foldl_applyTimestampLine_fields parseTime
        (stringsSplit stamps '\n') { metadata with Version := stringsTrimSpace version }
      exact ⟨h3, h1, h2, h4, h5, h6⟩

/-- C29, instance: a timestamp file with a start line, an indented end line
and an end line whose time does not parse. -/
theorem loadMetadata_fields_witness :
    (loadMetadata sampleParseTime stampedArchive
        { Path := "/must-gather", Version := "", StartTime := 0, EndTime := 0,
          ResourceCount := 0, NamespaceCount := 0 }).Version = "4.14.3" ∧
    (loadMetadata sampleParseTime stampedArchive
        { Path := "/must-gather", Version := "", StartTime := 0, EndTime := 0,
          ResourceCount := 0, NamespaceCount := 0 }).StartTime = 100 ∧
    (loadMetadata sampleParseTime stampedArchive
        { Path := "/must-gather", Version := "", StartTime := 0, EndTime := 0,
          ResourceCount := 0, NamespaceCount := 0 }).EndTime = 190 ∧
    (loadMetadata sampleParseTime (.dir true [])
        { Path := "/must-gather", Version := "", StartTime := 0, EndTime := 0,
          ResourceCount := 0, NamespaceCount := 0 }).StartTime = 0 :=
  ⟨(loadMetadata_fields sampleParseTime stampedArchive _).1.trans (by decide),
   (loadMetadata_fields sampleParseTime stampedArchive _).2.1.trans (by decide),
   (loadMetadata_fields sampleParseTime stampedArchive _).2.2.1.trans (by decide),
   (loadMetadata_fields sampleParseTime (.dir true []) _).2.1.trans (by decide)⟩

end MustGather
